import Mathlib

/-!
A verification development for the MSVC symbol demangler
(`MicrosoftDemangle.cpp`).  The parser and the writer are embedded
shallowly: the mutable `Demangler` state (remaining input, latched error
string, the table of the first ten names, and an undefined-behaviour flag)
becomes an explicit `PState` record that every `read_*` function threads;
arena-allocated `Type` and `Name` nodes become values of mutually inductive
types.  The in-place pointer surgery that `read_params` performs on the
`next` fields of its freshly allocated parameter nodes is modelled
faithfully with an explicit allocation list and index-valued pointers,
because that surgery (and its null dereference) is observable.

Machine-integer caveats, mirrored rather than idealised:
* the memoization guard `input.len - len > 1` is `size_t` arithmetic and
  wraps, so it is modelled as `(new + 2^64 - old) % 2^64 > 1`;
* `Type::len` is a `uint32_t` assigned from an `int`, modelled by reducing
  the parsed number modulo `2^32`;
* the `(ret << 4) + (c - 'A')` accumulation in `read_number` is `int32_t`
  arithmetic, modelled with two's-complement wrapping;
* fields that C++ leaves indeterminate in a freshly allocated node
  (`prim`, `calling_conv`, `func_class`, `len`) get fixed defaults; no
  claim below depends on their values on paths where C++ never writes them.

Dereferencing a null `Type*` (which the source can do in the digit branch
of `read_params`) sets the `ub` flag; the writer returns `Option.none` when
it would dereference a null child.
-/

namespace MD

abbrev Chars := List Char

/-- Storage class bits (C++ anonymous enum). -/
def ConstSC : Nat := 1
def VolatileSC : Nat := 2
def FarSC : Nat := 4

/-- Function class bits (C++ `FuncClass`). -/
def PublicFC : Nat := 1
def ProtectedFC : Nat := 2
def PrivateFC : Nat := 4
def GlobalFC : Nat := 8
def StaticFC : Nat := 16
def VirtualFC : Nat := 32
def FFarFC : Nat := 64

inductive CallingConv : Type where
  | Cdecl | Pascal | Thiscall | Stdcall | Fastcall | Regcall
  deriving Repr, DecidableEq

inductive PrimTy : Type where
  | Unknown | NoneTy | Function | Ptr | Ref | Array
  | Struct | Union | Class | Enum
  | Void | Bool | Char | Schar | Uchar | Short | Ushort | Int | Uint
  | Long | Ulong | Llong | Ullong | Wchar | Float | Double | Ldouble
  deriving Repr, DecidableEq

mutual
/-- The C++ `Type` node.  `ptr` is the child (`Type *ptr`), `name` the
qualified name (`Name *name`, outermost component first, as the linked list
produced by `read_name`), `params` the parameter list (`Type *params`
chained through `next`). -/
inductive CType : Type where
  | mk (prim : PrimTy) (ptr : COpt) (sclass : Nat) (cconv : CallingConv)
       (fclass : Nat) (len : Nat) (name : NameSeq) (params : TyList)

/-- `Type *`: null or a node. -/
inductive COpt : Type where
  | none
  | some (t : CType)

/-- A `next`-linked list of `Type` nodes. -/
inductive TyList : Type where
  | nil
  | cons (t : CType) (ts : TyList)

/-- A `next`-linked list of `Name` components; each carries its text and
its template parameters. -/
inductive NameSeq : Type where
  | nil
  | cons (str : Chars) (params : TyList) (rest : NameSeq)
end

def CType.prim : CType → PrimTy
  | .mk p _ _ _ _ _ _ _ => p

def CType.ptr : CType → COpt
  | .mk _ q _ _ _ _ _ _ => q

def CType.sclass : CType → Nat
  | .mk _ _ s _ _ _ _ _ => s

def CType.cconv : CType → CallingConv
  | .mk _ _ _ c _ _ _ _ => c

def CType.fclass : CType → Nat
  | .mk _ _ _ _ f _ _ _ => f

def CType.len : CType → Nat
  | .mk _ _ _ _ _ l _ _ => l

def CType.name : CType → NameSeq
  | .mk _ _ _ _ _ _ n _ => n

def CType.params : CType → TyList
  | .mk _ _ _ _ _ _ _ ps => ps

def CType.setPrim : CType → PrimTy → CType
  | .mk _ b c d e f g h, p => .mk p b c d e f g h

def CType.setPtr : CType → COpt → CType
  | .mk a _ c d e f g h, b => .mk a b c d e f g h

def CType.setSclass : CType → Nat → CType
  | .mk a b _ d e f g h, c => .mk a b c d e f g h

def CType.setCconv : CType → CallingConv → CType
  | .mk a b c _ e f g h, d => .mk a b c d e f g h

def CType.setFclass : CType → Nat → CType
  | .mk a b c d _ f g h, e => .mk a b c d e f g h

def CType.setLen : CType → Nat → CType
  | .mk a b c d e _ g h, f => .mk a b c d e f g h

def CType.setName : CType → NameSeq → CType
  | .mk a b c d e f _ h, g => .mk a b c d e f g h

def CType.setParams : CType → TyList → CType
  | .mk a b c d e f g _, h => .mk a b c d e f g h

/-- A freshly allocated `new (arena) Type`: the null/zero fields follow the
member initialisers; `prim`, `cconv`, `fclass` and `len` are indeterminate
in C++ and fixed here. -/
def defTy : CType := .mk .Unknown .none 0 .Cdecl 0 0 .nil .nil

def TyList.length : TyList → Nat
  | .nil => 0
  | .cons _ ts => 1 + ts.length

/-- The demangler's mutable state: the shrinking input view, the latched
error string, the `repeated_names` table, and a flag recording that the
run performed undefined behaviour (null `Type*` dereference). -/
structure PState where
  input : Chars
  error : String
  names : List Chars
  ub : Bool
  deriving Repr, DecidableEq

def setErr (msg : String) (st : PState) : PState := { st with error := msg }

/-- `String::startswith(char)`. -/
def startsWithC (s : Chars) (c : Char) : Bool :=
  match s with
  | [] => false
  | d :: _ => d = c

/-- `String::startswith_digit()`. -/
def startswithD (s : Chars) : Bool :=
  match s with
  | [] => false
  | c :: _ => '0' ≤ c ∧ c ≤ '9'

def digitVal (s : Chars) : Nat :=
  match s with
  | c :: _ => c.toNat - 48
  | [] => 0

/-- `Demangler::consume`: trim the literal iff it is a prefix. -/
def consume (pre : Chars) (st : PState) : Bool × PState :=
  if pre.isPrefixOf st.input then
    (true, { st with input := st.input.drop pre.length })
  else (false, st)

/-- `Demangler::expect`. -/
def expect (pre : Chars) (st : PState) : PState :=
  let r := consume pre st
  if r.1 then r.2
  else setErr (String.mk pre ++ " expected, but got " ++ String.mk st.input) st

/-- Two's-complement wrap to `int32_t` (the C++ accumulation in
`read_number` is signed-overflowing; this models the usual wrapping). -/
def wrap32 (n : Int) : Int := (n + 2 ^ 31) % 2 ^ 32 - 2 ^ 31

/-- `uint32_t` conversion used when the parsed length is stored into
`Type::len`. -/
def toU32 (n : Int) : Nat := (n % (2 ^ 32 : Int)).toNat

/-- The hex-digit scanning loop of `read_number`: `Option.none` means the
loop ended without a `'@'` terminator (the "bad number" error). -/
def readNumLoop : Chars → Int → Option (Int × Chars)
  | [], _ => Option.none
  | c :: rest, ret =>
    if c = '@' then Option.some (ret, rest)
    else if 'A' ≤ c ∧ c ≤ 'P' then
      readNumLoop rest (wrap32 (ret * 16 + ((c.toNat : Int) - 65)))
    else Option.none

/-- `Demangler::read_number`. -/
def read_number (st : PState) : Int × PState :=
  let r := consume ['?'] st
  let neg := r.1
  let st := r.2
  if startswithD st.input then
    let ret : Int := (digitVal st.input : Int) + 1
    (if neg then -ret else ret, { st with input := st.input.drop 1 })
  else
    match readNumLoop st.input 0 with
    | Option.some (ret, rest) =>
      (if neg then -ret else ret, { st with input := rest })
    | Option.none => (0, setErr "bad number" st)

/-- `Demangler::memorize_string`: append to `repeated_names` unless the
table is full or the string is already present. -/
def memorize_string (s : Chars) (st : PState) : PState :=
  if 10 ≤ st.names.length then st
  else if st.names.contains s then st
  else { st with names := st.names ++ [s] }

/-- `Demangler::read_string`: read up to the next `'@'`. -/
def read_string (memorize : Bool) (st : PState) : Chars × PState :=
  match st.input.findIdx? (· = '@') with
  | Option.some i =>
    let ret := st.input.take i
    let st := { st with input := st.input.drop (i + 1) }
    (ret, if memorize then memorize_string ret st else st)
  | Option.none =>
    ([], setErr ("read_string: missing '@': " ++ String.mk st.input) st)

/-- `Demangler::read_func_class`. -/
def fcOf (c : Char) : Option Nat :=
  if c = 'A' then Option.some PrivateFC
  else if c = 'B' then Option.some (PrivateFC ||| FFarFC)
  else if c = 'C' then Option.some (PrivateFC ||| StaticFC)
  else if c = 'D' then Option.some (PrivateFC ||| StaticFC)
  else if c = 'E' then Option.some (PrivateFC ||| VirtualFC)
  else if c = 'F' then Option.some (PrivateFC ||| VirtualFC)
  else if c = 'I' then Option.some ProtectedFC
  else if c = 'J' then Option.some (ProtectedFC ||| FFarFC)
  else if c = 'K' then Option.some (ProtectedFC ||| StaticFC)
  else if c = 'L' then Option.some (ProtectedFC ||| StaticFC ||| FFarFC)
  else if c = 'M' then Option.some (ProtectedFC ||| VirtualFC)
  else if c = 'N' then Option.some (ProtectedFC ||| VirtualFC ||| FFarFC)
  else if c = 'Q' then Option.some PublicFC
  else if c = 'R' then Option.some (PublicFC ||| FFarFC)
  else if c = 'S' then Option.some (PublicFC ||| StaticFC)
  else if c = 'T' then Option.some (PublicFC ||| StaticFC ||| FFarFC)
  else if c = 'U' then Option.some (PublicFC ||| VirtualFC)
  else if c = 'V' then Option.some (PublicFC ||| VirtualFC ||| FFarFC)
  else if c = 'Y' then Option.some GlobalFC
  else if c = 'Z' then Option.some (GlobalFC ||| FFarFC)
  else Option.none

def read_func_class (st : PState) : Nat × PState :=
  match st.input with
  | [] => (0, setErr ("unknown func class: " ++ String.mk st.input) st)
  | c :: r =>
    match fcOf c with
    | Option.some v => (v, { st with input := r })
    | Option.none => (0, setErr ("unknown func class: " ++ String.mk st.input) st)

/-- `Demangler::read_func_access_class`. -/
def acOf (c : Char) : Option Nat :=
  if c = 'A' then Option.some 0
  else if c = 'B' then Option.some ConstSC
  else if c = 'C' then Option.some VolatileSC
  else if c = 'D' then Option.some (ConstSC ||| VolatileSC)
  else Option.none

def read_func_access_class (st : PState) : Nat × PState :=
  match st.input with
  | [] => (0, st)
  | c :: r =>
    match acOf c with
    | Option.some v => (v, { st with input := r })
    | Option.none => (0, st)

/-- `Demangler::read_calling_conv`. -/
def ccOf (c : Char) : Option CallingConv :=
  if c = 'A' then Option.some .Cdecl
  else if c = 'B' then Option.some .Cdecl
  else if c = 'C' then Option.some .Pascal
  else if c = 'E' then Option.some .Thiscall
  else if c = 'G' then Option.some .Stdcall
  else if c = 'I' then Option.some .Fastcall
  else Option.none

def read_calling_conv (st : PState) : CallingConv × PState :=
  match st.input with
  | [] => (.Cdecl, setErr ("unknown calling convention: " ++ String.mk st.input) st)
  | c :: r =>
    match ccOf c with
    | Option.some v => (v, { st with input := r })
    | Option.none =>
      (.Cdecl, setErr ("unknown calling convention: " ++ String.mk st.input) st)

/-- `Demangler::read_storage_class`. -/
def scOf (c : Char) : Option Nat :=
  if c = 'A' then Option.some 0
  else if c = 'B' then Option.some ConstSC
  else if c = 'C' then Option.some VolatileSC
  else if c = 'D' then Option.some (ConstSC ||| VolatileSC)
  else if c = 'E' then Option.some FarSC
  else if c = 'F' then Option.some (ConstSC ||| FarSC)
  else if c = 'G' then Option.some (VolatileSC ||| FarSC)
  else if c = 'H' then Option.some (ConstSC ||| VolatileSC ||| FarSC)
  else Option.none

def read_storage_class (st : PState) : Nat × PState :=
  match st.input with
  | [] => (0, st)
  | c :: r =>
    match scOf c with
    | Option.some v => (v, { st with input := r })
    | Option.none => (0, st)

/-- `Demangler::read_storage_class_for_return`. -/
def read_storage_class_for_return (st : PState) : Nat × PState :=
  let r := consume ['?', 'A'] st
  if r.1 then (0, r.2) else
  let r := consume ['?', 'B'] st
  if r.1 then (ConstSC, r.2) else
  let r := consume ['?', 'C'] st
  if r.1 then (VolatileSC, r.2) else
  let r := consume ['?', 'D'] st
  if r.1 then (ConstSC ||| VolatileSC, r.2) else
  (0, st)

/-- `Demangler::read_prim_type`.  On the error path the bytes read by
`get()` stay consumed (the source does not unget them); the error message
uses the saved original view. -/
def primOf (c : Char) : Option PrimTy :=
  if c = 'X' then Option.some .Void
  else if c = 'D' then Option.some .Char
  else if c = 'C' then Option.some .Schar
  else if c = 'E' then Option.some .Uchar
  else if c = 'F' then Option.some .Short
  else if c = 'G' then Option.some .Ushort
  else if c = 'H' then Option.some .Int
  else if c = 'I' then Option.some .Uint
  else if c = 'J' then Option.some .Long
  else if c = 'K' then Option.some .Ulong
  else if c = 'M' then Option.some .Float
  else if c = 'N' then Option.some .Double
  else if c = 'O' then Option.some .Ldouble
  else Option.none

def primOfU (c : Char) : Option PrimTy :=
  if c = 'N' then Option.some .Bool
  else if c = 'J' then Option.some .Llong
  else if c = 'K' then Option.some .Ullong
  else if c = 'W' then Option.some .Wchar
  else Option.none

def read_prim_type (st : PState) : PrimTy × PState :=
  let orig := st.input
  match st.input with
  | [] => (.Unknown, setErr ("unknown primitive type: " ++ String.mk orig) st)
  | c :: rest =>
    if c = '_' then
      match rest with
      | [] =>
        (.Unknown, setErr ("unknown primitive type: " ++ String.mk orig)
          { st with input := [] })
      | d :: r2 =>
        match primOfU d with
        | Option.some p => (p, { st with input := r2 })
        | Option.none =>
          (.Unknown, setErr ("unknown primitive type: " ++ String.mk orig)
            { st with input := r2 })
    else
      match primOf c with
      | Option.some p => (p, { st with input := rest })
      | Option.none =>
        (.Unknown, setErr ("unknown primitive type: " ++ String.mk orig)
          { st with input := rest })

/-- One parameter-list node in the modelled arena: its value (all `Type`
fields except `next`) and its `next` pointer as an index. -/
structure PNode where
  val : CType
  next : Option Nat

def pdef : PNode := ⟨defTy, Option.none⟩

/-- Write `*tp = j` where `tp` either points at the list head
(`Option.none`) or at the `next` field of node `i` (`Option.some i`). -/
def tpWrite (tp : Option Nat) (j : Nat) (head : Option Nat)
    (allocs : List PNode) : Option Nat × List PNode :=
  match tp with
  | Option.none => (Option.some j, allocs)
  | Option.some i => (head, allocs.set i { allocs.getD i pdef with next := Option.some j })

/-- Follow the `next` chain from `head`, collecting node values.  The
`Bool` is false iff the fuel ran out (a cycle, which reachable states never
produce). -/
def chase (allocs : List PNode) : Nat → Option Nat → TyList × Bool
  | _, Option.none => (.nil, true)
  | 0, Option.some _ => (.nil, false)
  | k + 1, Option.some i =>
    let nd := allocs.getD i pdef
    let r := chase allocs k nd.next
    (.cons nd.val r.1, r.2)

/-- Return `head` from `read_params`: materialise the chain as a value. -/
def extractParams (head : Option Nat) (allocs : List PNode) (st : PState) :
    TyList × PState :=
  let r := chase allocs (allocs.length + 1) head
  (r.1, if r.2 then st else { st with ub := true })

/-- The wrapped `size_t` subtraction `input.len - len` from the
memoization guard in `read_params` (`len` is the length before parsing the
parameter, `input.len` the length after, so the true difference is
non-positive and the unsigned value wraps). -/
def memoDiff (newLen oldLen : Nat) : Nat :=
  (newLen % 2 ^ 64 + (2 ^ 64 - oldLen % 2 ^ 64)) % 2 ^ 64

/-- The array-dimension loop of `read_array`: read one number per level
(`for (int i = 0; i < dimension; ++i) { ...; tp->len = read_number(); ... }`),
returning the `uint32_t` values stored into `Type::len`. -/
def readArrLens : Nat → PState → List Nat × PState
  | 0, st => ([], st)
  | k + 1, st =>
    let r := read_number st
    let rest := readArrLens k r.2
    (toU32 r.1 :: rest.1, rest.2)

/-- Build the left spine of `Array` nodes that `read_array` creates: the
outermost node is `ty` itself (keeping its other fields), inner nodes are
fresh allocations, and the deepest slot receives the element type. -/
def buildChain : List Nat → CType → CType
  | [], elem => elem
  | l :: ls, elem =>
    ((defTy.setPrim .Array).setLen l).setPtr (.some (buildChain ls elem))

def buildArr (ty : CType) (lens : List Nat) (elem : CType) (sc : Option Nat) : CType :=
  match lens with
  | [] => ty
  | l :: ls =>
    let base := ((ty.setPrim .Array).setLen l).setPtr (.some (buildChain ls elem))
    match sc with
    | Option.none => base
    | Option.some v => base.setSclass v

/-- The optional `$$C` cv-wrapper of `read_array`: returns the storage
class to assign to the outermost array node, if any. -/
def readDollarC (st : PState) : Option Nat × PState :=
  let r := consume ['$', '$', 'C'] st
  if r.1 then
    let st := r.2
    let rb := consume ['B'] st
    if rb.1 then (Option.some ConstSC, rb.2) else
    let rc := consume ['C'] st
    if rc.1 then (Option.some (ConstSC ||| VolatileSC), rc.2) else
    let rd := consume ['D'] st
    if rd.1 then (Option.some (ConstSC ||| VolatileSC), rd.2) else
    let ra := consume ['A'] st
    if ra.1 then (Option.none, ra.2)
    else (Option.none, setErr ("unkonwn storage class: " ++ String.mk st.input) st)
  else (Option.none, st)

mutual

/-- The loop of `Demangler::read_name`, carrying the head of the linked
list being built by prepending (`elem->next = head; head = elem`). -/
def read_name_loop (fuel : Nat) (head : NameSeq) (st : PState) :
    Option (NameSeq × PState) :=
  match fuel with
  | 0 => Option.none
  | fuel + 1 =>
    let rAt := consume ['@'] st
    if rAt.1 then Option.some (head, rAt.2)
    else if startswithD st.input then
      let i := digitVal st.input
      if st.names.length ≤ i then
        Option.some (.nil, setErr ("name reference too large: " ++ String.mk st.input) st)
      else
        let st := { st with input := st.input.drop 1 }
        read_name_loop fuel (.cons (st.names.getD i []) .nil head) st
    else
      let rT := consume ['?', '$'] st
      if rT.1 then
        let rs := read_string false rT.2
        match read_params fuel rs.2 with
        | Option.none => Option.none
        | Option.some (ps, st2) =>
          read_name_loop fuel (.cons rs.1 ps head) (expect ['@'] st2)
      else
        let rs := read_string true st
        read_name_loop fuel (.cons rs.1 .nil head) rs.2

termination_by structural fuel

/-- `Demangler::read_name`. -/
def read_name (fuel : Nat) (st : PState) : Option (NameSeq × PState) :=
  match fuel with
  | 0 => Option.none
  | fuel + 1 => read_name_loop fuel .nil st

termination_by structural fuel

/-- `Demangler::read_params`. -/
def read_params (fuel : Nat) (st : PState) : Option (TyList × PState) :=
  match fuel with
  | 0 => Option.none
  | fuel + 1 => read_params_loop fuel Option.none [] [] Option.none st

termination_by structural fuel

/-- The loop of `Demangler::read_params`.  `head`, `allocs` and `tp` model
the pointer structure among the nodes this call allocates: the digit
branch copies node `backref[n]` wholesale (including its `next` field) and
then performs `tp = &(*tp)->next; (*tp)->next = nullptr;`, which
dereferences the copied `next` — null when the back-referenced node was
the most recently linked one (undefined behaviour, `ub := true`). -/
def read_params_loop (fuel : Nat) (head : Option Nat) (allocs : List PNode)
    (backref : List Nat) (tp : Option Nat) (st : PState) :
    Option (TyList × PState) :=
  match fuel with
  | 0 => Option.none
  | fuel + 1 =>
    if st.error ≠ "" ∨ startsWithC st.input '@' ∨ startsWithC st.input 'Z' then
      Option.some (extractParams head allocs st)
    else if startswithD st.input then
      let n := digitVal st.input
      if backref.length ≤ n then
        Option.some (.nil, setErr ("invalid backreference: " ++ String.mk st.input) st)
      else
        let st := { st with input := st.input.drop 1 }
        let src := allocs.getD (backref.getD n 0) pdef
        let j := allocs.length
        let allocs := allocs ++ [src]
        let w := tpWrite tp j head allocs
        match src.next with
        | Option.none => Option.some (.nil, { st with ub := true })
        | Option.some k =>
          let allocs := w.2.set k { w.2.getD k pdef with next := Option.none }
          read_params_loop fuel w.1 allocs backref (Option.some j) st
    else
      let len0 := st.input.length
      let j := allocs.length
      let allocs := allocs ++ [pdef]
      let w := tpWrite tp j head allocs
      match read_var_type fuel defTy st with
      | Option.none => Option.none
      | Option.some (v, st1) =>
        let allocs := w.2.set j ⟨v, Option.none⟩
        let backref :=
          if backref.length ≤ 9 ∧ 1 < memoDiff st1.input.length len0 then
            backref ++ [j]
          else backref
        read_params_loop fuel w.1 allocs backref (Option.some j) st1

termination_by structural fuel

/-- `Demangler::read_class`. -/
def read_class (fuel : Nat) (ty : CType) (p : PrimTy) (st : PState) :
    Option (CType × PState) :=
  match fuel with
  | 0 => Option.none
  | fuel + 1 =>
    let ty := ty.setPrim p
    match read_name fuel st with
    | Option.none => Option.none
    | Option.some (nm, st1) => Option.some (ty.setName nm, st1)

termination_by structural fuel

/-- `Demangler::read_pointee`. -/
def read_pointee (fuel : Nat) (ty : CType) (p : PrimTy) (st : PState) :
    Option (CType × PState) :=
  match fuel with
  | 0 => Option.none
  | fuel + 1 =>
    let ty := ty.setPrim p
    let st := expect ['E'] st
    let rsc := read_storage_class st
    match read_var_type fuel (defTy.setSclass rsc.1) rsc.2 with
    | Option.none => Option.none
    | Option.some (child, st1) => Option.some (ty.setPtr (.some child), st1)

termination_by structural fuel

/-- `Demangler::read_array`. -/
def read_array (fuel : Nat) (ty : CType) (st : PState) :
    Option (CType × PState) :=
  match fuel with
  | 0 => Option.none
  | fuel + 1 =>
    let rd := read_number st
    let dim := rd.1
    let st := rd.2
    if dim ≤ 0 then
      Option.some (ty, setErr ("invalid array dimension: " ++ toString dim) st)
    else
      let rl := readArrLens dim.toNat st
      let rc := readDollarC rl.2
      match read_var_type fuel defTy rc.2 with
      | Option.none => Option.none
      | Option.some (elem, st1) =>
        Option.some (buildArr ty rl.1 elem rc.1, st1)

termination_by structural fuel

/-- `Demangler::read_var_type`. -/
def read_var_type (fuel : Nat) (ty : CType) (st : PState) :
    Option (CType × PState) :=
  match fuel with
  | 0 => Option.none
  | fuel + 1 =>
    let rW := consume ['W', '4'] st
    if rW.1 then
      match read_name fuel rW.2 with
      | Option.none => Option.none
      | Option.some (nm, st1) => Option.some ((ty.setPrim .Enum).setName nm, st1)
    else
      let rP := consume ['P', '6', 'A'] st
      if rP.1 then
        match read_var_type fuel defTy rP.2 with
        | Option.none => Option.none
        | Option.some (fnRet, st1) =>
          match read_params fuel st1 with
          | Option.none => Option.none
          | Option.some (ps, st2) =>
            let st3 :=
              if ['@', 'Z'].isPrefixOf st2.input then
                { st2 with input := st2.input.drop 2 }
              else if ['Z'].isPrefixOf st2.input then
                { st2 with input := st2.input.drop 1 }
              else st2
            let fn := ((defTy.setPrim .Function).setPtr (.some fnRet)).setParams ps
            Option.some ((ty.setPrim .Ptr).setPtr (.some fn), st3)
      else
        match st.input with
        | 'T' :: r => read_class fuel ty .Union { st with input := r }
        | 'U' :: r => read_class fuel ty .Struct { st with input := r }
        | 'V' :: r => read_class fuel ty .Class { st with input := r }
        | 'A' :: r => read_pointee fuel ty .Ref { st with input := r }
        | 'P' :: r => read_pointee fuel ty .Ptr { st with input := r }
        | 'Q' :: r =>
          match read_pointee fuel ty .Ptr { st with input := r } with
          | Option.none => Option.none
          | Option.some (ty1, st1) => Option.some (ty1.setSclass ConstSC, st1)
        | 'Y' :: r => read_array fuel ty { st with input := r }
        | _ =>
          let rp := read_prim_type st
          Option.some (ty.setPrim rp.1, rp.2)


termination_by structural fuel
end

/-- `Demangler::read_func_return_type`. -/
def read_func_return_type (fuel : Nat) (ty : CType) (st : PState) :
    Option (CType × PState) :=
  let r := consume ['@'] st
  if r.1 then Option.some (ty.setPrim .NoneTy, r.2)
  else read_var_type fuel ty r.2

/-- The result of `Demangler::parse()`: the final state plus the parsed
root `Type` and the symbol `Name` list. -/
structure PResult where
  err : String
  names : List Chars
  ub : Bool
  rest : Chars
  ty : CType
  symbol : NameSeq

def PState.result (st : PState) (ty : CType) (sym : NameSeq) : PResult :=
  ⟨st.error, st.names, st.ub, st.input, ty, sym⟩

/-- `Demangler::parse`.  Note the source's missing `return` in the
leading-`'?'` check: when the input does not start with `'?'` the function
stores an identifier symbol and an `Unknown` type but then falls through
and overwrites `symbol` with `read_name()` anyway; the dead stores are
omitted here because `defTy` already has `prim = Unknown` and `symbol` is
unconditionally reassigned. -/
def parseD (fuel : Nat) (s : Chars) : Option PResult :=
  let st0 : PState := ⟨s, "", [], false⟩
  let rq := consume ['?'] st0
  match read_name fuel rq.2 with
  | Option.none => Option.none
  | Option.some (sym, st) =>
    let r3 := consume ['3'] st
    if r3.1 then
      match read_var_type fuel defTy r3.2 with
      | Option.none => Option.none
      | Option.some (ty, st) => Option.some (st.result ty sym)
    else
      let rY := consume ['Y'] st
      if rY.1 then
        let rcc := read_calling_conv rY.2
        let rsc := read_storage_class_for_return rcc.2
        match read_var_type fuel (defTy.setSclass rsc.1) rsc.2 with
        | Option.none => Option.none
        | Option.some (ret, st) =>
          match read_params fuel st with
          | Option.none => Option.none
          | Option.some (ps, st) =>
            let ty := (((defTy.setPrim .Function).setCconv rcc.1).setPtr
              (.some ret)).setParams ps
            Option.some (st.result ty sym)
      else
        let rfc := read_func_class st
        let st := expect ['E'] rfc.2
        let rac := read_func_access_class st
        let rcc := read_calling_conv rac.2
        let rsc := read_storage_class rcc.2
        match read_func_return_type fuel (defTy.setSclass rsc.1) rsc.2 with
        | Option.none => Option.none
        | Option.some (ret, st) =>
          match read_params fuel st with
          | Option.none => Option.none
          | Option.some (ps, st) =>
            let ty := (((((defTy.setPrim .Function).setFclass rfc.1).setSclass
              rac.1).setCconv rcc.1).setPtr (.some ret)).setParams ps
            Option.some (st.result ty sym)

/-! ## The writer (`str()` / `write_pre` / `write_post` / `write_name`) -/

/-- `Demangler::write_space`: append one space iff the last character
already written is alphabetic (C `isalpha`; ASCII here). -/
def write_space (s : Chars) : Chars :=
  match s.getLast? with
  | Option.some c => if c.isAlpha then s ++ [' '] else s
  | Option.none => s

/-- Decimal digits of a `uint32_t` as printed by `os << ty.len`. -/
def digitChar (d : Nat) : Char :=
  if d = 0 then '0' else if d = 1 then '1' else if d = 2 then '2'
  else if d = 3 then '3' else if d = 4 then '4' else if d = 5 then '5'
  else if d = 6 then '6' else if d = 7 then '7' else if d = 8 then '8'
  else '9'

/-- The tail of `write_pre`: `if (ty.sclass & Const) { write_space();
os << "const"; }`. -/
def constTail (sclass : Nat) (s : Chars) : Chars :=
  if sclass &&& ConstSC ≠ 0 then write_space s ++ "const".data else s

/-- The tail of `write_post` for functions: `if (ty.sclass & Const)
os << "const";` (no space). -/
def postConst (sclass : Nat) (s : Chars) : Chars :=
  if sclass &&& ConstSC ≠ 0 then s ++ "const".data else s

def natCharsAux : Nat → Nat → Chars
  | 0, _ => []
  | fuel + 1, n => if n = 0 then [] else natCharsAux fuel (n / 10) ++ [digitChar (n % 10)]

def natChars (n : Nat) : Chars := if n = 0 then ['0'] else natCharsAux (n + 1) n

/-- Does a component's identifier start with the given two characters
(`String::startswith(const std::string &)` on `"?0"` / `"?1"`). -/
def startsWith2 (s : Chars) (a b : Char) : Bool :=
  match s with
  | x :: y :: _ => x = a ∧ y = b
  | _ => false

mutual

/-- `Demangler::write_pre`, as a buffer transformer; `Option.none` models
the dereference of a null child pointer. -/
def writePre (t : CType) (s : Chars) : Option Chars :=
  match t, s with
  | .mk prim ptr sclass _ _ _ name _, s =>
    match prim with
    | .Function =>
      match ptr with
      | .none => Option.none
      | .some c => writePre c s
    | _ =>
      let core : Option Chars :=
        match prim with
        | .Unknown => Option.some s
        | .NoneTy => Option.some s
        | .Ptr =>
          match ptr with
          | .none => Option.none
          | .some c =>
            match writePre c s with
            | Option.none => Option.none
            | Option.some s1 =>
              let s2 := if c.prim = .Function ∨ c.prim = .Array then s1 ++ ['('] else s1
              Option.some (s2 ++ ['*'])
        | .Ref =>
          match ptr with
          | .none => Option.none
          | .some c =>
            match writePre c s with
            | Option.none => Option.none
            | Option.some s1 =>
              let s2 := if c.prim = .Function ∨ c.prim = .Array then s1 ++ ['('] else s1
              Option.some (s2 ++ ['&'])
        | .Array =>
          match ptr with
          | .none => Option.none
          | .some c => writePre c s
        | .Struct =>
          let s2 := s ++ "struct ".data
          match name with
          | .nil => Option.some s2
          | .cons _ _ _ => writeNameGo name (write_space s2)
        | .Union =>
          let s2 := s ++ "union ".data
          match name with
          | .nil => Option.some s2
          | .cons _ _ _ => writeNameGo name (write_space s2)
        | .Class =>
          let s2 := s ++ "class ".data
          match name with
          | .nil => Option.some s2
          | .cons _ _ _ => writeNameGo name (write_space s2)
        | .Enum =>
          let s2 := s ++ "enum ".data
          match name with
          | .nil => Option.some s2
          | .cons _ _ _ => writeNameGo name (write_space s2)
        | .Void => Option.some (s ++ "void".data)
        | .Bool => Option.some (s ++ "bool".data)
        | .Char => Option.some (s ++ "char".data)
        | .Schar => Option.some (s ++ "signed char".data)
        | .Uchar => Option.some (s ++ "unsigned char".data)
        | .Short => Option.some (s ++ "short".data)
        | .Ushort => Option.some (s ++ "unsigned short".data)
        | .Int => Option.some (s ++ "int".data)
        | .Uint => Option.some (s ++ "unsigned int".data)
        | .Long => Option.some (s ++ "long".data)
        | .Ulong => Option.some (s ++ "unsigned long".data)
        | .Llong => Option.some (s ++ "long long".data)
        | .Ullong => Option.some (s ++ "unsigned long long".data)
        | .Wchar => Option.some (s ++ "wchar_t".data)
        | .Float => Option.some (s ++ "float".data)
        | .Double => Option.some (s ++ "double".data)
        | .Ldouble => Option.some (s ++ "long double".data)
        | .Function => Option.none
      match core with
      | Option.none => Option.none
      | Option.some s1 => Option.some (constTail sclass s1)

termination_by structural t

/-- `Demangler::write_post`. -/
def writePost (t : CType) (s : Chars) : Option Chars :=
  match t, s with
  | .mk prim ptr sclass _ _ len _ params, s =>
    match prim with
    | .Function =>
      match writeParams params (s ++ ['(']) with
      | Option.none => Option.none
      | Option.some s1 => Option.some (postConst sclass (s1 ++ [')']))
    | .Ptr =>
      match ptr with
      | .none => Option.none
      | .some c =>
        writePost c (if c.prim = .Function ∨ c.prim = .Array then s ++ [')'] else s)
    | .Ref =>
      match ptr with
      | .none => Option.none
      | .some c =>
        writePost c (if c.prim = .Function ∨ c.prim = .Array then s ++ [')'] else s)
    | .Array =>
      match ptr with
      | .none => Option.none
      | .some c => writePost c (s ++ ['['] ++ natChars len ++ [']'])
    | _ => Option.some s

termination_by structural t

/-- `Demangler::write_params` (the first element gets no comma). -/
def writeParams (l : TyList) (s : Chars) : Option Chars :=
  match l, s with
  | .nil, s => Option.some s
  | .cons t ts, s =>
    match writePre t s with
    | Option.none => Option.none
    | Option.some s1 =>
      match writePost t s1 with
      | Option.none => Option.none
      | Option.some s2 => writeParamsRest ts s2

termination_by structural l

def writeParamsRest (l : TyList) (s : Chars) : Option Chars :=
  match l, s with
  | .nil, s => Option.some s
  | .cons t ts, s =>
    match writePre t (s ++ [',']) with
    | Option.none => Option.none
    | Option.some s1 =>
      match writePost t s1 with
      | Option.none => Option.none
      | Option.some s2 => writeParamsRest ts s2

termination_by structural l

/-- The component loop of `write_name` (`for (; name->next; ...)` plus the
final-component `?0`/`?1` constructor/destructor rewriting). -/
def writeNameGo (n : NameSeq) (s : Chars) : Option Chars :=
  match n with
  | .nil => Option.some s
  | .cons str ps rest =>
    match rest with
    | .nil =>
      if startsWith2 str '?' '0' then
        let t := str.drop 2
        match writeParams ps (s ++ t) with
        | Option.none => Option.none
        | Option.some s1 => Option.some (s1 ++ "::".data ++ t)
      else if startsWith2 str '?' '1' then
        let t := str.drop 2
        match writeParams ps (s ++ t) with
        | Option.none => Option.none
        | Option.some s1 => Option.some (s1 ++ "::~".data ++ t)
      else
        writeTmpl ps (s ++ str)
    | .cons _ _ _ =>
      match writeTmpl ps (s ++ str) with
      | Option.none => Option.none
      | Option.some s1 => writeNameGo rest (s1 ++ "::".data)

termination_by structural n

/-- `Demangler::write_tmpl_params`: emit nothing for a null parameter
list, otherwise `<`, the parameter list, `>`.  The `write_params` call on
the non-empty list is unrolled one step here (first element, then the
rest) so that the recursion is structural. -/
def writeTmpl (l : TyList) (s : Chars) : Option Chars :=
  match l, s with
  | .nil, s => Option.some s
  | .cons t ts, s =>
    match writePre t (s ++ ['<']) with
    | Option.none => Option.none
    | Option.some s1 =>
      match writePost t s1 with
      | Option.none => Option.none
      | Option.some s2 =>
        match writeParamsRest ts s2 with
        | Option.none => Option.none
        | Option.some s3 => Option.some (s3 ++ ['>'])

termination_by structural l

end

/-- `Demangler::write_name`: null check, leading space, then the
component loop. -/
def writeName (n : NameSeq) (s : Chars) : Option Chars :=
  match n with
  | .nil => Option.some s
  | .cons _ _ _ => writeNameGo n (write_space s)

/-- `Demangler::str()`. -/
def strOut (ty : CType) (sym : NameSeq) : Option Chars :=
  match writePre ty [] with
  | Option.none => Option.none
  | Option.some s1 =>
    match writeName sym s1 with
    | Option.none => Option.none
    | Option.some s2 => writePost ty s2

/-- The full pipeline as the driver uses it: parse, then render only when
the error string is empty.  The result is `Option.some` exactly for runs
that complete within `fuel`, perform no undefined behaviour, end with an
empty error, and render without dereferencing a null child. -/
def demangle (fuel : Nat) (s : String) : Option String :=
  match parseD fuel s.data with
  | Option.none => Option.none
  | Option.some r =>
    if r.err = "" ∧ r.ub = false then
      match strOut r.ty r.symbol with
      | Option.none => Option.none
      | Option.some out => Option.some (String.mk out)
    else Option.none

/-- The final error string of a parse, when it completes within `fuel`. -/
def parseErr (fuel : Nat) (s : String) : Option String :=
  (parseD fuel s.data).map PResult.err

/-- Whether a parse performed undefined behaviour (null `Type*`
dereference in the digit branch of `read_params`). -/
def parseUB (fuel : Nat) (s : String) : Option Bool :=
  (parseD fuel s.data).map PResult.ub

end MD

namespace MD

/-! ## Parenthesis accounting for the writer (claim C5) -/

mutual

/-- Parentheses `('(' count, ')' count)` that `write_pre` emits for a
node: one `'('` for each `Ptr`/`Ref` whose pointee is a Function/Array,
plus whatever the recursively emitted fragments contribute. -/
def parPre (t : CType) : Nat × Nat :=
  match t with
  | .mk prim ptr _ _ _ _ name _ =>
    match prim with
    | .Function =>
      match ptr with
      | .none => (0, 0)
      | .some c => parPre c
    | .Ptr =>
      match ptr with
      | .none => (0, 0)
      | .some c =>
        ((parPre c).1 + (if c.prim = .Function ∨ c.prim = .Array then 1 else 0),
         (parPre c).2)
    | .Ref =>
      match ptr with
      | .none => (0, 0)
      | .some c =>
        ((parPre c).1 + (if c.prim = .Function ∨ c.prim = .Array then 1 else 0),
         (parPre c).2)
    | .Array =>
      match ptr with
      | .none => (0, 0)
      | .some c => parPre c
    | .Struct => parName name
    | .Union => parName name
    | .Class => parName name
    | .Enum => parName name
    | _ => (0, 0)

/-- Parentheses that `write_post` emits for a node: one pair for each
`Function` parameter list, one `')'` for each grouped `Ptr`/`Ref`. -/
def parPost (t : CType) : Nat × Nat :=
  match t with
  | .mk prim ptr _ _ _ _ _ params =>
    match prim with
    | .Function => (1 + (parList params).1, 1 + (parList params).2)
    | .Ptr =>
      match ptr with
      | .none => (0, 0)
      | .some c =>
        ((parPost c).1,
         (parPost c).2 + (if c.prim = .Function ∨ c.prim = .Array then 1 else 0))
    | .Ref =>
      match ptr with
      | .none => (0, 0)
      | .some c =>
        ((parPost c).1,
         (parPost c).2 + (if c.prim = .Function ∨ c.prim = .Array then 1 else 0))
    | .Array =>
      match ptr with
      | .none => (0, 0)
      | .some c => parPost c
    | _ => (0, 0)

/-- Parentheses emitted for a parameter list (each element contributes
its pre and post fragments). -/
def parList (l : TyList) : Nat × Nat :=
  match l with
  | .nil => (0, 0)
  | .cons t ts =>
    ((parPre t).1 + (parPost t).1 + (parList ts).1,
     (parPre t).2 + (parPost t).2 + (parList ts).2)

/-- Parentheses emitted while rendering a qualified name: only the
template parameter lists of its components contribute. -/
def parName (n : NameSeq) : Nat × Nat :=
  match n with
  | .nil => (0, 0)
  | .cons _ ps rest =>
    ((parList ps).1 + (parName rest).1, (parList ps).2 + (parName rest).2)

end

mutual

/-- No identifier stored anywhere in the tree contains a parenthesis
character. -/
def pfT (t : CType) : Bool :=
  match t with
  | .mk _ ptr _ _ _ _ name params => pfOpt ptr && pfName name && pfList params

def pfOpt (o : COpt) : Bool :=
  match o with
  | .none => true
  | .some t => pfT t

def pfList (l : TyList) : Bool :=
  match l with
  | .nil => true
  | .cons t ts => pfT t && pfList ts

def pfName (n : NameSeq) : Bool :=
  match n with
  | .nil => true
  | .cons str ps rest =>
    decide (str.count '(' = 0) && decide (str.count ')' = 0) &&
      pfList ps && pfName rest

end


/-- The variants whose `write_pre`/`write_post` dereference `ty->ptr`
unguarded. -/
def needsChild (p : PrimTy) : Bool :=
  p = .Ptr ∨ p = .Ref ∨ p = .Array ∨ p = .Function

def hasChild (o : COpt) : Bool :=
  match o with
  | .none => false
  | .some _ => true

mutual

/-- The non-null-child invariant of the `Type` trees the parser builds:
a `Ptr`, `Ref`, `Array` or `Function` node has a non-null `ptr` child,
recursively through the child, the template parameters of the name, and
the parameter list (`write_pre`/`write_post` dereference exactly these
children unguarded). -/
def invT (t : CType) : Bool :=
  match t with
  | .mk prim ptr _ _ _ _ name params =>
    (!needsChild prim || hasChild ptr) &&
    invOpt ptr && invName name && invList params

def invOpt (o : COpt) : Bool :=
  match o with
  | .none => true
  | .some t => invT t

def invList (l : TyList) : Bool :=
  match l with
  | .nil => true
  | .cons t ts => invT t && invList ts

def invName (n : NameSeq) : Bool :=
  match n with
  | .nil => true
  | .cons _ ps rest => invList ps && invName rest

end

def nonNil (n : NameSeq) : Bool :=
  match n with
  | .nil => false
  | .cons _ _ _ => true

/-- The tagged variants whose `write_pre` emits `"struct "` etc. and then
the name. -/
def needsName (p : PrimTy) : Bool :=
  p = .Struct ∨ p = .Union ∨ p = .Class ∨ p = .Enum

/-- A plain identifier component: nonempty and purely alphanumeric. -/
def compPlain (str : Chars) : Bool :=
  !str.isEmpty && str.all Char.isAlphanum

/-- A final name component: plain, or a `?0`/`?1` constructor/destructor
tag whose remainder is plain. -/
def compLast (str : Chars) : Bool :=
  if startsWith2 str '?' '0' || startsWith2 str '?' '1' then compPlain (str.drop 2)
  else compPlain str

mutual

/-- Well-named trees: every identifier the writer will interpolate is a
nonempty alphanumeric component (the final component may carry a
`?0`/`?1` tag), and tagged variants carry a name. -/
def wnT (t : CType) : Bool :=
  match t with
  | .mk prim ptr _ _ _ _ name params =>
    (!needsName prim || nonNil name) && wnOpt ptr && wnName name && wnList params

def wnOpt (o : COpt) : Bool :=
  match o with
  | .none => true
  | .some t => wnT t

def wnList (l : TyList) : Bool :=
  match l with
  | .nil => true
  | .cons t ts => wnT t && wnList ts

def wnName (n : NameSeq) : Bool :=
  match n with
  | .nil => true
  | .cons str ps rest =>
    (match rest with
     | .nil => compLast str
     | .cons _ _ _ => compPlain str) && wnList ps && wnName rest

end

/-- No space is followed by a non-alphanumeric character (this covers
both doubled spaces and a space before punctuation). -/
def pairsOK : Chars → Bool
  | [] => true
  | [_] => true
  | a :: b :: rest => (!(a = ' ') || b.isAlphanum) && pairsOK (b :: rest)

/-- The first character (if any) may safely follow a space. -/
def headOK (f : Chars) : Bool :=
  match f with
  | [] => true
  | c :: _ => c.isAlphanum

/-- The buffer ends in a space. -/
def endsSp (s : Chars) : Bool :=
  match s.getLast? with
  | Option.some c => c = ' '
  | Option.none => false

/-- The evolution of the `repeated_names` table across one parser step:
append-only, and preserving both the ten-entry bound and freedom from
duplicates. -/
def NStep (st st2 : PState) : Prop :=
  (∃ l, st2.names = st.names ++ l) ∧
  (st.names.length ≤ 10 → st2.names.length ≤ 10) ∧
  (st.names.Nodup → st2.names.Nodup)

/-- The state with `ext` appended to its remaining input: the two runs
compared by the input-extension analysis. -/
def extIn (E : Chars) (st : PState) : PState := { st with input := st.input ++ E }

/-- Across one parser step the remaining input only shrinks from the
front (the final view is a suffix of the initial one) and a set error is
never cleared. -/
def SE (st st2 : PState) : Prop :=
  st2.input.IsSuffix st.input ∧ (st2.error = "" → st.error = "")

/-! ## Name-table evolution lemmas -/

theorem nstep_refl (st : PState) : NStep st st :=
  ⟨⟨[], by simp⟩, fun h => h, fun h => h⟩

theorem nstep_trans {a b c : PState} (h1 : NStep a b) (h2 : NStep b c) : NStep a c := by
  obtain ⟨⟨l1, e1⟩, b1, d1⟩ := h1
  obtain ⟨⟨l2, e2⟩, b2, d2⟩ := h2
  exact ⟨⟨l1 ++ l2, by rw [e2, e1, List.append_assoc]⟩,
    fun h => b2 (b1 h), fun h => d2 (d1 h)⟩

theorem nstep_of_eq {a b : PState} (h : b.names = a.names) : NStep a b :=
  ⟨⟨[], by simp [h]⟩, fun hh => h ▸ hh, fun hh => h ▸ hh⟩

theorem names_consume (p : Chars) (st : PState) : (consume p st).2.names = st.names := by
  rw [consume]; split <;> rfl

theorem names_expect (p : Chars) (st : PState) : (expect p st).names = st.names := by
  rw [expect]
  split
  · exact names_consume p st
  · rfl

theorem names_setErr (m : String) (st : PState) : (setErr m st).names = st.names := rfl

theorem names_read_number (st : PState) : (read_number st).2.names = st.names := by
  rw [read_number]
  split
  · simp [names_consume]
  · split
    · simp [names_consume]
    · simp [setErr, names_consume]

theorem nstep_memorize (s : Chars) (st : PState) : NStep st (memorize_string s st) := by
  rw [memorize_string]
  split
  · exact nstep_refl st
  · next h10 =>
    split
    · exact nstep_refl st
    · next hcont =>
      refine ⟨⟨[s], rfl⟩, fun h => ?_, fun h => ?_⟩
      · simp only [PState.names]
        rw [List.length_append]
        simp
        omega
      · have hs : s ∉ st.names := by simpa using hcont
        simp only [PState.names]
        simp [List.nodup_append, h, hs]

theorem nstep_read_string (m : Bool) (st : PState) : NStep st (read_string m st).2 := by
  cases h : st.input.findIdx? (· = '@') with
  | none => simp only [read_string, h]; exact nstep_refl st
  | some i =>
    simp only [read_string, h]
    split
    · exact @nstep_trans st ⟨st.input.drop (i + 1), st.error, st.names, st.ub⟩ _
        (nstep_of_eq rfl) (nstep_memorize _ _)
    · exact nstep_of_eq rfl

theorem names_read_func_class (st : PState) : (read_func_class st).2.names = st.names := by
  rw [read_func_class]
  split
  · rfl
  · split <;> rfl

theorem names_read_func_access_class (st : PState) :
    (read_func_access_class st).2.names = st.names := by
  rw [read_func_access_class]
  split
  · rfl
  · split <;> rfl

theorem names_read_calling_conv (st : PState) :
    (read_calling_conv st).2.names = st.names := by
  rw [read_calling_conv]
  split
  · rfl
  · split <;> rfl

theorem names_read_storage_class (st : PState) :
    (read_storage_class st).2.names = st.names := by
  rw [read_storage_class]
  split
  · rfl
  · split <;> rfl

theorem names_read_storage_class_for_return (st : PState) :
    (read_storage_class_for_return st).2.names = st.names := by
  rw [read_storage_class_for_return]
  dsimp only
  split
  · exact names_consume _ _
  · split
    · exact names_consume _ _
    · split
      · exact names_consume _ _
      · split
        · exact names_consume _ _
        · rfl

theorem names_read_prim_type (st : PState) : (read_prim_type st).2.names = st.names := by
  rw [read_prim_type]
  split
  · rfl
  · split
    · split
      · rfl
      · split <;> rfl
    · split <;> rfl

theorem names_readArrLens (k : Nat) : ∀ st : PState, (readArrLens k st).2.names = st.names := by
  induction k with
  | zero => intro st; rfl
  | succ n ih =>
    intro st
    rw [readArrLens]
    simp only []
    rw [ih]
    exact names_read_number st

theorem names_readDollarC (st : PState) : (readDollarC st).2.names = st.names := by
  rw [readDollarC]
  dsimp only
  split
  · split
    · exact (names_consume _ _).trans (names_consume _ _)
    · split
      · exact (names_consume _ _).trans (names_consume _ _)
      · split
        · exact (names_consume _ _).trans (names_consume _ _)
        · split
          · exact (names_consume _ _).trans (names_consume _ _)
          · exact (names_setErr _ _).trans (names_consume _ _)
  · rfl

theorem names_extractParams (h : Option Nat) (a : List PNode) (st : PState) :
    (extractParams h a st).2.names = st.names := by
  rw [extractParams]
  split <;> rfl

/-- `consume "@"` fails when the input starts with a decimal digit. -/
theorem consume_at_digit {st : PState} (h : startswithD st.input = true) :
    (consume ['@'] st).1 = false := by
  rw [consume]
  cases hi : st.input with
  | nil => rw [hi] at h; simp [startswithD] at h
  | cons c rest =>
    rw [hi] at h
    simp only [startswithD, decide_eq_true_eq] at h
    have hc : ('@' : Char) ≠ c := by
      rintro rfl
      exact absurd h (by decide)
    simp [List.isPrefixOf, hc]

/-- Name-table evolution across the mutual parser: whenever a component
returns `Option.some`, the final state is an `NStep` of the initial one
(the table only grows, stays within ten entries, and stays duplicate
free). -/
theorem nstep_components (fuel : Nat) :
    (∀ (head : NameSeq) (st : PState) (r : NameSeq × PState),
        read_name_loop fuel head st = Option.some r → NStep st r.2) ∧
    (∀ (st : PState) (r : NameSeq × PState),
        read_name fuel st = Option.some r → NStep st r.2) ∧
    (∀ (st : PState) (r : TyList × PState),
        read_params fuel st = Option.some r → NStep st r.2) ∧
    (∀ (head : Option Nat) (allocs : List PNode) (backref : List Nat)
        (tp : Option Nat) (st : PState) (r : TyList × PState),
        read_params_loop fuel head allocs backref tp st = Option.some r → NStep st r.2) ∧
    (∀ (ty : CType) (p : PrimTy) (st : PState) (r : CType × PState),
        read_class fuel ty p st = Option.some r → NStep st r.2) ∧
    (∀ (ty : CType) (p : PrimTy) (st : PState) (r : CType × PState),
        read_pointee fuel ty p st = Option.some r → NStep st r.2) ∧
    (∀ (ty : CType) (st : PState) (r : CType × PState),
        read_array fuel ty st = Option.some r → NStep st r.2) ∧
    (∀ (ty : CType) (st : PState) (r : CType × PState),
        read_var_type fuel ty st = Option.some r → NStep st r.2) := by
  induction fuel with
  | zero =>
    refine ⟨?_, ?_, ?_, ?_, ?_, ?_, ?_, ?_⟩
    · intro _ _ _ h; exact absurd h (by rw [read_name_loop.eq_def]; simp)
    · intro _ _ h; exact absurd h (by rw [read_name.eq_def]; simp)
    · intro _ _ h; exact absurd h (by rw [read_params.eq_def]; simp)
    · intro _ _ _ _ _ _ h; exact absurd h (by rw [read_params_loop.eq_def]; simp)
    · intro _ _ _ _ h; exact absurd h (by rw [read_class.eq_def]; simp)
    · intro _ _ _ _ h; exact absurd h (by rw [read_pointee.eq_def]; simp)
    · intro _ _ _ h; exact absurd h (by rw [read_array.eq_def]; simp)
    · intro _ _ _ h; exact absurd h (by rw [read_var_type.eq_def]; simp)
  | succ n ih =>
    obtain ⟨ihLoop, ihName, ihParams, ihPLoop, ihClass, ihPointee, ihArray, ihVar⟩ := ih
    refine ⟨?_, ?_, ?_, ?_, ?_, ?_, ?_, ?_⟩
    · -- read_name_loop
      intro head st r h
      rw [read_name_loop.eq_def] at h
      dsimp only at h
      split at h
      · simp only [Option.some.injEq] at h
        rw [← h]
        exact nstep_of_eq (names_consume _ _)
      · split at h
        · split at h
          · simp only [Option.some.injEq] at h
            rw [← h]
            exact nstep_of_eq rfl
          · have step := ihLoop _ _ _ h
            exact nstep_trans (nstep_of_eq rfl) step
        · split at h
          · split at h
            · exact absurd h (by simp)
            · next heq =>
              have s1 := ihParams _ _ heq
              have s2 := ihLoop _ _ _ h
              exact nstep_trans (nstep_of_eq (names_consume _ _))
                (nstep_trans (nstep_read_string _ _)
                  (nstep_trans s1 (nstep_trans (nstep_of_eq (names_expect _ _)) s2)))
          · have step := ihLoop _ _ _ h
            exact nstep_trans (nstep_read_string _ _) step
    · -- read_name
      intro st r h
      rw [read_name.eq_def] at h
      dsimp only at h
      exact ihLoop _ _ _ h
    · -- read_params
      intro st r h
      rw [read_params.eq_def] at h
      dsimp only at h
      exact ihPLoop _ _ _ _ _ _ h
    · -- read_params_loop
      intro head allocs backref tp st r h
      rw [read_params_loop.eq_def] at h
      dsimp only at h
      split at h
      · simp only [Option.some.injEq] at h
        rw [← h]
        exact nstep_of_eq (names_extractParams _ _ _)
      · split at h
        · split at h
          · simp only [Option.some.injEq] at h
            rw [← h]
            exact nstep_of_eq rfl
          · split at h
            · simp only [Option.some.injEq] at h
              rw [← h]
              exact nstep_of_eq rfl
            · have step := ihPLoop _ _ _ _ _ _ h
              exact nstep_trans (nstep_of_eq rfl) step
        · split at h
          · exact absurd h (by simp)
          · next heq =>
            have s1 := ihVar _ _ _ heq
            have s2 := ihPLoop _ _ _ _ _ _ h
            exact nstep_trans s1 s2
    · -- read_class
      intro ty p st r h
      rw [read_class.eq_def] at h
      dsimp only at h
      split at h
      · exact absurd h (by simp)
      · next heq =>
        have step := ihName _ _ heq
        simp only [Option.some.injEq] at h
        rw [← h]
        exact step
    · -- read_pointee
      intro ty p st r h
      rw [read_pointee.eq_def] at h
      dsimp only at h
      split at h
      · exact absurd h (by simp)
      · next heq =>
        have step := ihVar _ _ _ heq
        simp only [Option.some.injEq] at h
        rw [← h]
        exact nstep_trans (nstep_of_eq (names_expect _ _))
          (nstep_trans (nstep_of_eq (names_read_storage_class _)) step)
    · -- read_array
      intro ty st r h
      rw [read_array.eq_def] at h
      dsimp only at h
      split at h
      · simp only [Option.some.injEq] at h
        rw [← h]
        exact nstep_of_eq ((names_setErr _ _).trans (names_read_number _))
      · split at h
        · exact absurd h (by simp)
        · next heq =>
          have step := ihVar _ _ _ heq
          simp only [Option.some.injEq] at h
          rw [← h]
          exact nstep_trans (nstep_of_eq (names_read_number _))
            (nstep_trans (nstep_of_eq (names_readArrLens _ _))
              (nstep_trans (nstep_of_eq (names_readDollarC _)) step))
    · -- read_var_type
      intro ty st r h
      rw [read_var_type.eq_def] at h
      dsimp only at h
      split at h
      · split at h
        · exact absurd h (by simp)
        · next heq =>
          have step := ihName _ _ heq
          simp only [Option.some.injEq] at h
          rw [← h]
          exact nstep_trans (nstep_of_eq (names_consume _ _)) step
      · split at h
        · split at h
          · exact absurd h (by simp)
          · next heq1 =>
            split at h
            · exact absurd h (by simp)
            · next heq2 =>
              have s1 := ihVar _ _ _ heq1
              have s2 := ihParams _ _ heq2
              simp only [Option.some.injEq] at h
              rw [← h]
              refine nstep_trans (nstep_of_eq (names_consume _ _))
                (nstep_trans s1 (nstep_trans s2 (nstep_of_eq ?_)))
              split
              · rfl
              · split <;> rfl
        · split at h
          · have step := ihClass _ _ _ _ h
            exact nstep_trans (nstep_of_eq rfl) step
          · have step := ihClass _ _ _ _ h
            exact nstep_trans (nstep_of_eq rfl) step
          · have step := ihClass _ _ _ _ h
            exact nstep_trans (nstep_of_eq rfl) step
          · have step := ihPointee _ _ _ _ h
            exact nstep_trans (nstep_of_eq rfl) step
          · have step := ihPointee _ _ _ _ h
            exact nstep_trans (nstep_of_eq rfl) step
          · split at h
            · exact absurd h (by simp)
            · next heq =>
              have step := ihPointee _ _ _ _ heq
              simp only [Option.some.injEq] at h
              rw [← h]
              exact nstep_trans (nstep_of_eq rfl) step
          · have step := ihArray _ _ _ h
            exact nstep_trans (nstep_of_eq rfl) step
          · simp only [Option.some.injEq] at h
            rw [← h]
            exact nstep_of_eq (names_read_prim_type _)

/-- `read_func_return_type` evolves the name table like any other
parser component. -/
theorem nstep_read_func_return_type (fuel : Nat) (ty : CType) (st : PState)
    (r : CType × PState) (h : read_func_return_type fuel ty st = Option.some r) :
    NStep st r.2 := by
  rw [read_func_return_type] at h
  split at h
  · simp only [Option.some.injEq] at h
    rw [← h]
    exact nstep_of_eq (names_consume _ _)
  · have step := (nstep_components fuel).2.2.2.2.2.2.2 _ _ _ h
    exact nstep_trans (nstep_of_eq (names_consume _ _)) step

/-- Across a whole successful `parse()`, the `repeated_names` table ends
with at most ten entries and no duplicates (it starts empty and every
step is an `NStep`). -/
theorem nstep_parse (fuel : Nat) (s : Chars) (r : PResult)
    (h : parseD fuel s = Option.some r) :
    r.names.length ≤ 10 ∧ r.names.Nodup := by
  have key : ∀ st2 : PState, NStep ⟨s, "", [], false⟩ st2 →
      st2.names.length ≤ 10 ∧ st2.names.Nodup :=
    fun st2 h2 => ⟨h2.2.1 (by simp), h2.2.2 (by simp)⟩
  rw [parseD] at h
  dsimp only at h
  split at h
  · exact absurd h (by simp)
  · next sym st1 heq1 =>
    have n1 : NStep ⟨s, "", [], false⟩ st1 :=
      nstep_trans (nstep_of_eq (names_consume _ _))
        ((nstep_components fuel).2.1 _ _ heq1)
    split at h
    · split at h
      · exact absurd h (by simp)
      · next heq2 =>
        have n2 := (nstep_components fuel).2.2.2.2.2.2.2 _ _ _ heq2
        simp only [Option.some.injEq] at h
        rw [← h]
        exact key _ (nstep_trans n1
          (nstep_trans (nstep_of_eq (names_consume _ _)) n2))
    · split at h
      · split at h
        · exact absurd h (by simp)
        · next heq2 =>
          split at h
          · exact absurd h (by simp)
          · next heq3 =>
            have n2 := (nstep_components fuel).2.2.2.2.2.2.2 _ _ _ heq2
            have n3 := (nstep_components fuel).2.2.1 _ _ heq3
            simp only [Option.some.injEq] at h
            rw [← h]
            refine key _ (nstep_trans n1 (nstep_trans (nstep_of_eq ?_)
              (nstep_trans n2 n3)))
            exact (names_read_storage_class_for_return _).trans
              ((names_read_calling_conv _).trans (names_consume _ _))
      · split at h
        · exact absurd h (by simp)
        · next heq2 =>
          split at h
          · exact absurd h (by simp)
          · next heq3 =>
            have n2 := nstep_read_func_return_type fuel _ _ _ heq2
            have n3 := (nstep_components fuel).2.2.1 _ _ heq3
            simp only [Option.some.injEq] at h
            rw [← h]
            refine key _ (nstep_trans n1 (nstep_trans (nstep_of_eq ?_)
              (nstep_trans n2 n3)))
            exact (names_read_storage_class _).trans
              ((names_read_calling_conv _).trans
                ((names_read_func_access_class _).trans
                  ((names_expect _ _).trans (names_read_func_class _))))

/-- `memorize_string` appends exactly when the table has at most nine
entries and does not already contain the string. -/
theorem memorize_characterization (s : Chars) (st : PState) :
    (memorize_string s st).names =
      if st.names.length ≤ 9 ∧ st.names.contains s = false
      then st.names ++ [s] else st.names := by
  rw [memorize_string]
  split
  · next h1 =>
    rw [if_neg]
    rintro ⟨h9, _⟩
    omega
  · next h1 =>
    split
    · next h2 =>
      rw [if_neg]
      rintro ⟨_, hc⟩
      rw [hc] at h2
      exact absurd h2 (by simp)
    · next h2 =>
      rw [if_pos]
      constructor
      · omega
      · simpa using h2

/-- The decimal-digit branch of `read_name`: with a digit at the head of
the input, a too-large digit yields the "name reference too large" error
and a valid digit prepends the stored identifier and continues. -/
theorem read_name_digit_iff (fuel : Nat) (head : NameSeq) (st : PState)
    (hd : startswithD st.input = true) :
    (st.names.length ≤ digitVal st.input →
      read_name_loop (fuel + 1) head st =
        Option.some (.nil,
          setErr ("name reference too large: " ++ String.mk st.input) st)) ∧
    (digitVal st.input < st.names.length →
      read_name_loop (fuel + 1) head st =
        read_name_loop fuel (.cons (st.names.getD (digitVal st.input) []) .nil head)
          { st with input := st.input.drop 1 }) := by
  have hAt := consume_at_digit hd
  constructor
  · intro hle
    rw [read_name_loop.eq_def]
    dsimp only
    rw [hAt, hd]
    simp only [Bool.false_eq_true, if_false, if_true]
    rw [if_pos hle]
  · intro hlt
    rw [read_name_loop.eq_def]
    dsimp only
    rw [hAt, hd]
    simp only [Bool.false_eq_true, if_false, if_true]
    rw [if_neg (by omega)]

/-! ## Non-null-child invariant of parsed trees -/

theorem inv_pdef : invT pdef.val = true := by decide

theorem inv_getD (allocs : List PNode) (i : Nat)
    (h : ∀ pn ∈ allocs, invT pn.val = true) :
    invT ((allocs.getD i pdef).val) = true := by
  rcases Nat.lt_or_ge i allocs.length with hl | hl
  · rw [List.getD_eq_getElem _ _ hl]
    exact h _ (List.getElem_mem hl)
  · rw [List.getD_eq_default _ _ hl]
    exact inv_pdef

theorem inv_allocs_set (allocs : List PNode) (i : Nat) (e : PNode)
    (h : ∀ pn ∈ allocs, invT pn.val = true) (he : invT e.val = true) :
    ∀ pn ∈ allocs.set i e, invT pn.val = true := by
  intro pn hm
  rcases List.mem_or_eq_of_mem_set hm with hmem | hmem
  · exact h _ hmem
  · rw [hmem]
    exact he

theorem inv_allocs_append (allocs : List PNode) (e : PNode)
    (h : ∀ pn ∈ allocs, invT pn.val = true) (he : invT e.val = true) :
    ∀ pn ∈ allocs ++ [e], invT pn.val = true := by
  intro pn hm
  rcases List.mem_append.1 hm with hmem | hmem
  · exact h _ hmem
  · rw [List.mem_singleton] at hmem
    rw [hmem]
    exact he

theorem inv_tpWrite (tp : Option Nat) (j : Nat) (hd : Option Nat)
    (allocs : List PNode) (h : ∀ pn ∈ allocs, invT pn.val = true) :
    ∀ pn ∈ (tpWrite tp j hd allocs).2, invT pn.val = true := by
  rw [tpWrite.eq_def]
  split
  · exact h
  · exact inv_allocs_set _ _ _ h (inv_getD _ _ h)

theorem inv_chase (allocs : List PNode)
    (h : ∀ pn ∈ allocs, invT pn.val = true) :
    ∀ (k : Nat) (hd : Option Nat), invList (chase allocs k hd).1 = true := by
  intro k
  induction k with
  | zero => intro hd; cases hd <;> rfl
  | succ n ih =>
    intro hd
    cases hd with
    | none => rfl
    | some i =>
      show invList (.cons ((allocs.getD i pdef).val)
        (chase allocs n (allocs.getD i pdef).next).1) = true
      simp only [invList, Bool.and_eq_true]
      exact ⟨inv_getD _ _ h, ih _⟩

theorem inv_extractParams (hd : Option Nat) (allocs : List PNode) (st : PState)
    (h : ∀ pn ∈ allocs, invT pn.val = true) :
    invList (extractParams hd allocs st).1 = true :=
  inv_chase allocs h _ _

theorem inv_buildChain (elem : CType) (he : invT elem = true) :
    ∀ ls : List Nat, invT (buildChain ls elem) = true := by
  intro ls
  induction ls with
  | nil => exact he
  | cons l ls ih =>
    show invT (.mk .Array (.some (buildChain ls elem)) 0 .Cdecl 0 0 .nil .nil) = true
    simp only [invT, invOpt, invName, invList, Bool.and_eq_true]
    exact ⟨⟨⟨rfl, ih⟩, trivial⟩, trivial⟩

theorem invT_setSclass (t : CType) (x : Nat) : invT (t.setSclass x) = invT t := by
  cases t
  rfl

theorem inv_buildArr (ty : CType) (lens : List Nat) (elem : CType)
    (sc : Option Nat) (hty : invT ty = true) (he : invT elem = true) :
    invT (buildArr ty lens elem sc) = true := by
  cases lens with
  | nil => exact hty
  | cons l ls =>
    have hbase : invT (((ty.setPrim .Array).setLen l).setPtr
        (.some (buildChain ls elem))) = true := by
      cases ty with
      | mk a b c d e f g h8 =>
        simp only [invT, Bool.and_eq_true] at hty
        obtain ⟨⟨⟨_, _⟩, hname⟩, hparams⟩ := hty
        show invT (.mk .Array (.some (buildChain ls elem)) c d e l g h8) = true
        simp only [invT, invOpt, Bool.and_eq_true]
        exact ⟨⟨⟨rfl, inv_buildChain elem he ls⟩, hname⟩, hparams⟩
    rw [buildArr.eq_def]
    dsimp only
    split
    · exact hbase
    · rw [invT_setSclass]
      exact hbase

theorem primOf_not_needsChild (c : Char) :
    needsChild ((primOf c).getD .Unknown) = false := by
  rw [primOf]
  by_cases h0 : c = 'X'
  · rw [if_pos h0]
    rfl
  · rw [if_neg h0]
    by_cases h1 : c = 'D'
    · rw [if_pos h1]
      rfl
    · rw [if_neg h1]
      by_cases h2 : c = 'C'
      · rw [if_pos h2]
        rfl
      · rw [if_neg h2]
        by_cases h3 : c = 'E'
        · rw [if_pos h3]
          rfl
        · rw [if_neg h3]
          by_cases h4 : c = 'F'
          · rw [if_pos h4]
            rfl
          · rw [if_neg h4]
            by_cases h5 : c = 'G'
            · rw [if_pos h5]
              rfl
            · rw [if_neg h5]
              by_cases h6 : c = 'H'
              · rw [if_pos h6]
                rfl
              · rw [if_neg h6]
                by_cases h7 : c = 'I'
                · rw [if_pos h7]
                  rfl
                · rw [if_neg h7]
                  by_cases h8 : c = 'J'
                  · rw [if_pos h8]
                    rfl
                  · rw [if_neg h8]
                    by_cases h9 : c = 'K'
                    · rw [if_pos h9]
                      rfl
                    · rw [if_neg h9]
                      by_cases h10 : c = 'M'
                      · rw [if_pos h10]
                        rfl
                      · rw [if_neg h10]
                        by_cases h11 : c = 'N'
                        · rw [if_pos h11]
                          rfl
                        · rw [if_neg h11]
                          by_cases h12 : c = 'O'
                          · rw [if_pos h12]
                            rfl
                          · rw [if_neg h12]
                            rfl

theorem primOfU_not_needsChild (c : Char) :
    needsChild ((primOfU c).getD .Unknown) = false := by
  rw [primOfU]
  by_cases h0 : c = 'N'
  · rw [if_pos h0]
    rfl
  · rw [if_neg h0]
    by_cases h1 : c = 'J'
    · rw [if_pos h1]
      rfl
    · rw [if_neg h1]
      by_cases h2 : c = 'K'
      · rw [if_pos h2]
        rfl
      · rw [if_neg h2]
        by_cases h3 : c = 'W'
        · rw [if_pos h3]
          rfl
        · rw [if_neg h3]
          rfl

theorem needsChild_read_prim_type (st : PState) :
    needsChild (read_prim_type st).1 = false := by
  rw [read_prim_type]
  split
  · rfl
  · next o c rest heq =>
    split
    · split
      · rfl
      · next d r2 =>
        cases hp : primOfU d with
        | some p =>
          simp only [hp]
          have h2 := primOfU_not_needsChild d
          rw [hp] at h2
          simpa using h2
        | none =>
          simp only [hp]
          rfl
    · cases hp : primOf c with
      | some p =>
        simp only [hp]
        have h2 := primOf_not_needsChild c
        rw [hp] at h2
        simpa using h2
      | none =>
        simp only [hp]
        rfl

/-- The parser only builds invariant trees: every `Option.some` result of
a component satisfies the non-null-child invariant (given invariant
inputs where a partially built node is threaded through). -/
theorem inv_components (fuel : Nat) :
    (∀ (head : NameSeq) (st : PState) (r : NameSeq × PState),
        invName head = true → read_name_loop fuel head st = Option.some r →
        invName r.1 = true) ∧
    (∀ (st : PState) (r : NameSeq × PState),
        read_name fuel st = Option.some r → invName r.1 = true) ∧
    (∀ (st : PState) (r : TyList × PState),
        read_params fuel st = Option.some r → invList r.1 = true) ∧
    (∀ (head : Option Nat) (allocs : List PNode) (backref : List Nat)
        (tp : Option Nat) (st : PState) (r : TyList × PState),
        (∀ pn ∈ allocs, invT pn.val = true) →
        read_params_loop fuel head allocs backref tp st = Option.some r →
        invList r.1 = true) ∧
    (∀ (ty : CType) (p : PrimTy) (st : PState) (r : CType × PState),
        invT ty = true → needsChild p = false →
        read_class fuel ty p st = Option.some r → invT r.1 = true) ∧
    (∀ (ty : CType) (p : PrimTy) (st : PState) (r : CType × PState),
        invT ty = true → read_pointee fuel ty p st = Option.some r →
        invT r.1 = true) ∧
    (∀ (ty : CType) (st : PState) (r : CType × PState),
        invT ty = true → read_array fuel ty st = Option.some r →
        invT r.1 = true) ∧
    (∀ (ty : CType) (st : PState) (r : CType × PState),
        invT ty = true → read_var_type fuel ty st = Option.some r →
        invT r.1 = true) := by
  induction fuel with
  | zero =>
    refine ⟨?_, ?_, ?_, ?_, ?_, ?_, ?_, ?_⟩
    · intro _ _ _ _ h; exact absurd h (by rw [read_name_loop.eq_def]; simp)
    · intro _ _ h; exact absurd h (by rw [read_name.eq_def]; simp)
    · intro _ _ h; exact absurd h (by rw [read_params.eq_def]; simp)
    · intro _ _ _ _ _ _ _ h; exact absurd h (by rw [read_params_loop.eq_def]; simp)
    · intro _ _ _ _ _ _ h; exact absurd h (by rw [read_class.eq_def]; simp)
    · intro _ _ _ _ _ h; exact absurd h (by rw [read_pointee.eq_def]; simp)
    · intro _ _ _ _ h; exact absurd h (by rw [read_array.eq_def]; simp)
    · intro _ _ _ _ h; exact absurd h (by rw [read_var_type.eq_def]; simp)
  | succ n ih =>
    obtain ⟨ihLoop, ihName, ihParams, ihPLoop, ihClass, ihPointee, ihArray, ihVar⟩ := ih
    refine ⟨?_, ?_, ?_, ?_, ?_, ?_, ?_, ?_⟩
    · -- read_name_loop
      intro head st r hh h
      rw [read_name_loop.eq_def] at h
      dsimp only at h
      split at h
      · simp only [Option.some.injEq] at h
        rw [← h]
        exact hh
      · split at h
        · split at h
          · simp only [Option.some.injEq] at h
            rw [← h]
            rfl
          · refine ihLoop _ _ _ ?_ h
            simp only [invName, Bool.and_eq_true]
            exact ⟨rfl, hh⟩
        · split at h
          · split at h
            · exact absurd h (by simp)
            · next heq =>
              have hps := ihParams _ _ heq
              refine ihLoop _ _ _ ?_ h
              simp only [invName, Bool.and_eq_true]
              exact ⟨hps, hh⟩
          · refine ihLoop _ _ _ ?_ h
            simp only [invName, Bool.and_eq_true]
            exact ⟨rfl, hh⟩
    · -- read_name
      intro st r h
      rw [read_name.eq_def] at h
      dsimp only at h
      exact ihLoop .nil _ _ rfl h
    · -- read_params
      intro st r h
      rw [read_params.eq_def] at h
      dsimp only at h
      exact ihPLoop _ _ _ _ _ _ (by simp) h
    · -- read_params_loop
      intro head allocs backref tp st r ha h
      rw [read_params_loop.eq_def] at h
      dsimp only at h
      split at h
      · simp only [Option.some.injEq] at h
        rw [← h]
        exact inv_extractParams _ _ _ ha
      · split at h
        · split at h
          · simp only [Option.some.injEq] at h
            rw [← h]
            rfl
          · split at h
            · simp only [Option.some.injEq] at h
              rw [← h]
              rfl
            · have ha1 := inv_allocs_append allocs
                (allocs.getD (backref.getD (digitVal st.input) 0) pdef) ha
                (inv_getD allocs (backref.getD (digitVal st.input) 0) ha)
              have ha2 := inv_tpWrite tp allocs.length head _ ha1
              refine ihPLoop _ _ _ _ _ _ ?_ h
              exact inv_allocs_set _ _ _ ha2 (inv_getD _ _ ha2)
        · split at h
          · exact absurd h (by simp)
          · next heq =>
            have hv := ihVar _ _ _ (by rfl) heq
            have ha1 := inv_allocs_append allocs pdef ha inv_pdef
            have ha2 := inv_tpWrite tp allocs.length head _ ha1
            refine ihPLoop _ _ _ _ _ _ ?_ h
            exact inv_allocs_set _ _ _ ha2 hv
    · -- read_class
      intro ty p st r hty hp h
      rw [read_class.eq_def] at h
      dsimp only at h
      split at h
      · exact absurd h (by simp)
      · next heq =>
        have hnm := ihName _ _ heq
        simp only [Option.some.injEq] at h
        rw [← h]
        cases ty with
        | mk a b c d e f g h8 =>
          simp only [invT, Bool.and_eq_true] at hty
          obtain ⟨⟨⟨_, hopt⟩, _⟩, hparams⟩ := hty
          simp only [CType.setPrim, CType.setName]
          simp only [invT, Bool.and_eq_true]
          refine ⟨⟨⟨?_, hopt⟩, hnm⟩, hparams⟩
          rw [hp]
          rfl
    · -- read_pointee
      intro ty p st r hty h
      rw [read_pointee.eq_def] at h
      dsimp only at h
      split at h
      · exact absurd h (by simp)
      · next heq =>
        have hv := ihVar _ _ _ (by rfl) heq
        simp only [Option.some.injEq] at h
        rw [← h]
        cases ty with
        | mk a b c d e f g h8 =>
          simp only [invT, Bool.and_eq_true] at hty
          obtain ⟨⟨⟨_, _⟩, hname⟩, hparams⟩ := hty
          simp only [CType.setPrim, CType.setPtr]
          simp only [invT, invOpt, Bool.and_eq_true]
          exact ⟨⟨⟨Bool.or_true _, hv⟩, hname⟩, hparams⟩
    · -- read_array
      intro ty st r hty h
      rw [read_array.eq_def] at h
      dsimp only at h
      split at h
      · simp only [Option.some.injEq] at h
        rw [← h]
        exact hty
      · split at h
        · exact absurd h (by simp)
        · next heq =>
          have hv := ihVar _ _ _ (by rfl) heq
          simp only [Option.some.injEq] at h
          rw [← h]
          exact inv_buildArr _ _ _ _ hty hv
    · -- read_var_type
      intro ty st r hty h
      rw [read_var_type.eq_def] at h
      dsimp only at h
      split at h
      · split at h
        · exact absurd h (by simp)
        · next heq =>
          have hnm := ihName _ _ heq
          simp only [Option.some.injEq] at h
          rw [← h]
          cases ty with
          | mk a b c d e f g h8 =>
            simp only [invT, Bool.and_eq_true] at hty
            obtain ⟨⟨⟨_, hopt⟩, _⟩, hparams⟩ := hty
            simp only [CType.setPrim, CType.setName]
            simp only [invT, Bool.and_eq_true]
            exact ⟨⟨⟨rfl, hopt⟩, hnm⟩, hparams⟩
      · split at h
        · split at h
          · exact absurd h (by simp)
          · next heq1 =>
            split at h
            · exact absurd h (by simp)
            · next heq2 =>
              have hret := ihVar _ _ _ (by rfl) heq1
              have hps := ihParams _ _ heq2
              simp only [Option.some.injEq] at h
              rw [← h]
              have hfn : ∀ (fnRet : CType) (ps : TyList), invT fnRet = true →
                  invList ps = true →
                  invT (((defTy.setPrim .Function).setPtr
                    (.some fnRet)).setParams ps) = true := by
                intro fnRet ps h1 h2
                show invT (.mk .Function (.some fnRet) 0 .Cdecl 0 0 .nil ps) = true
                simp only [invT, invOpt, invName, invList, Bool.and_eq_true]
                exact ⟨⟨⟨rfl, h1⟩, trivial⟩, h2⟩
              cases ty with
              | mk a b c d e f g h8 =>
                simp only [invT, Bool.and_eq_true] at hty
                obtain ⟨⟨⟨_, _⟩, hname⟩, hparams⟩ := hty
                simp only [CType.setPrim, CType.setPtr]
                simp only [invT, invOpt, Bool.and_eq_true]
                exact ⟨⟨⟨Bool.or_true _, hfn _ _ hret hps⟩, hname⟩, hparams⟩
        · split at h
          · exact ihClass _ _ _ _ hty (by decide) h
          · exact ihClass _ _ _ _ hty (by decide) h
          · exact ihClass _ _ _ _ hty (by decide) h
          · exact ihPointee _ _ _ _ hty h
          · exact ihPointee _ _ _ _ hty h
          · split at h
            · exact absurd h (by simp)
            · next heq =>
              have h1 := ihPointee _ _ _ _ hty heq
              simp only [Option.some.injEq] at h
              rw [← h]
              rw [invT_setSclass]
              exact h1
          · exact ihArray _ _ _ hty h
          · simp only [Option.some.injEq] at h
            rw [← h]
            cases ty with
            | mk a b c d e f g h8 =>
              simp only [invT, Bool.and_eq_true] at hty
              obtain ⟨⟨⟨_, hopt⟩, hname⟩, hparams⟩ := hty
              simp only [CType.setPrim]
              simp only [invT, Bool.and_eq_true]
              refine ⟨⟨⟨?_, hopt⟩, hname⟩, hparams⟩
              rw [needsChild_read_prim_type]
              rfl

/-- A `Function` node assembled by `parse()`/`read_var_type` with an
invariant return type and parameter list is invariant. -/
theorem inv_funcTy (ret : CType) (ps : TyList) (cc : CallingConv) (sc fc : Nat)
    (h1 : invT ret = true) (h2 : invList ps = true) :
    invT (.mk .Function (.some ret) sc cc fc 0 .nil ps) = true := by
  simp only [invT, invOpt, invName, invList, Bool.and_eq_true]
  exact ⟨⟨⟨rfl, h1⟩, trivial⟩, h2⟩

theorem inv_read_func_return_type (fuel : Nat) (ty : CType) (st : PState)
    (r : CType × PState) (hty : invT ty = true)
    (h : read_func_return_type fuel ty st = Option.some r) : invT r.1 = true := by
  rw [read_func_return_type] at h
  split at h
  · simp only [Option.some.injEq] at h
    rw [← h]
    cases ty with
    | mk a b c d e f g h8 =>
      simp only [invT, Bool.and_eq_true] at hty
      obtain ⟨⟨⟨_, hopt⟩, hname⟩, hparams⟩ := hty
      simp only [CType.setPrim]
      simp only [invT, Bool.and_eq_true]
      exact ⟨⟨⟨rfl, hopt⟩, hname⟩, hparams⟩
  · exact (inv_components fuel).2.2.2.2.2.2.2 _ _ _ hty h

/-- The root type and symbol of every completed `parse()` satisfy the
non-null-child invariant. -/
theorem inv_parse (fuel : Nat) (s : Chars) (r : PResult)
    (h : parseD fuel s = Option.some r) :
    invT r.ty = true ∧ invName r.symbol = true := by
  rw [parseD] at h
  dsimp only at h
  split at h
  · exact absurd h (by simp)
  · next sym st1 heq1 =>
    have hsym := (inv_components fuel).2.1 _ _ heq1
    split at h
    · split at h
      · exact absurd h (by simp)
      · next heq2 =>
        have hty := (inv_components fuel).2.2.2.2.2.2.2 _ _ _ (by rfl) heq2
        simp only [Option.some.injEq] at h
        rw [← h]
        exact ⟨hty, hsym⟩
    · split at h
      · split at h
        · exact absurd h (by simp)
        · next heq2 =>
          split at h
          · exact absurd h (by simp)
          · next heq3 =>
            have hret := (inv_components fuel).2.2.2.2.2.2.2 _ _ _ (by rfl) heq2
            have hps := (inv_components fuel).2.2.1 _ _ heq3
            simp only [Option.some.injEq] at h
            rw [← h]
            exact ⟨inv_funcTy _ _ _ _ _ hret hps, hsym⟩
      · split at h
        · exact absurd h (by simp)
        · next heq2 =>
          split at h
          · exact absurd h (by simp)
          · next heq3 =>
            have hret := inv_read_func_return_type fuel _ _ _ (by rfl) heq2
            have hps := (inv_components fuel).2.2.1 _ _ heq3
            simp only [Option.some.injEq] at h
            rw [← h]
            exact ⟨inv_funcTy _ _ _ _ _ hret hps, hsym⟩

/-! ## Suffix/error-latch toolkit -/

theorem str_app_ne (a b : String) (ha : a.data ≠ []) : a ++ b ≠ "" := by
  intro h
  have hd2 : a.data ++ b.data = ([] : Chars) := congrArg String.data h
  exact ha (List.append_eq_nil.mp hd2).1

theorem upt_ne (l : Chars) : ("unknown primitive type: " ++ String.mk l) ≠ "" :=
  str_app_ne _ _ (by decide)

theorem usc_ne (l : Chars) : ("unkonwn storage class: " ++ String.mk l) ≠ "" :=
  str_app_ne _ _ (by decide)

theorem exp_ne (p l : Chars) :
    (String.mk p ++ " expected, but got " ++ String.mk l) ≠ "" := by
  apply str_app_ne
  show p ++ " expected, but got ".data ≠ []
  simp

theorem se_refl (st : PState) : SE st st := ⟨List.suffix_rfl, id⟩

theorem se_trans {a b c : PState} (h1 : SE a b) (h2 : SE b c) : SE a c :=
  ⟨h2.1.trans h1.1, fun h => h1.2 (h2.2 h)⟩

theorem se_of_parts {a b : PState} (h1 : b.input.IsSuffix a.input)
    (h2 : b.error = a.error) : SE a b := ⟨h1, fun h => h2 ▸ h⟩

theorem se_setErr (m : String) (st : PState) (hm : m ≠ "") :
    SE st (setErr m st) :=
  ⟨List.suffix_rfl, fun h => absurd h hm⟩

theorem se_consume (p : Chars) (st : PState) : SE st (consume p st).2 := by
  rw [consume]
  split
  · exact se_of_parts (List.drop_suffix _ _) rfl
  · exact se_refl st

theorem se_expect (p : Chars) (st : PState) : SE st (expect p st) := by
  rw [expect]
  split
  · exact se_consume p st
  · exact se_setErr _ st (exp_ne p _)

theorem se_memorize (sd : Chars) (st : PState) : SE st (memorize_string sd st) := by
  rw [memorize_string]
  split
  · exact se_refl st
  · split
    · exact se_refl st
    · exact se_of_parts List.suffix_rfl rfl

theorem se_read_string (m : Bool) (st : PState) : SE st (read_string m st).2 := by
  rw [read_string]
  cases h : st.input.findIdx? (· = '@') with
  | none =>
    simp only [h]
    exact se_setErr _ st (str_app_ne _ _ (by decide))
  | some i =>
    simp only [h]
    split
    · exact se_trans
        (@se_of_parts st { st with input := st.input.drop (i + 1) }
          (List.drop_suffix _ _) rfl)
        (se_memorize _ _)
    · exact se_of_parts (List.drop_suffix _ _) rfl

theorem readNumLoop_suffix : ∀ (x : Chars) (ret : Int) (r : Int × Chars),
    readNumLoop x ret = Option.some r → r.2.IsSuffix x := by
  intro x
  induction x with
  | nil => intro ret r h; exact absurd h (by rw [readNumLoop]; simp)
  | cons c rest ih =>
    intro ret r h
    rw [readNumLoop] at h
    split at h
    · simp only [Option.some.injEq] at h
      rw [← h]
      exact (List.suffix_cons c rest)
    · split at h
      · exact ((ih _ _ h).trans (List.suffix_cons c rest))
      · exact absurd h (by simp)

theorem se_read_number (st : PState) : SE st (read_number st).2 := by
  rw [read_number]
  split
  · refine se_trans (se_consume ['?'] st) (se_of_parts (List.drop_suffix _ _) rfl)
  · split
    · next r rest heq =>
      exact se_trans (se_consume ['?'] st)
        (se_of_parts (readNumLoop_suffix _ _ _ heq) rfl)
    · exact se_trans (se_consume ['?'] st)
        (se_setErr _ _ (by decide))

theorem se_read_func_class (st : PState) : SE st (read_func_class st).2 := by
  rw [read_func_class]
  split
  · exact se_setErr _ st (str_app_ne _ _ (by decide))
  · next c r heq =>
    split
    · exact se_of_parts ⟨[c], heq.symm⟩ rfl
    · exact se_setErr _ st (str_app_ne _ _ (by decide))

theorem se_read_func_access_class (st : PState) :
    SE st (read_func_access_class st).2 := by
  rw [read_func_access_class]
  split
  · exact se_refl st
  · next c r heq =>
    split
    · refine se_of_parts ?_ rfl
      first
        | (rw [heq]; exact List.suffix_cons _ _)
        | (rw [← heq]; exact List.suffix_cons _ _)
    · exact se_refl st

theorem se_read_calling_conv (st : PState) : SE st (read_calling_conv st).2 := by
  rw [read_calling_conv]
  split
  · exact se_setErr _ st (str_app_ne _ _ (by decide))
  · next c r heq =>
    split
    · refine se_of_parts ?_ rfl
      first
        | (rw [heq]; exact List.suffix_cons _ _)
        | (rw [← heq]; exact List.suffix_cons _ _)
    · exact se_setErr _ st (str_app_ne _ _ (by decide))

theorem se_read_storage_class (st : PState) : SE st (read_storage_class st).2 := by
  rw [read_storage_class]
  split
  · exact se_refl st
  · next c r heq =>
    split
    · refine se_of_parts ?_ rfl
      first
        | (rw [heq]; exact List.suffix_cons _ _)
        | (rw [← heq]; exact List.suffix_cons _ _)
    · exact se_refl st

theorem se_read_storage_class_for_return (st : PState) :
    SE st (read_storage_class_for_return st).2 := by
  rw [read_storage_class_for_return]
  dsimp only
  split
  · exact se_consume _ _
  · split
    · exact se_consume _ _
    · split
      · exact se_consume _ _
      · split
        · exact se_consume _ _
        · exact se_refl st

theorem se_read_prim_type (st : PState) : SE st (read_prim_type st).2 := by
  rw [read_prim_type]
  split
  · exact se_setErr _ st (upt_ne _)
  · next o c rest heq =>
    have hsuf : rest.IsSuffix st.input := ⟨[c], heq.symm⟩
    split
    · cases rest with
      | nil =>
        exact se_trans (@se_of_parts st { st with input := [] } List.nil_suffix rfl)
          (se_setErr _ _ (upt_ne _))
      | cons e2 r2 =>
        have hsuf2 : r2.IsSuffix st.input := by
          rw [heq]
          exact ⟨[c, e2], rfl⟩
        cases hp : primOfU e2 with
        | some p =>
          simp only [hp]
          exact se_of_parts hsuf2 rfl
        | none =>
          simp only [hp]
          exact se_trans (@se_of_parts st { st with input := r2 } hsuf2 rfl)
            (se_setErr _ _ (upt_ne _))
    · cases hp : primOf c with
      | some p =>
        simp only [hp]
        exact se_of_parts hsuf rfl
      | none =>
        simp only [hp]
        exact se_trans (@se_of_parts st { st with input := rest } hsuf rfl)
          (se_setErr _ _ (upt_ne _))

theorem se_readArrLens (k : Nat) : ∀ st : PState, SE st (readArrLens k st).2 := by
  induction k with
  | zero => intro st; exact se_refl st
  | succ n ih =>
    intro st
    rw [readArrLens]
    exact se_trans (se_read_number st) (ih _)

theorem se_readDollarC (st : PState) : SE st (readDollarC st).2 := by
  rw [readDollarC]
  dsimp only
  split
  · split
    · exact se_trans (se_consume _ _) (se_consume _ _)
    · split
      · exact se_trans (se_consume _ _) (se_consume _ _)
      · split
        · exact se_trans (se_consume _ _) (se_consume _ _)
        · split
          · exact se_trans (se_consume _ _) (se_consume _ _)
          · exact se_trans (se_consume _ _) (se_setErr _ _ (usc_ne _))
  · exact se_refl st

theorem se_extractParams (h : Option Nat) (a : List PNode) (st : PState) :
    SE st (extractParams h a st).2 := by
  rw [extractParams]
  dsimp only
  split
  · exact se_refl st
  · exact se_of_parts List.suffix_rfl rfl

/-- Suffix/error-latch across the mutual parser: a successful component
leaves a suffix of its input and never clears a set error. -/
theorem se_components (fuel : Nat) :
    (∀ (head : NameSeq) (st : PState) (r : NameSeq × PState),
        read_name_loop fuel head st = Option.some r → SE st r.2) ∧
    (∀ (st : PState) (r : NameSeq × PState),
        read_name fuel st = Option.some r → SE st r.2) ∧
    (∀ (st : PState) (r : TyList × PState),
        read_params fuel st = Option.some r → SE st r.2) ∧
    (∀ (head : Option Nat) (allocs : List PNode) (backref : List Nat)
        (tp : Option Nat) (st : PState) (r : TyList × PState),
        read_params_loop fuel head allocs backref tp st = Option.some r → SE st r.2) ∧
    (∀ (ty : CType) (p : PrimTy) (st : PState) (r : CType × PState),
        read_class fuel ty p st = Option.some r → SE st r.2) ∧
    (∀ (ty : CType) (p : PrimTy) (st : PState) (r : CType × PState),
        read_pointee fuel ty p st = Option.some r → SE st r.2) ∧
    (∀ (ty : CType) (st : PState) (r : CType × PState),
        read_array fuel ty st = Option.some r → SE st r.2) ∧
    (∀ (ty : CType) (st : PState) (r : CType × PState),
        read_var_type fuel ty st = Option.some r → SE st r.2) := by
  induction fuel with
  | zero =>
    refine ⟨?_, ?_, ?_, ?_, ?_, ?_, ?_, ?_⟩
    · intro _ _ _ h; exact absurd h (by rw [read_name_loop.eq_def]; simp)
    · intro _ _ h; exact absurd h (by rw [read_name.eq_def]; simp)
    · intro _ _ h; exact absurd h (by rw [read_params.eq_def]; simp)
    · intro _ _ _ _ _ _ h; exact absurd h (by rw [read_params_loop.eq_def]; simp)
    · intro _ _ _ _ h; exact absurd h (by rw [read_class.eq_def]; simp)
    · intro _ _ _ _ h; exact absurd h (by rw [read_pointee.eq_def]; simp)
    · intro _ _ _ h; exact absurd h (by rw [read_array.eq_def]; simp)
    · intro _ _ _ h; exact absurd h (by rw [read_var_type.eq_def]; simp)
  | succ n ih =>
    obtain ⟨ihLoop, ihName, ihParams, ihPLoop, ihClass, ihPointee, ihArray, ihVar⟩ := ih
    refine ⟨?_, ?_, ?_, ?_, ?_, ?_, ?_, ?_⟩
    · -- read_name_loop
      intro head st r h
      rw [read_name_loop.eq_def] at h
      dsimp only at h
      split at h
      · simp only [Option.some.injEq] at h
        rw [← h]
        exact se_consume _ _
      · split at h
        · split at h
          · simp only [Option.some.injEq] at h
            rw [← h]
            exact se_setErr _ _ (str_app_ne _ _ (by decide))
          · have step := ihLoop _ _ _ h
            exact se_trans (@se_of_parts st { st with input := List.drop 1 st.input }
              (List.drop_suffix _ _) rfl) step
        · split at h
          · split at h
            · exact absurd h (by simp)
            · next heq =>
              have s1 := ihParams _ _ heq
              have s2 := ihLoop _ _ _ h
              exact se_trans (se_consume _ _)
                (se_trans (se_read_string _ _)
                  (se_trans s1 (se_trans (se_expect _ _) s2)))
          · have step := ihLoop _ _ _ h
            exact se_trans (se_read_string _ _) step
    · -- read_name
      intro st r h
      rw [read_name.eq_def] at h
      dsimp only at h
      exact ihLoop _ _ _ h
    · -- read_params
      intro st r h
      rw [read_params.eq_def] at h
      dsimp only at h
      exact ihPLoop _ _ _ _ _ _ h
    · -- read_params_loop
      intro head allocs backref tp st r h
      rw [read_params_loop.eq_def] at h
      dsimp only at h
      split at h
      · simp only [Option.some.injEq] at h
        rw [← h]
        exact se_extractParams _ _ _
      · split at h
        · split at h
          · simp only [Option.some.injEq] at h
            rw [← h]
            exact se_setErr _ _ (str_app_ne _ _ (by decide))
          · split at h
            · simp only [Option.some.injEq] at h
              rw [← h]
              exact se_of_parts (List.drop_suffix _ _) rfl
            · have step := ihPLoop _ _ _ _ _ _ h
              exact se_trans (@se_of_parts st { st with input := List.drop 1 st.input }
                (List.drop_suffix _ _) rfl) step
        · split at h
          · exact absurd h (by simp)
          · next heq =>
            have s1 := ihVar _ _ _ heq
            have s2 := ihPLoop _ _ _ _ _ _ h
            exact se_trans s1 s2
    · -- read_class
      intro ty p st r h
      rw [read_class.eq_def] at h
      dsimp only at h
      split at h
      · exact absurd h (by simp)
      · next heq =>
        have step := ihName _ _ heq
        simp only [Option.some.injEq] at h
        rw [← h]
        exact step
    · -- read_pointee
      intro ty p st r h
      rw [read_pointee.eq_def] at h
      dsimp only at h
      split at h
      · exact absurd h (by simp)
      · next heq =>
        have step := ihVar _ _ _ heq
        simp only [Option.some.injEq] at h
        rw [← h]
        exact se_trans (se_expect _ _)
          (se_trans (se_read_storage_class _) step)
    · -- read_array
      intro ty st r h
      rw [read_array.eq_def] at h
      dsimp only at h
      split at h
      · simp only [Option.some.injEq] at h
        rw [← h]
        exact se_trans (se_read_number _) (se_setErr _ _ (str_app_ne _ _ (by decide)))
      · split at h
        · exact absurd h (by simp)
        · next heq =>
          have step := ihVar _ _ _ heq
          simp only [Option.some.injEq] at h
          rw [← h]
          exact se_trans (se_read_number _)
            (se_trans (se_readArrLens _ _)
              (se_trans (se_readDollarC _) step))
    · -- read_var_type
      intro ty st r h
      rw [read_var_type.eq_def] at h
      dsimp only at h
      split at h
      · split at h
        · exact absurd h (by simp)
        · next heq =>
          have step := ihName _ _ heq
          simp only [Option.some.injEq] at h
          rw [← h]
          exact se_trans (se_consume _ _) step
      · split at h
        · split at h
          · exact absurd h (by simp)
          · next heq1 =>
            split at h
            · exact absurd h (by simp)
            · next heq2 =>
              have s1 := ihVar _ _ _ heq1
              have s2 := ihParams _ _ heq2
              simp only [Option.some.injEq] at h
              rw [← h]
              refine se_trans (se_consume _ _) (se_trans s1 (se_trans s2 ?_))
              split
              · exact se_of_parts (List.drop_suffix _ _) rfl
              · split
                · exact se_of_parts (List.drop_suffix _ _) rfl
                · exact se_refl _
        · split at h
          · next r0 heq0 =>
            have step := ihClass _ _ _ _ h
            refine se_trans (@se_of_parts st { st with input := r0 } ?_ rfl) step
            show r0.IsSuffix st.input
            first
              | (rw [heq0]; exact List.suffix_cons _ _)
              | (rw [← heq0]; exact List.suffix_cons _ _)
          · next r0 heq0 =>
            have step := ihClass _ _ _ _ h
            refine se_trans (@se_of_parts st { st with input := r0 } ?_ rfl) step
            show r0.IsSuffix st.input
            first
              | (rw [heq0]; exact List.suffix_cons _ _)
              | (rw [← heq0]; exact List.suffix_cons _ _)
          · next r0 heq0 =>
            have step := ihClass _ _ _ _ h
            refine se_trans (@se_of_parts st { st with input := r0 } ?_ rfl) step
            show r0.IsSuffix st.input
            first
              | (rw [heq0]; exact List.suffix_cons _ _)
              | (rw [← heq0]; exact List.suffix_cons _ _)
          · next r0 heq0 =>
            have step := ihPointee _ _ _ _ h
            refine se_trans (@se_of_parts st { st with input := r0 } ?_ rfl) step
            show r0.IsSuffix st.input
            first
              | (rw [heq0]; exact List.suffix_cons _ _)
              | (rw [← heq0]; exact List.suffix_cons _ _)
          · next r0 heq0 =>
            have step := ihPointee _ _ _ _ h
            refine se_trans (@se_of_parts st { st with input := r0 } ?_ rfl) step
            show r0.IsSuffix st.input
            first
              | (rw [heq0]; exact List.suffix_cons _ _)
              | (rw [← heq0]; exact List.suffix_cons _ _)
          · next r0 heq0 =>
            split at h
            · exact absurd h (by simp)
            · next heq =>
              have step := ihPointee _ _ _ _ heq
              simp only [Option.some.injEq] at h
              rw [← h]
              refine se_trans (@se_of_parts st { st with input := r0 } ?_ rfl) step
              show r0.IsSuffix st.input
              first
                | (rw [heq0]; exact List.suffix_cons _ _)
                | (rw [← heq0]; exact List.suffix_cons _ _)
          · next r0 heq0 =>
            have step := ihArray _ _ _ h
            refine se_trans (@se_of_parts st { st with input := r0 } ?_ rfl) step
            show r0.IsSuffix st.input
            first
              | (rw [heq0]; exact List.suffix_cons _ _)
              | (rw [← heq0]; exact List.suffix_cons _ _)
          · simp only [Option.some.injEq] at h
            rw [← h]
            exact se_read_prim_type _

/-! ## Input-extension toolkit -/

theorem isPrefixOf_ext_true (p x E : Chars) (h : p.isPrefixOf x = true) :
    p.isPrefixOf (x ++ E) = true := by
  rw [List.isPrefixOf_iff_prefix] at h ⊢
  exact h.trans (List.prefix_append x E)

theorem isPrefixOf_ext_false (p x E : Chars) (h : p.isPrefixOf x = false)
    (hx : x.isPrefixOf p = false) : p.isPrefixOf (x ++ E) = false := by
  rw [Bool.eq_false_iff] at h hx ⊢
  rw [Ne, List.isPrefixOf_iff_prefix] at h hx ⊢
  intro hpe
  rcases List.prefix_or_prefix_of_prefix hpe (List.prefix_append x E) with hc | hc
  · exact h hc
  · exact hx hc

theorem pfx1 (x : Chars) (a : Char) (h : x.isPrefixOf [a] = true) :
    x = [] ∨ x = [a] := by
  rcases x with _ | ⟨d, _ | ⟨e, t⟩⟩
  · exact Or.inl rfl
  · simp only [List.isPrefixOf, Bool.and_eq_true, beq_iff_eq] at h
    rw [h.1]
    exact Or.inr rfl
  · simp [List.isPrefixOf] at h

theorem pfx2 (x : Chars) (a b : Char) (h : x.isPrefixOf [a, b] = true) :
    x = [] ∨ x = [a] ∨ x = [a, b] := by
  rcases x with _ | ⟨d, _ | ⟨e, _ | ⟨f, t⟩⟩⟩
  · exact Or.inl rfl
  · simp only [List.isPrefixOf, Bool.and_eq_true, beq_iff_eq] at h
    rw [h.1]
    exact Or.inr (Or.inl rfl)
  · simp only [List.isPrefixOf, Bool.and_eq_true, beq_iff_eq] at h
    rw [h.1, h.2.1]
    exact Or.inr (Or.inr rfl)
  · simp [List.isPrefixOf] at h

theorem pfx3 (x : Chars) (a b c : Char) (h : x.isPrefixOf [a, b, c] = true) :
    x = [] ∨ x = [a] ∨ x = [a, b] ∨ x = [a, b, c] := by
  rcases x with _ | ⟨d, _ | ⟨e, _ | ⟨f, _ | ⟨g, t⟩⟩⟩⟩
  · exact Or.inl rfl
  · simp only [List.isPrefixOf, Bool.and_eq_true, beq_iff_eq] at h
    rw [h.1]
    exact Or.inr (Or.inl rfl)
  · simp only [List.isPrefixOf, Bool.and_eq_true, beq_iff_eq] at h
    rw [h.1, h.2.1]
    exact Or.inr (Or.inr (Or.inl rfl))
  · simp only [List.isPrefixOf, Bool.and_eq_true, beq_iff_eq] at h
    rw [h.1, h.2.1, h.2.2.1]
    exact Or.inr (Or.inr (Or.inr rfl))
  · simp [List.isPrefixOf] at h

theorem findIdx_aux_lt (p : Char → Bool) : ∀ (l : Chars) (n i : Nat),
    List.findIdx? p l n = Option.some i → i < n + l.length := by
  intro l
  induction l with
  | nil => intro n i h; simp [List.findIdx?] at h
  | cons a t ih =>
    intro n i h
    rw [List.findIdx?] at h
    split at h
    · simp only [Option.some.injEq] at h
      rw [← h]
      simp
    · have := ih (n + 1) i h
      simp only [List.length_cons]
      omega

theorem findIdx_aux_append (p : Char → Bool) : ∀ (l E : Chars) (n i : Nat),
    List.findIdx? p l n = Option.some i →
    List.findIdx? p (l ++ E) n = Option.some i := by
  intro l
  induction l with
  | nil => intro E n i h; simp [List.findIdx?] at h
  | cons a t ih =>
    intro E n i h
    rw [List.findIdx?] at h
    rw [show (a :: t) ++ E = a :: (t ++ E) from rfl, List.findIdx?]
    split at h
    · next hc => rw [if_pos hc]; exact h
    · next hc => rw [if_neg hc]; exact ih E (n + 1) i h

theorem consume_ext_true (p E : Chars) (st : PState)
    (h : (consume p st).1 = true) :
    consume p (extIn E st) = (true, extIn E (consume p st).2) := by
  have hpre : p.isPrefixOf st.input = true := by
    rw [consume] at h
    by_cases hb : p.isPrefixOf st.input = true
    · exact hb
    · rw [Bool.not_eq_true] at hb
      rw [if_neg (by rw [hb]; simp)] at h
      simp at h
  have hlen : p.length ≤ st.input.length :=
    (List.isPrefixOf_iff_prefix.mp hpre).length_le
  rw [consume, consume, if_pos hpre]
  rw [if_pos (show p.isPrefixOf (extIn E st).input = true from
    isPrefixOf_ext_true p st.input E hpre)]
  show (true, ({ st with input := (st.input ++ E).drop p.length } : PState)) = _
  rw [List.drop_append_of_le_length hlen]
  rfl

theorem consume_ext_false (p E : Chars) (st : PState)
    (h : (consume p st).1 = false) (hx : st.input.isPrefixOf p = false) :
    consume p (extIn E st) = (false, extIn E st) := by
  have hpre : p.isPrefixOf st.input = false := by
    by_cases hb : p.isPrefixOf st.input = true
    · rw [consume, if_pos hb] at h
      simp at h
    · rw [Bool.not_eq_true] at hb
      exact hb
  rw [consume]
  rw [if_neg (by rw [show (extIn E st).input = st.input ++ E from rfl,
    isPrefixOf_ext_false p st.input E hpre hx]; simp)]

theorem expect_ext_true (p E : Chars) (st : PState)
    (h : (consume p st).1 = true) :
    expect p (extIn E st) = extIn E (expect p st) := by
  rw [expect, expect, if_pos h]
  have h2 := consume_ext_true p E st h
  rw [h2]
  rw [if_pos (show (true, extIn E (consume p st).2).1 = true from rfl)]

theorem memorize_ext (sd E : Chars) (st : PState) :
    memorize_string sd (extIn E st) = extIn E (memorize_string sd st) := by
  by_cases h1 : 10 ≤ st.names.length
  · rw [memorize_string, memorize_string,
      if_pos (show 10 ≤ (extIn E st).names.length from h1), if_pos h1]
  · rw [memorize_string, memorize_string,
      if_neg (show ¬ 10 ≤ (extIn E st).names.length from h1), if_neg h1]
    by_cases h2 : st.names.contains sd = true
    · rw [if_pos (show (extIn E st).names.contains sd = true from h2), if_pos h2]
    · rw [if_neg (show ¬ (extIn E st).names.contains sd = true from h2), if_neg h2]
      rfl

theorem read_string_ext (m : Bool) (E : Chars) (st : PState) (i : Nat)
    (hf : st.input.findIdx? (· = '@') = Option.some i) :
    read_string m (extIn E st) =
      ((read_string m st).1, extIn E (read_string m st).2) := by
  have hlt : i < st.input.length := by
    have := findIdx_aux_lt _ _ _ _ hf
    omega
  have hf2 : (extIn E st).input.findIdx? (· = '@') = Option.some i :=
    findIdx_aux_append _ _ _ _ _ hf
  rw [read_string, read_string, hf, hf2]
  dsimp only
  rw [show (extIn E st).input = st.input ++ E from rfl]
  rw [List.take_append_of_le_length (by omega), List.drop_append_of_le_length (by omega)]
  split
  · rw [show ({ extIn E st with input := st.input.drop (i + 1) ++ E } : PState) =
      extIn E { st with input := st.input.drop (i + 1) } from rfl]
    rw [memorize_ext]
  · rfl

theorem readNumLoop_ext : ∀ (x E : Chars) (ret : Int) (r : Int × Chars),
    readNumLoop x ret = Option.some r →
    readNumLoop (x ++ E) ret = Option.some (r.1, r.2 ++ E) := by
  intro x
  induction x with
  | nil => intro E ret r h; exact absurd h (by rw [readNumLoop]; simp)
  | cons c rest ih =>
    intro E ret r h
    rw [readNumLoop] at h
    rw [show (c :: rest) ++ E = c :: (rest ++ E) from rfl, readNumLoop]
    split at h
    · next hc =>
      rw [if_pos hc]
      simp only [Option.some.injEq] at h
      rw [← h]
    · next hc =>
      rw [if_neg hc]
      split at h
      · next hr =>
        rw [if_pos hr]
        exact ih _ _ _ h
      · next hr =>
        rw [if_neg hr]
        exact absurd h (by simp)

theorem read_number_ext (E : Chars) (st : PState)
    (herr : (read_number st).2.error = "") :
    read_number (extIn E st) = ((read_number st).1, extIn E (read_number st).2) := by
  obtain ⟨inp, err, nms, u⟩ := st
  rcases inp with _ | ⟨c, r⟩
  · exfalso
    have hbn : (read_number ⟨[], err, nms, u⟩).2.error = "bad number" := rfl
    rw [hbn] at herr
    exact absurd herr (by decide)
  · by_cases hc : c = '?'
    · subst hc
      rcases r with _ | ⟨d, r2⟩
      · exfalso
        have hbn : (read_number ⟨['?'], err, nms, u⟩).2.error = "bad number" := rfl
        rw [hbn] at herr
        exact absurd herr (by decide)
      · show read_number ⟨('?' :: d :: r2) ++ E, err, nms, u⟩ = _
        rw [show ('?' :: d :: r2) ++ E = '?' :: d :: r2 ++ E from rfl]
        rw [read_number, read_number]
        dsimp only
        rw [show consume ['?'] ⟨'?' :: d :: r2, err, nms, u⟩ =
          (true, ⟨d :: r2, err, nms, u⟩) from rfl]
        rw [show consume ['?'] ⟨'?' :: d :: r2 ++ E, err, nms, u⟩ =
          (true, ⟨d :: r2 ++ E, err, nms, u⟩) from rfl]
        dsimp only
        by_cases hd : startswithD (d :: r2) = true
        · rw [if_pos hd, if_pos (show startswithD (d :: r2 ++ E) = true from hd)]
          rfl
        · rw [Bool.not_eq_true] at hd
          rw [if_neg (by rw [show startswithD (d :: r2 ++ E) = startswithD (d :: r2)
              from rfl, hd]; simp),
            if_neg (by rw [hd]; simp)]
          cases hnl : readNumLoop (d :: r2) 0 with
          | none =>
            exfalso
            have hbn : (read_number ⟨'?' :: d :: r2, err, nms, u⟩).2.error =
                "bad number" := by
              rw [read_number]
              dsimp only
              rw [show consume ['?'] ⟨'?' :: d :: r2, err, nms, u⟩ =
                (true, ⟨d :: r2, err, nms, u⟩) from rfl]
              dsimp only
              rw [if_neg (by rw [hd]; simp), hnl]
              rfl
            rw [hbn] at herr
            exact absurd herr (by decide)
          | some pr =>
            rw [show (d :: r2 ++ E : Chars) = (d :: r2) ++ E from rfl]
            rw [readNumLoop_ext (d :: r2) E 0 pr hnl]
            rfl
    · have hcons : consume ['?'] ⟨c :: r, err, nms, u⟩ = (false, ⟨c :: r, err, nms, u⟩) := by
        rw [consume, if_neg]
        simp [List.isPrefixOf, hc]
        intro hcc
        exact absurd hcc.symm hc
      have hconsE : consume ['?'] ⟨(c :: r) ++ E, err, nms, u⟩ =
          (false, ⟨(c :: r) ++ E, err, nms, u⟩) := by
        rw [consume, if_neg]
        simp [List.isPrefixOf, hc]
        intro hcc
        exact absurd hcc.symm hc
      show read_number ⟨(c :: r) ++ E, err, nms, u⟩ = _
      rw [read_number, read_number]
      dsimp only
      rw [hcons, hconsE]
      dsimp only
      by_cases hd : startswithD (c :: r) = true
      · rw [if_pos hd,
          if_pos (show startswithD ((c :: r) ++ E) = true from hd)]
        rfl
      · rw [Bool.not_eq_true] at hd
        rw [if_neg (by rw [show startswithD ((c :: r) ++ E) = startswithD (c :: r)
            from rfl, hd]; simp),
          if_neg (by rw [hd]; simp)]
        cases hnl : readNumLoop (c :: r) 0 with
        | none =>
          exfalso
          have hbn : (read_number ⟨c :: r, err, nms, u⟩).2.error = "bad number" := by
            rw [read_number]
            dsimp only
            rw [hcons]
            dsimp only
            rw [if_neg (by rw [hd]; simp), hnl]
            rfl
          rw [hbn] at herr
          exact absurd herr (by decide)
        | some pr =>
          rw [readNumLoop_ext (c :: r) E 0 pr hnl]
          rfl

theorem dirty_suffix {x y : Chars} (hs : x.IsSuffix y)
    (hd : y = [] ∨ y = ['@']) : x = [] ∨ x = ['@'] := by
  obtain ⟨t, ht⟩ := hs
  rcases hd with rfl | rfl
  · rw [List.append_eq_nil] at ht
    exact Or.inl ht.2
  · rcases x with _ | ⟨c, r⟩
    · exact Or.inl rfl
    · rcases t with _ | ⟨d, t2⟩
      · exact Or.inr ht
      · exfalso
        have := congrArg List.length ht
        simp at this

theorem memoDiff_shift (a b k : Nat) (ha : a + k < 2 ^ 64) (hb : b + k < 2 ^ 64) :
    memoDiff (a + k) (b + k) = memoDiff a b := by
  rw [memoDiff, memoDiff]
  rw [Nat.mod_eq_of_lt ha, Nat.mod_eq_of_lt hb,
    Nat.mod_eq_of_lt (by omega : a < 2 ^ 64), Nat.mod_eq_of_lt (by omega : b < 2 ^ 64)]
  congr 1
  omega

theorem extract_ext (E : Chars) (hd : Option Nat) (a : List PNode) (st : PState) :
    extractParams hd a (extIn E st) =
      ((extractParams hd a st).1, extIn E (extractParams hd a st).2) := by
  rw [extractParams, extractParams]
  dsimp only
  by_cases hc : (chase a (a.length + 1) hd).2 = true
  · rw [if_pos hc, if_pos hc]
  · rw [if_neg hc, if_neg hc]
    rfl

theorem rfc_ext (E : Chars) (st : PState)
    (herr : (read_func_class st).2.error = "") :
    read_func_class (extIn E st) =
      ((read_func_class st).1, extIn E (read_func_class st).2) := by
  obtain ⟨inp, err, nms, u⟩ := st
  rcases inp with _ | ⟨c, r⟩
  · exfalso
    have h0 : (read_func_class ⟨[], err, nms, u⟩).2.error =
        ("unknown func class: " ++ String.mk []) := rfl
    rw [h0] at herr
    exact absurd herr (by decide)
  · show read_func_class ⟨c :: (r ++ E), err, nms, u⟩ = _
    rw [read_func_class, read_func_class]
    dsimp only
    cases hv : fcOf c with
    | some v =>
      simp only [hv]
      rfl
    | none =>
      exfalso
      rw [read_func_class] at herr
      dsimp only at herr
      simp only [hv] at herr
      exact absurd herr (str_app_ne _ _ (by decide))

theorem rfac_ext (E : Chars) (st : PState) (hne : st.input ≠ []) :
    read_func_access_class (extIn E st) =
      ((read_func_access_class st).1, extIn E (read_func_access_class st).2) := by
  obtain ⟨inp, err, nms, u⟩ := st
  rcases inp with _ | ⟨c, r⟩
  · exact absurd rfl hne
  · show read_func_access_class ⟨c :: (r ++ E), err, nms, u⟩ = _
    rw [read_func_access_class, read_func_access_class]
    dsimp only
    cases hv : acOf c with
    | some v => simp only [hv]; rfl
    | none => simp only [hv]; rfl

theorem rcc_ext (E : Chars) (st : PState)
    (herr : (read_calling_conv st).2.error = "") :
    read_calling_conv (extIn E st) =
      ((read_calling_conv st).1, extIn E (read_calling_conv st).2) := by
  obtain ⟨inp, err, nms, u⟩ := st
  rcases inp with _ | ⟨c, r⟩
  · exfalso
    have h0 : (read_calling_conv ⟨[], err, nms, u⟩).2.error =
        ("unknown calling convention: " ++ String.mk []) := rfl
    rw [h0] at herr
    exact absurd herr (by decide)
  · show read_calling_conv ⟨c :: (r ++ E), err, nms, u⟩ = _
    rw [read_calling_conv, read_calling_conv]
    dsimp only
    cases hv : ccOf c with
    | some v => simp only [hv]; rfl
    | none =>
      exfalso
      rw [read_calling_conv] at herr
      dsimp only at herr
      simp only [hv] at herr
      exact absurd herr (str_app_ne _ _ (by decide))

theorem rsc_ext (E : Chars) (st : PState) (hne : st.input ≠ []) :
    read_storage_class (extIn E st) =
      ((read_storage_class st).1, extIn E (read_storage_class st).2) := by
  obtain ⟨inp, err, nms, u⟩ := st
  rcases inp with _ | ⟨c, r⟩
  · exact absurd rfl hne
  · show read_storage_class ⟨c :: (r ++ E), err, nms, u⟩ = _
    rw [read_storage_class, read_storage_class]
    dsimp only
    cases hv : scOf c with
    | some v => simp only [hv]; rfl
    | none => simp only [hv]; rfl

theorem isPrefixOf_self (p : Chars) : p.isPrefixOf p = true :=
  List.isPrefixOf_iff_prefix.mpr List.prefix_rfl

theorem consume_self_true (p : Chars) (st : PState) (h : st.input = p) :
    (consume p st).1 = true := by
  rw [consume, if_pos]
  rw [h]
  exact isPrefixOf_self p

theorem rscfr_ext (E : Chars) (st : PState) (hA : st.input ≠ [])
    (hQ : st.input ≠ ['?']) :
    read_storage_class_for_return (extIn E st) =
      ((read_storage_class_for_return st).1,
        extIn E (read_storage_class_for_return st).2) := by
  have hpre : ∀ X : Char, (consume ['?', X] st).1 = false →
      st.input.isPrefixOf ['?', X] = false := by
    intro X hf
    by_cases hp : st.input.isPrefixOf ['?', X] = true
    · rcases pfx2 _ _ _ hp with h0 | h0 | h0
      · exact absurd h0 hA
      · exact absurd h0 hQ
      · exact absurd (consume_self_true _ _ h0) (by rw [hf]; simp)
    · rw [Bool.not_eq_true] at hp
      exact hp
  cases h1 : (consume ['?', 'A'] st).1
  case true =>
    have hR : read_storage_class_for_return st = (0, (consume ['?', 'A'] st).2) := by
      rw [read_storage_class_for_return]
      dsimp only
      rw [if_pos h1]
    have hL : read_storage_class_for_return (extIn E st) =
        (0, extIn E (consume ['?', 'A'] st).2) := by
      rw [read_storage_class_for_return]
      dsimp only
      rw [consume_ext_true _ _ _ h1]
      simp
    rw [hL, hR]
  case false =>
  cases h2 : (consume ['?', 'B'] st).1
  case true =>
    have hR : read_storage_class_for_return st =
        (ConstSC, (consume ['?', 'B'] st).2) := by
      rw [read_storage_class_for_return]
      dsimp only
      rw [if_neg (by rw [h1]; simp), if_pos h2]
    have hL : read_storage_class_for_return (extIn E st) =
        (ConstSC, extIn E (consume ['?', 'B'] st).2) := by
      rw [read_storage_class_for_return]
      dsimp only
      rw [consume_ext_false _ _ _ h1 (hpre 'A' h1),
        consume_ext_true _ _ _ h2]
      simp
    rw [hL, hR]
  case false =>
  cases h3 : (consume ['?', 'C'] st).1
  case true =>
    have hR : read_storage_class_for_return st =
        (VolatileSC, (consume ['?', 'C'] st).2) := by
      rw [read_storage_class_for_return]
      dsimp only
      rw [if_neg (by rw [h1]; simp), if_neg (by rw [h2]; simp), if_pos h3]
    have hL : read_storage_class_for_return (extIn E st) =
        (VolatileSC, extIn E (consume ['?', 'C'] st).2) := by
      rw [read_storage_class_for_return]
      dsimp only
      rw [consume_ext_false _ _ _ h1 (hpre 'A' h1),
        consume_ext_false _ _ _ h2 (hpre 'B' h2),
        consume_ext_true _ _ _ h3]
      simp
    rw [hL, hR]
  case false =>
  cases h4 : (consume ['?', 'D'] st).1
  case true =>
    have hR : read_storage_class_for_return st =
        (ConstSC ||| VolatileSC, (consume ['?', 'D'] st).2) := by
      rw [read_storage_class_for_return]
      dsimp only
      rw [if_neg (by rw [h1]; simp), if_neg (by rw [h2]; simp),
        if_neg (by rw [h3]; simp), if_pos h4]
    have hL : read_storage_class_for_return (extIn E st) =
        (ConstSC ||| VolatileSC, extIn E (consume ['?', 'D'] st).2) := by
      rw [read_storage_class_for_return]
      dsimp only
      rw [consume_ext_false _ _ _ h1 (hpre 'A' h1),
        consume_ext_false _ _ _ h2 (hpre 'B' h2),
        consume_ext_false _ _ _ h3 (hpre 'C' h3),
        consume_ext_true _ _ _ h4]
      simp
    rw [hL, hR]
  case false =>
    have hR : read_storage_class_for_return st = (0, st) := by
      rw [read_storage_class_for_return]
      dsimp only
      rw [if_neg (by rw [h1]; simp), if_neg (by rw [h2]; simp),
        if_neg (by rw [h3]; simp), if_neg (by rw [h4]; simp)]
    have hL : read_storage_class_for_return (extIn E st) = (0, extIn E st) := by
      rw [read_storage_class_for_return]
      dsimp only
      rw [consume_ext_false _ _ _ h1 (hpre 'A' h1),
        consume_ext_false _ _ _ h2 (hpre 'B' h2),
        consume_ext_false _ _ _ h3 (hpre 'C' h3),
        consume_ext_false _ _ _ h4 (hpre 'D' h4)]
      simp
    rw [hL, hR]

theorem rpt_ext (E : Chars) (st : PState)
    (herr : (read_prim_type st).2.error = "") :
    read_prim_type (extIn E st) =
      ((read_prim_type st).1, extIn E (read_prim_type st).2) := by
  obtain ⟨inp, err, nms, u⟩ := st
  rcases inp with _ | ⟨c, r⟩
  · exfalso
    have h0 : (read_prim_type ⟨[], err, nms, u⟩).2.error =
        ("unknown primitive type: " ++ String.mk []) := rfl
    rw [h0] at herr
    exact absurd herr (upt_ne _)
  · show read_prim_type ⟨c :: (r ++ E), err, nms, u⟩ = _
    rw [read_prim_type, read_prim_type]
    dsimp only
    by_cases hc : c = '_'
    · rw [if_pos hc, if_pos hc]
      rcases r with _ | ⟨d, r2⟩
      · exfalso
        rw [read_prim_type] at herr
        dsimp only at herr
        rw [if_pos hc] at herr
        exact absurd herr (upt_ne _)
      · simp only [List.cons_append]
        cases hp : primOfU d with
        | some p => simp only [hp]; rfl
        | none =>
          exfalso
          rw [read_prim_type] at herr
          dsimp only at herr
          rw [if_pos hc] at herr
          simp only [hp] at herr
          exact absurd herr (upt_ne _)
    · rw [if_neg hc, if_neg hc]
      cases hp : primOf c with
      | some p => simp only [hp]; rfl
      | none =>
        exfalso
        rw [read_prim_type] at herr
        dsimp only at herr
        rw [if_neg hc] at herr
        simp only [hp] at herr
        exact absurd herr (upt_ne _)

theorem rdc_ext (E : Chars) (st : PState)
    (herr : (readDollarC st).2.error = "") (hA : st.input ≠ [])
    (hd1 : st.input ≠ ['$']) (hd2 : st.input ≠ ['$', '$']) :
    readDollarC (extIn E st) =
      ((readDollarC st).1, extIn E (readDollarC st).2) := by
  cases h3 : (consume ['$', '$', 'C'] st).1
  case false =>
    have hx : st.input.isPrefixOf ['$', '$', 'C'] = false := by
      by_cases hp : st.input.isPrefixOf ['$', '$', 'C'] = true
      · rcases pfx3 _ _ _ _ hp with h0 | h0 | h0 | h0
        · exact absurd h0 hA
        · exact absurd h0 hd1
        · exact absurd h0 hd2
        · exact absurd (consume_self_true _ _ h0) (by rw [h3]; simp)
      · rw [Bool.not_eq_true] at hp
        exact hp
    have hR : readDollarC st = (Option.none, st) := by
      rw [readDollarC]
      dsimp only
      rw [if_neg (by rw [h3]; simp)]
    have hL : readDollarC (extIn E st) = (Option.none, extIn E st) := by
      rw [readDollarC]
      dsimp only
      rw [consume_ext_false _ _ _ h3 hx]
      simp
    rw [hL, hR]
  case true =>
    have hE := consume_ext_true ['$', '$', 'C'] E st h3
    have hne2 : (consume ['$', '$', 'C'] st).2.input ≠ [] := by
      intro h0
      have hzf : ∀ X : Char,
          (consume [X] (consume ['$', '$', 'C'] st).2).1 = false := by
        intro X
        rw [consume, if_neg]
        rw [h0]
        simp [List.isPrefixOf]
      have hv : (readDollarC st).2.error =
          ("unkonwn storage class: " ++
            String.mk (consume ['$', '$', 'C'] st).2.input) := by
        rw [readDollarC]
        dsimp only
        rw [if_pos h3, if_neg (by rw [hzf 'B']; simp),
          if_neg (by rw [hzf 'C']; simp), if_neg (by rw [hzf 'D']; simp),
          if_neg (by rw [hzf 'A']; simp)]
        rfl
      rw [hv] at herr
      exact absurd herr (str_app_ne _ _ (by decide))
    have hpre1 : ∀ X : Char,
        (consume [X] (consume ['$', '$', 'C'] st).2).1 = false →
        (consume ['$', '$', 'C'] st).2.input.isPrefixOf [X] = false := by
      intro X hf
      by_cases hp : (consume ['$', '$', 'C'] st).2.input.isPrefixOf [X] = true
      · rcases pfx1 _ _ hp with h0 | h0
        · exact absurd h0 hne2
        · exact absurd (consume_self_true _ _ h0) (by rw [hf]; simp)
      · rw [Bool.not_eq_true] at hp
        exact hp
    cases hB : (consume ['B'] (consume ['$', '$', 'C'] st).2).1
    case true =>
      have hR : readDollarC st =
          (Option.some ConstSC, (consume ['B'] (consume ['$', '$', 'C'] st).2).2) := by
        rw [readDollarC]
        dsimp only
        rw [if_pos h3, if_pos hB]
      have hL : readDollarC (extIn E st) =
          (Option.some ConstSC,
            extIn E (consume ['B'] (consume ['$', '$', 'C'] st).2).2) := by
        rw [readDollarC]
        dsimp only
        rw [hE]
        dsimp only
        rw [consume_ext_true _ _ _ hB]
        simp
      rw [hL, hR]
    case false =>
    cases hC : (consume ['C'] (consume ['$', '$', 'C'] st).2).1
    case true =>
      have hR : readDollarC st =
          (Option.some (ConstSC ||| VolatileSC),
            (consume ['C'] (consume ['$', '$', 'C'] st).2).2) := by
        rw [readDollarC]
        dsimp only
        rw [if_pos h3, if_neg (by rw [hB]; simp), if_pos hC]
      have hL : readDollarC (extIn E st) =
          (Option.some (ConstSC ||| VolatileSC),
            extIn E (consume ['C'] (consume ['$', '$', 'C'] st).2).2) := by
        rw [readDollarC]
        dsimp only
        rw [hE]
        dsimp only
        rw [consume_ext_false _ _ _ hB (hpre1 'B' hB),
          consume_ext_true _ _ _ hC]
        simp
      rw [hL, hR]
    case false =>
    cases hD : (consume ['D'] (consume ['$', '$', 'C'] st).2).1
    case true =>
      have hR : readDollarC st =
          (Option.some (ConstSC ||| VolatileSC),
            (consume ['D'] (consume ['$', '$', 'C'] st).2).2) := by
        rw [readDollarC]
        dsimp only
        rw [if_pos h3, if_neg (by rw [hB]; simp), if_neg (by rw [hC]; simp),
          if_pos hD]
      have hL : readDollarC (extIn E st) =
          (Option.some (ConstSC ||| VolatileSC),
            extIn E (consume ['D'] (consume ['$', '$', 'C'] st).2).2) := by
        rw [readDollarC]
        dsimp only
        rw [hE]
        dsimp only
        rw [consume_ext_false _ _ _ hB (hpre1 'B' hB),
          consume_ext_false _ _ _ hC (hpre1 'C' hC),
          consume_ext_true _ _ _ hD]
        simp
      rw [hL, hR]
    case false =>
    cases hA2 : (consume ['A'] (consume ['$', '$', 'C'] st).2).1
    case true =>
      have hR : readDollarC st =
          (Option.none, (consume ['A'] (consume ['$', '$', 'C'] st).2).2) := by
        rw [readDollarC]
        dsimp only
        rw [if_pos h3, if_neg (by rw [hB]; simp), if_neg (by rw [hC]; simp),
          if_neg (by rw [hD]; simp), if_pos hA2]
      have hL : readDollarC (extIn E st) =
          (Option.none,
            extIn E (consume ['A'] (consume ['$', '$', 'C'] st).2).2) := by
        rw [readDollarC]
        dsimp only
        rw [hE]
        dsimp only
        rw [consume_ext_false _ _ _ hB (hpre1 'B' hB),
          consume_ext_false _ _ _ hC (hpre1 'C' hC),
          consume_ext_false _ _ _ hD (hpre1 'D' hD),
          consume_ext_true _ _ _ hA2]
        simp
      rw [hL, hR]
    case false =>
      exfalso
      have hv : (readDollarC st).2.error =
          ("unkonwn storage class: " ++
            String.mk (consume ['$', '$', 'C'] st).2.input) := by
        rw [readDollarC]
        dsimp only
        rw [if_pos h3, if_neg (by rw [hB]; simp), if_neg (by rw [hC]; simp),
          if_neg (by rw [hD]; simp), if_neg (by rw [hA2]; simp)]
        rfl
      rw [hv] at herr
      exact absurd herr (str_app_ne _ _ (by decide))

theorem ral_ext : ∀ (k : Nat) (E : Chars) (st : PState),
    (readArrLens k st).2.error = "" →
    readArrLens k (extIn E st) =
      ((readArrLens k st).1, extIn E (readArrLens k st).2) := by
  intro k
  induction k with
  | zero => intro E st _; rfl
  | succ n ih =>
    intro E st herr
    rw [readArrLens] at herr
    dsimp only at herr
    have h1 : (read_number st).2.error = "" :=
      (se_readArrLens n (read_number st).2).2 herr
    rw [readArrLens, readArrLens]
    dsimp only
    rw [read_number_ext E st h1]
    dsimp only
    rw [ih E (read_number st).2 herr]

theorem startsWithC_append (c : Char) (t E : Chars) (a : Char) :
    startsWithC ((c :: t) ++ E) a = startsWithC (c :: t) a := rfl

theorem startswithD_append (c : Char) (t E : Chars) :
    startswithD ((c :: t) ++ E) = startswithD (c :: t) := rfl

theorem digitVal_append (c : Char) (t E : Chars) :
    digitVal ((c :: t) ++ E) = digitVal (c :: t) := rfl

theorem rstr_err (m : Bool) (st : PState)
    (hf : st.input.findIdx? (· = '@') = Option.none) :
    (read_string m st).2.error =
      ("read_string: missing '@': " ++ String.mk st.input) := by
  rw [read_string]
  simp only [hf]
  rfl

theorem rvt_nil_err (n : Nat) (ty : CType) (st : PState) (r : CType × PState)
    (hin : st.input = []) (h : read_var_type n ty st = Option.some r) :
    r.2.error ≠ "" := by
  obtain ⟨inp, e, nms, u⟩ := st
  dsimp only at hin
  subst hin
  cases n with
  | zero => rw [read_var_type.eq_def] at h; exact absurd h (by simp)
  | succ k =>
    have hv : read_var_type (k + 1) ty ⟨[], e, nms, u⟩ =
        Option.some (ty.setPrim PrimTy.Unknown,
          setErr ("unknown primitive type: " ++ String.mk []) ⟨[], e, nms, u⟩) := rfl
    rw [hv] at h
    simp only [Option.some.injEq] at h
    rw [← h]
    exact upt_ne _

theorem rvt_W_err (n : Nat) (ty : CType) (st : PState) (r : CType × PState)
    (hin : st.input = ['W']) (h : read_var_type n ty st = Option.some r) :
    r.2.error ≠ "" := by
  obtain ⟨inp, e, nms, u⟩ := st
  dsimp only at hin
  subst hin
  cases n with
  | zero => rw [read_var_type.eq_def] at h; exact absurd h (by simp)
  | succ k =>
    have hv : read_var_type (k + 1) ty ⟨['W'], e, nms, u⟩ =
        Option.some (ty.setPrim PrimTy.Unknown,
          setErr ("unknown primitive type: " ++ String.mk ['W']) ⟨[], e, nms, u⟩) := rfl
    rw [hv] at h
    simp only [Option.some.injEq] at h
    rw [← h]
    exact upt_ne _

theorem rvt_dollar_err (n : Nat) (ty : CType) (st : PState) (r : CType × PState)
    (t : Chars) (hin : st.input = '$' :: t)
    (h : read_var_type n ty st = Option.some r) : r.2.error ≠ "" := by
  obtain ⟨inp, e, nms, u⟩ := st
  dsimp only at hin
  subst hin
  cases n with
  | zero => rw [read_var_type.eq_def] at h; exact absurd h (by simp)
  | succ k =>
    have hv : read_var_type (k + 1) ty ⟨'$' :: t, e, nms, u⟩ =
        Option.some (ty.setPrim PrimTy.Unknown,
          setErr ("unknown primitive type: " ++ String.mk ('$' :: t))
            ⟨t, e, nms, u⟩) := rfl
    rw [hv] at h
    simp only [Option.some.injEq] at h
    rw [← h]
    exact upt_ne _

theorem rptee_err2 (n : Nat) (ty : CType) (p : PrimTy) (st : PState)
    (r : CType × PState) (hc : (consume ['E'] st).1 = false)
    (h : read_pointee n ty p st = Option.some r) : r.2.error ≠ "" := by
  cases n with
  | zero => rw [read_pointee.eq_def] at h; exact absurd h (by simp)
  | succ k =>
    rw [read_pointee.eq_def] at h
    dsimp only at h
    split at h
    · exact absurd h (by simp)
    · next heq =>
      simp only [Option.some.injEq] at h
      intro hr0
      rw [← h] at hr0
      dsimp only at hr0
      have s1 := ((se_components k).2.2.2.2.2.2.2) _ _ _ heq
      have h2 := s1.2 hr0
      have h3 := (se_read_storage_class _).2 h2
      rw [expect, if_neg (by rw [hc]; simp)] at h3
      exact exp_ne _ _ h3

theorem dirty_prop {st2 fin : PState} (hse : SE st2 fin)
    (hd : st2.input = [] ∨ st2.input = ['@']) :
    fin.input = [] ∨ fin.input = ['@'] := dirty_suffix hse.1 hd

theorem rsc_nil (st : PState) (h0 : st.input = []) :
    read_storage_class st = (0, st) := by
  obtain ⟨inp, e, nms, u⟩ := st
  dsimp only at h0
  subst h0
  rfl

theorem rdc_skip (st : PState) (h : (consume ['$', '$', 'C'] st).1 = false) :
    readDollarC st = (Option.none, st) := by
  rw [readDollarC]
  dsimp only
  rw [if_neg (by rw [h]; simp)]

theorem consume_false_of_input (p : Chars) (st : PState) (b : Chars)
    (h0 : st.input = b) (hb : p.isPrefixOf b = false) :
    (consume p st).1 = false := by
  rw [consume, if_neg]
  simp [h0, hb]

theorem bnd_mono {x y : Chars} (E : Chars) (hs : x.IsSuffix y)
    (hB : y.length + E.length < 2 ^ 64) : x.length + E.length < 2 ^ 64 := by
  have := hs.length_le
  omega

/-- Appending extra input after a successful, error-free parse step does
not change the step's result (the extra input is carried through
untouched) — unless the remaining input of the final state is empty or
exactly `"@"`, the two shapes on which the `P6A` optional-terminator
lookahead can read past the original end of input without raising an
error. -/
theorem ext_components (E : Chars) (fuel : Nat) :
    (∀ (head : NameSeq) (st : PState) (r : NameSeq × PState),
        read_name_loop fuel head st = Option.some r → r.2.error = "" →
        st.input.length + E.length < 2 ^ 64 →
        read_name_loop fuel head (extIn E st) = Option.some (r.1, extIn E r.2) ∨
          r.2.input = [] ∨ r.2.input = ['@']) ∧
    (∀ (st : PState) (r : NameSeq × PState),
        read_name fuel st = Option.some r → r.2.error = "" →
        st.input.length + E.length < 2 ^ 64 →
        read_name fuel (extIn E st) = Option.some (r.1, extIn E r.2) ∨
          r.2.input = [] ∨ r.2.input = ['@']) ∧
    (∀ (st : PState) (r : TyList × PState),
        read_params fuel st = Option.some r → r.2.error = "" →
        st.input.length + E.length < 2 ^ 64 →
        read_params fuel (extIn E st) = Option.some (r.1, extIn E r.2) ∨
          r.2.input = [] ∨ r.2.input = ['@']) ∧
    (∀ (head : Option Nat) (allocs : List PNode) (backref : List Nat)
        (tp : Option Nat) (st : PState) (r : TyList × PState),
        read_params_loop fuel head allocs backref tp st = Option.some r →
        r.2.error = "" → st.input.length + E.length < 2 ^ 64 →
        read_params_loop fuel head allocs backref tp (extIn E st) =
            Option.some (r.1, extIn E r.2) ∨
          r.2.input = [] ∨ r.2.input = ['@']) ∧
    (∀ (ty : CType) (p : PrimTy) (st : PState) (r : CType × PState),
        read_class fuel ty p st = Option.some r → r.2.error = "" →
        st.input.length + E.length < 2 ^ 64 →
        read_class fuel ty p (extIn E st) = Option.some (r.1, extIn E r.2) ∨
          r.2.input = [] ∨ r.2.input = ['@']) ∧
    (∀ (ty : CType) (p : PrimTy) (st : PState) (r : CType × PState),
        read_pointee fuel ty p st = Option.some r → r.2.error = "" →
        st.input.length + E.length < 2 ^ 64 →
        read_pointee fuel ty p (extIn E st) = Option.some (r.1, extIn E r.2) ∨
          r.2.input = [] ∨ r.2.input = ['@']) ∧
    (∀ (ty : CType) (st : PState) (r : CType × PState),
        read_array fuel ty st = Option.some r → r.2.error = "" →
        st.input.length + E.length < 2 ^ 64 →
        read_array fuel ty (extIn E st) = Option.some (r.1, extIn E r.2) ∨
          r.2.input = [] ∨ r.2.input = ['@']) ∧
    (∀ (ty : CType) (st : PState) (r : CType × PState),
        read_var_type fuel ty st = Option.some r → r.2.error = "" →
        st.input.length + E.length < 2 ^ 64 →
        read_var_type fuel ty (extIn E st) = Option.some (r.1, extIn E r.2) ∨
          r.2.input = [] ∨ r.2.input = ['@']) := by
  induction fuel with
  | zero =>
    refine ⟨?_, ?_, ?_, ?_, ?_, ?_, ?_, ?_⟩
    · intro _ _ _ h; exact absurd h (by rw [read_name_loop.eq_def]; simp)
    · intro _ _ h; exact absurd h (by rw [read_name.eq_def]; simp)
    · intro _ _ h; exact absurd h (by rw [read_params.eq_def]; simp)
    · intro _ _ _ _ _ _ h; exact absurd h (by rw [read_params_loop.eq_def]; simp)
    · intro _ _ _ _ h; exact absurd h (by rw [read_class.eq_def]; simp)
    · intro _ _ _ _ h; exact absurd h (by rw [read_pointee.eq_def]; simp)
    · intro _ _ _ h; exact absurd h (by rw [read_array.eq_def]; simp)
    · intro _ _ _ h; exact absurd h (by rw [read_var_type.eq_def]; simp)
  | succ n ih =>
    obtain ⟨ihNL, ihN, ihP, ihPL, ihC, ihPt, ihA, ihV⟩ := ih
    have seNL := (se_components n).1
    have seP := (se_components n).2.2.1
    have sePL := (se_components n).2.2.2.1
    have seV := (se_components n).2.2.2.2.2.2.2
    refine ⟨?_, ?_, ?_, ?_, ?_, ?_, ?_, ?_⟩
    · -- read_name_loop
      intro head st r h herr hB
      obtain ⟨inp, err0, nms0, u0⟩ := st
      rw [read_name_loop.eq_def] at h
      dsimp only at h
      cases hAt : (consume ['@'] (⟨inp, err0, nms0, u0⟩ : PState)).1
      case true =>
        rw [if_pos hAt] at h
        simp only [Option.some.injEq] at h
        subst h
        refine Or.inl ?_
        rw [read_name_loop.eq_def]
        dsimp only
        rw [consume_ext_true _ _ _ hAt]
        dsimp only
        rw [if_pos rfl]
      case false =>
        rw [if_neg (by rw [hAt]; simp)] at h
        rcases inp with _ | ⟨c, t⟩
        · exfalso
          rw [if_neg (by decide)] at h
          rw [if_neg (show ¬(consume ['?', '$']
              (⟨[], err0, nms0, u0⟩ : PState)).1 = true by
            rw [consume_false_of_input _ _ [] rfl (by decide)]; simp)] at h
          have s2 := seNL _ _ _ h
          have hmsg := rstr_err true (⟨[], err0, nms0, u0⟩ : PState) rfl
          have he := s2.2 herr
          rw [hmsg] at he
          exact str_app_ne _ _ (by decide) he
        · have hxAt : (c :: t).isPrefixOf ['@'] = false := by
            by_cases hp : (c :: t).isPrefixOf ['@'] = true
            · rcases pfx1 _ _ hp with h0 | h0
              · exact absurd h0 (by simp)
              · exact absurd (consume_self_true ['@'] _ h0) (by rw [hAt]; simp)
            · rw [Bool.not_eq_true] at hp
              exact hp
          by_cases hD : startswithD (c :: t) = true
          · rw [if_pos hD] at h
            by_cases hlen : nms0.length ≤ digitVal (c :: t)
            · rw [if_pos hlen] at h
              simp only [Option.some.injEq] at h
              subst h
              exact absurd herr (str_app_ne _ _ (by decide))
            · rw [if_neg hlen] at h
              simp only [List.drop_one, List.tail_cons] at h
              have hB2 : t.length + E.length < 2 ^ 64 := by
                simp only [List.length_cons] at hB
                omega
              rcases ihNL _ _ _ h herr hB2 with hcl | hd
              · refine Or.inl ?_
                rw [read_name_loop.eq_def]
                dsimp only
                rw [consume_ext_false _ _ _ hAt hxAt]
                dsimp only
                rw [if_neg (by simp)]
                rw [if_pos (show startswithD
                    (extIn E (⟨c :: t, err0, nms0, u0⟩ : PState)).input = true
                  from hD)]
                rw [if_neg (show ¬(extIn E (⟨c :: t, err0, nms0, u0⟩ :
                    PState)).names.length ≤ digitVal
                    (extIn E (⟨c :: t, err0, nms0, u0⟩ : PState)).input
                  from hlen)]
                rw [show ({ extIn E (⟨c :: t, err0, nms0, u0⟩ : PState) with
                    input := (extIn E (⟨c :: t, err0, nms0, u0⟩ :
                      PState)).input.drop 1 } : PState) =
                    extIn E (⟨t, err0, nms0, u0⟩ : PState) from rfl]
                rw [show (extIn E (⟨c :: t, err0, nms0, u0⟩ :
                    PState)).names.getD (digitVal (extIn E (⟨c :: t, err0,
                      nms0, u0⟩ : PState)).input) [] =
                    nms0.getD (digitVal (c :: t)) [] from rfl]
                exact hcl
              · exact Or.inr hd
          · rw [if_neg hD] at h
            cases hQD : (consume ['?', '$'] (⟨c :: t, err0, nms0, u0⟩ :
                PState)).1
            · -- no "?$" template prefix: plain read_string
              rw [if_neg (by rw [hQD]; simp)] at h
              have sL := seNL _ _ _ h
              have e1 := sL.2 herr
              rcases hf : (⟨c :: t, err0, nms0, u0⟩ :
                  PState).input.findIdx? (· = '@') with _ | i
              · exfalso
                have hmsg := rstr_err true _ hf
                rw [hmsg] at e1
                exact str_app_ne _ _ (by decide) e1
              · have hxQD : (c :: t).isPrefixOf ['?', '$'] = false := by
                  by_cases hp : (c :: t).isPrefixOf ['?', '$'] = true
                  · rcases pfx2 _ _ _ hp with h0 | h0 | h0
                    · exact absurd h0 (by simp)
                    · exfalso
                      rw [h0] at hf
                      rw [show ((⟨['?'], err0, nms0, u0⟩ :
                          PState)).input.findIdx? (· = '@') =
                          Option.none from rfl] at hf
                      exact Option.noConfusion hf
                    · exact absurd (consume_self_true ['?', '$'] _ h0)
                        (by rw [hQD]; simp)
                  · rw [Bool.not_eq_true] at hp
                    exact hp
                have hB2 : (read_string true (⟨c :: t, err0, nms0, u0⟩ :
                    PState)).2.input.length + E.length < 2 ^ 64 :=
                  bnd_mono E (se_read_string _ _).1 hB
                rcases ihNL _ _ _ h herr hB2 with hNcl | hNd
                · refine Or.inl ?_
                  rw [read_name_loop.eq_def]
                  dsimp only
                  rw [consume_ext_false _ _ _ hAt hxAt]
                  dsimp only
                  rw [if_neg (by simp)]
                  rw [if_neg (show ¬startswithD
                      (extIn E (⟨c :: t, err0, nms0, u0⟩ :
                        PState)).input = true from hD)]
                  rw [consume_ext_false _ _ _ hQD hxQD]
                  dsimp only
                  rw [if_neg (by simp)]
                  rw [read_string_ext true E _ _ hf]
                  dsimp only
                  exact hNcl
                · exact Or.inr hNd
            · -- "?$" template branch
              rw [if_pos hQD] at h
              split at h
              · exact absurd h (by simp)
              · next ps st2 heq =>
                have sL := seNL _ _ _ h
                have e0 := sL.2 herr
                cases hcAt : (consume ['@'] st2).1
                · exfalso
                  rw [expect, if_neg (by rw [hcAt]; simp)] at e0
                  exact exp_ne _ _ e0
                · have e1 : st2.error = "" := by
                    rw [expect, if_pos hcAt] at e0
                    exact (se_consume ['@'] st2).2 e0
                  have e2 := (seP _ _ heq).2 e1
                  rcases hf : (consume ['?', '$'] (⟨c :: t, err0, nms0,
                      u0⟩ : PState)).2.input.findIdx? (· = '@') with _ | i
                  · exfalso
                    have hmsg := rstr_err false _ hf
                    rw [hmsg] at e2
                    exact str_app_ne _ _ (by decide) e2
                  · have hB2 : (read_string false (consume ['?', '$']
                        (⟨c :: t, err0, nms0, u0⟩ : PState)).2).2.input.length
                        + E.length < 2 ^ 64 :=
                      bnd_mono E (se_read_string _ _).1
                        (bnd_mono E (se_consume _ _).1 hB)
                    have hB3 : (expect ['@'] st2).input.length + E.length <
                        2 ^ 64 :=
                      bnd_mono E (se_expect _ _).1
                        (bnd_mono E (seP _ _ heq).1 hB2)
                    rcases ihP _ _ heq e1 hB2 with hPcl | hPd
                    · rcases ihNL _ _ _ h herr hB3 with hNcl | hNd
                      · refine Or.inl ?_
                        rw [read_name_loop.eq_def]
                        dsimp only
                        rw [consume_ext_false _ _ _ hAt hxAt]
                        dsimp only
                        rw [if_neg (by simp)]
                        rw [if_neg (show ¬startswithD
                            (extIn E (⟨c :: t, err0, nms0, u0⟩ :
                              PState)).input = true from hD)]
                        rw [consume_ext_true _ _ _ hQD]
                        dsimp only
                        rw [if_pos rfl]
                        rw [read_string_ext false E _ _ hf]
                        dsimp only
                        rw [hPcl]
                        dsimp only
                        rw [expect_ext_true _ _ _ hcAt]
                        exact hNcl
                      · exact Or.inr hNd
                    · exact Or.inr (dirty_prop (se_trans (se_expect _ _) sL)
                        hPd)
    · -- read_name
      intro st r h herr hB
      rw [read_name.eq_def] at h
      dsimp only at h
      rcases ihNL _ _ _ h herr hB with hcl | hd
      · refine Or.inl ?_
        rw [read_name.eq_def]
        dsimp only
        exact hcl
      · exact Or.inr hd
    · -- read_params
      intro st r h herr hB
      rw [read_params.eq_def] at h
      dsimp only at h
      rcases ihPL _ _ _ _ _ _ h herr hB with hcl | hd
      · refine Or.inl ?_
        rw [read_params.eq_def]
        dsimp only
        exact hcl
      · exact Or.inr hd
    · -- read_params_loop
      intro head allocs backref tp st r h herr hB
      obtain ⟨inp, err0, nms0, u0⟩ := st
      rw [read_params_loop.eq_def] at h
      dsimp only at h
      split at h
      · next hcond =>
        simp only [Option.some.injEq] at h
        subst h
        have herr0 : err0 = "" := by
          rw [extractParams] at herr
          dsimp only at herr
          split at herr <;> exact herr
        rcases hcond with he | hsw | hsw
        · exact absurd herr0 he
        · rcases inp with _ | ⟨c, t⟩
          · exact absurd hsw (by decide)
          · refine Or.inl ?_
            rw [read_params_loop.eq_def]
            dsimp only
            rw [if_pos (Or.inr (Or.inl (show startsWithC
                (extIn E (⟨c :: t, err0, nms0, u0⟩ : PState)).input '@' = true
              from hsw)))]
            rw [extract_ext]
        · rcases inp with _ | ⟨c, t⟩
          · exact absurd hsw (by decide)
          · refine Or.inl ?_
            rw [read_params_loop.eq_def]
            dsimp only
            rw [if_pos (Or.inr (Or.inr (show startsWithC
                (extIn E (⟨c :: t, err0, nms0, u0⟩ : PState)).input 'Z' = true
              from hsw)))]
            rw [extract_ext]
      · next hcond =>
        rw [not_or, not_or] at hcond
        obtain ⟨hc1, hc2, hc3⟩ := hcond
        rcases inp with _ | ⟨c, t⟩
        · -- empty input: read_var_type must fail
          exfalso
          rw [if_neg (by decide)] at h
          split at h
          · exact absurd h (by simp)
          · next v st1 heq =>
            have sP := sePL _ _ _ _ _ _ h
            have e1 := sP.2 herr
            exact rvt_nil_err n _ _ _ rfl heq e1
        · by_cases hD : startswithD (c :: t) = true
          · rw [if_pos hD] at h
            by_cases hbr : backref.length ≤ digitVal (c :: t)
            · rw [if_pos hbr] at h
              simp only [Option.some.injEq] at h
              subst h
              exact absurd herr (str_app_ne _ _ (by decide))
            · rw [if_neg hbr] at h
              simp only [List.drop_one, List.tail_cons] at h
              have hB2 : t.length + E.length < 2 ^ 64 := by
                simp only [List.length_cons] at hB
                omega
              split at h
              · next hnone =>
                simp only [Option.some.injEq] at h
                subst h
                refine Or.inl ?_
                rw [read_params_loop.eq_def]
                dsimp only
                rw [if_neg (show ¬((extIn E (⟨c :: t, err0, nms0, u0⟩ :
                    PState)).error ≠ "" ∨ startsWithC (extIn E (⟨c :: t, err0,
                    nms0, u0⟩ : PState)).input '@' = true ∨ startsWithC
                    (extIn E (⟨c :: t, err0, nms0, u0⟩ : PState)).input 'Z' =
                    true) from by
                  rw [not_or, not_or]
                  exact ⟨hc1, hc2, hc3⟩)]
                rw [if_pos (show startswithD (extIn E (⟨c :: t, err0, nms0,
                    u0⟩ : PState)).input = true from hD)]
                rw [if_neg (show ¬backref.length ≤ digitVal (extIn E
                    (⟨c :: t, err0, nms0, u0⟩ : PState)).input from hbr)]
                rw [show digitVal (extIn E (⟨c :: t, err0, nms0, u0⟩ :
                    PState)).input = digitVal (c :: t) from rfl]
                rw [show ({ extIn E (⟨c :: t, err0, nms0, u0⟩ : PState) with
                    input := (extIn E (⟨c :: t, err0, nms0, u0⟩ :
                      PState)).input.drop 1 } : PState) =
                    extIn E (⟨t, err0, nms0, u0⟩ : PState) from rfl]
                rw [hnone]
                rfl
              · next k hsome =>
                rcases ihPL _ _ _ _ _ _ h herr hB2 with hcl | hd
                · refine Or.inl ?_
                  rw [read_params_loop.eq_def]
                  dsimp only
                  rw [if_neg (show ¬((extIn E (⟨c :: t, err0, nms0, u0⟩ :
                      PState)).error ≠ "" ∨ startsWithC (extIn E (⟨c :: t,
                      err0, nms0, u0⟩ : PState)).input '@' = true ∨
                      startsWithC (extIn E (⟨c :: t, err0, nms0, u0⟩ :
                      PState)).input 'Z' = true) from by
                    rw [not_or, not_or]
                    exact ⟨hc1, hc2, hc3⟩)]
                  rw [if_pos (show startswithD (extIn E (⟨c :: t, err0, nms0,
                      u0⟩ : PState)).input = true from hD)]
                  rw [if_neg (show ¬backref.length ≤ digitVal (extIn E
                      (⟨c :: t, err0, nms0, u0⟩ : PState)).input from hbr)]
                  rw [show digitVal (extIn E (⟨c :: t, err0, nms0, u0⟩ :
                      PState)).input = digitVal (c :: t) from rfl]
                  rw [show ({ extIn E (⟨c :: t, err0, nms0, u0⟩ : PState) with
                      input := (extIn E (⟨c :: t, err0, nms0, u0⟩ :
                        PState)).input.drop 1 } : PState) =
                      extIn E (⟨t, err0, nms0, u0⟩ : PState) from rfl]
                  rw [hsome]
                  exact hcl
                · exact Or.inr hd
          · rw [if_neg hD] at h
            split at h
            · exact absurd h (by simp)
            · next v st1 heq =>
              have sP := sePL _ _ _ _ _ _ h
              have e1 := sP.2 herr
              have hB1 : st1.input.length + E.length < 2 ^ 64 :=
                bnd_mono E (seV _ _ _ heq).1 hB
              rcases ihV _ _ _ heq e1 hB with hclV | hdV
              · rcases ihPL _ _ _ _ _ _ h herr hB1 with hclP | hdP
                · refine Or.inl ?_
                  rw [read_params_loop.eq_def]
                  dsimp only
                  rw [if_neg (show ¬((extIn E (⟨c :: t, err0, nms0, u0⟩ :
                      PState)).error ≠ "" ∨ startsWithC (extIn E (⟨c :: t,
                      err0, nms0, u0⟩ : PState)).input '@' = true ∨
                      startsWithC (extIn E (⟨c :: t, err0, nms0, u0⟩ :
                      PState)).input 'Z' = true) from by
                    rw [not_or, not_or]
                    exact ⟨hc1, hc2, hc3⟩)]
                  rw [if_neg (show ¬startswithD (extIn E (⟨c :: t, err0, nms0,
                      u0⟩ : PState)).input = true from hD)]
                  rw [hclV]
                  dsimp only
                  rw [show (extIn E (⟨c :: t, err0, nms0, u0⟩ :
                      PState)).input.length = (c :: t).length + E.length from
                    by simp [extIn]; omega]
                  rw [show (extIn E st1).input.length =
                      st1.input.length + E.length from by simp [extIn]]
                  rw [memoDiff_shift _ _ _ hB1 (by
                    simpa using hB)]
                  exact hclP
                · exact Or.inr hdP
              · exact Or.inr (dirty_prop sP hdV)
    · -- read_class
      intro ty p st r h herr hB
      rw [read_class.eq_def] at h
      dsimp only at h
      split at h
      · exact absurd h (by simp)
      · next heq =>
        simp only [Option.some.injEq] at h
        subst h
        dsimp only at herr
        rcases ihN _ _ heq herr hB with hcl | hd
        · refine Or.inl ?_
          rw [read_class.eq_def]
          dsimp only
          rw [hcl]
        · exact Or.inr hd
    · -- read_pointee
      intro ty p st r h herr hB
      rw [read_pointee.eq_def] at h
      dsimp only at h
      split at h
      · exact absurd h (by simp)
      · next heq =>
        simp only [Option.some.injEq] at h
        subst h
        dsimp only at herr
        have hcE : (consume ['E'] st).1 = true := by
          by_cases hb : (consume ['E'] st).1 = true
          · exact hb
          · exfalso
            rw [Bool.not_eq_true] at hb
            have s1 := seV _ _ _ heq
            have h2 := s1.2 herr
            have h3 := (se_read_storage_class _).2 h2
            rw [expect, if_neg (by rw [hb]; simp)] at h3
            exact exp_ne _ _ h3
        have hneE : (expect ['E'] st).input ≠ [] := by
          intro h0
          have h1 := rsc_nil (expect ['E'] st) h0
          exact rvt_nil_err n _ _ _ (by rw [h1]; exact h0) heq herr
        have hB2 : (read_storage_class (expect ['E'] st)).2.input.length +
            E.length < 2 ^ 64 :=
          bnd_mono E ((se_read_storage_class _).1)
            (bnd_mono E ((se_expect ['E'] st).1) hB)
        rcases ihV _ _ _ heq herr hB2 with hcl | hd
        · refine Or.inl ?_
          rw [read_pointee.eq_def]
          dsimp only
          rw [expect_ext_true _ _ _ hcE]
          rw [rsc_ext E (expect ['E'] st) hneE]
          dsimp only
          rw [hcl]
        · exact Or.inr hd
    · -- read_array
      intro ty st r h herr hB
      rw [read_array.eq_def] at h
      dsimp only at h
      split at h
      · simp only [Option.some.injEq] at h
        subst h
        exact absurd herr (str_app_ne _ _ (by decide))
      · next hdim =>
        split at h
        · exact absurd h (by simp)
        · next heq =>
          simp only [Option.some.injEq] at h
          subst h
          dsimp only at herr
          have sV := seV _ _ _ heq
          have e1 := sV.2 herr
          have e2 := (se_readDollarC _).2 e1
          have e3 := (se_readArrLens _ _).2 e2
          have hb1 : (readArrLens (read_number st).1.toNat
              (read_number st).2).2.input ≠ [] := by
            intro h0
            have hcf := consume_false_of_input ['$', '$', 'C'] _ _ h0
              (by decide)
            have hrdc := rdc_skip _ hcf
            exact rvt_nil_err n _ _ _ (by rw [hrdc]; exact h0) heq herr
          have hb2 : (readArrLens (read_number st).1.toNat
              (read_number st).2).2.input ≠ ['$'] := by
            intro h0
            have hcf := consume_false_of_input ['$', '$', 'C'] _ _ h0
              (by decide)
            have hrdc := rdc_skip _ hcf
            exact rvt_dollar_err n _ _ _ [] (by rw [hrdc]; exact h0) heq herr
          have hb3 : (readArrLens (read_number st).1.toNat
              (read_number st).2).2.input ≠ ['$', '$'] := by
            intro h0
            have hcf := consume_false_of_input ['$', '$', 'C'] _ _ h0
              (by decide)
            have hrdc := rdc_skip _ hcf
            exact rvt_dollar_err n _ _ _ ['$'] (by rw [hrdc]; exact h0)
              heq herr
          have hB2 : (readDollarC (readArrLens (read_number st).1.toNat
              (read_number st).2).2).2.input.length + E.length < 2 ^ 64 :=
            bnd_mono E (se_readDollarC _).1
              (bnd_mono E (se_readArrLens _ _).1
                (bnd_mono E (se_read_number _).1 hB))
          rcases ihV _ _ _ heq herr hB2 with hcl | hd
          · refine Or.inl ?_
            rw [read_array.eq_def]
            dsimp only
            rw [read_number_ext E st e3]
            dsimp only
            rw [if_neg hdim]
            rw [ral_ext _ E _ e2]
            dsimp only
            rw [rdc_ext E _ e1 hb1 hb2 hb3]
            dsimp only
            rw [hcl]
          · exact Or.inr hd
    · -- read_var_type
      intro ty st r h herr hB
      obtain ⟨inp, err0, nms0, u0⟩ := st
      rcases inp with _ | ⟨c, t⟩
      · exact absurd herr (rvt_nil_err (n + 1) ty _ r rfl h)
      · rw [read_var_type.eq_def] at h
        dsimp only at h
        cases hW : (consume ['W', '4'] (⟨c :: t, err0, nms0, u0⟩ : PState)).1
        case true =>
          rw [if_pos hW] at h
          split at h
          · exact absurd h (by simp)
          · next nm st1 heq =>
            simp only [Option.some.injEq] at h
            subst h
            dsimp only at herr
            have hB2 := bnd_mono E (se_consume ['W', '4'] _).1 hB
            rcases ihN _ _ heq herr hB2 with hcl | hd
            · refine Or.inl ?_
              rw [read_var_type.eq_def]
              dsimp only
              rw [consume_ext_true _ _ _ hW]
              dsimp only
              rw [if_pos rfl]
              rw [hcl]
            · exact Or.inr hd
        case false =>
          have hxW : (c :: t).isPrefixOf ['W', '4'] = false := by
            by_cases hp : (c :: t).isPrefixOf ['W', '4'] = true
            · rcases pfx2 _ _ _ hp with h0 | h0 | h0
              · exact absurd h0 (by simp)
              · exact absurd herr (rvt_W_err (n + 1) ty _ r h0 h)
              · exact absurd (consume_self_true ['W', '4'] _ h0)
                  (by rw [hW]; simp)
            · rw [Bool.not_eq_true] at hp
              exact hp
          rw [if_neg (by rw [hW]; simp)] at h
          cases hP : (consume ['P', '6', 'A'] (⟨c :: t, err0, nms0, u0⟩ :
              PState)).1
          case true =>
            rw [if_pos hP] at h
            split at h
            · exact absurd h (by simp)
            · next fnRet st1 heq1 =>
              split at h
              · exact absurd h (by simp)
              · next ps st2 heq2 =>
                simp only [Option.some.injEq] at h
                subst h
                dsimp only at herr
                have hB1 := bnd_mono E (se_consume ['P', '6', 'A'] _).1 hB
                have hB2 := bnd_mono E (seV _ _ _ heq1).1 hB1
                have hB3 := bnd_mono E (seP _ _ heq2).1 hB2
                split at herr
                · next hZ2 =>
                  have e2 : st2.error = "" := herr
                  have e1 := (seP _ _ heq2).2 e2
                  have hlen2 : 2 ≤ st2.input.length := by
                    have := (List.isPrefixOf_iff_prefix.mp hZ2).length_le
                    simpa using this
                  rcases ihV _ _ _ heq1 e1 hB1 with hclV | hdV
                  · rcases ihP _ _ heq2 e2 hB2 with hclP | hdP
                    · refine Or.inl ?_
                      rw [read_var_type.eq_def]
                      dsimp only
                      rw [consume_ext_false _ _ _ hW hxW]
                      dsimp only
                      rw [if_neg (by simp)]
                      rw [consume_ext_true _ _ _ hP]
                      dsimp only
                      rw [if_pos rfl]
                      rw [hclV]
                      dsimp only
                      rw [hclP]
                      dsimp only
                      rw [if_pos (show (['@', 'Z'].isPrefixOf
                          (extIn E st2).input) = true from
                        isPrefixOf_ext_true _ _ E hZ2)]
                      rw [show (extIn E st2).input.drop 2 =
                          st2.input.drop 2 ++ E from
                        List.drop_append_of_le_length hlen2]
                      rw [show ({ extIn E st2 with
                          input := st2.input.drop 2 ++ E } : PState) =
                          extIn E { st2 with input := st2.input.drop 2 }
                        from rfl]
                      rw [if_pos hZ2]
                    · refine Or.inr ?_
                      dsimp only
                      rw [if_pos hZ2]
                      exact dirty_prop
                        (se_of_parts (List.drop_suffix _ _) rfl) hdP
                  · refine Or.inr ?_
                    dsimp only
                    rw [if_pos hZ2]
                    exact dirty_prop (se_trans (seP _ _ heq2)
                      (se_of_parts (List.drop_suffix _ _) rfl)) hdV
                · next hZ2 =>
                  split at herr
                  · next hZ1 =>
                    have e2 : st2.error = "" := herr
                    have e1 := (seP _ _ heq2).2 e2
                    have hlen1 : 1 ≤ st2.input.length := by
                      have := (List.isPrefixOf_iff_prefix.mp hZ1).length_le
                      simpa using this
                    have hZ2f : ['@', 'Z'].isPrefixOf st2.input = false := by
                      rw [Bool.not_eq_true] at hZ2
                      exact hZ2
                    have hx2 : st2.input.isPrefixOf ['@', 'Z'] = false := by
                      by_cases hp : st2.input.isPrefixOf ['@', 'Z'] = true
                      · rcases pfx2 _ _ _ hp with h0 | h0 | h0
                        · exfalso
                          rw [h0] at hZ1
                          exact absurd hZ1 (by decide)
                        · exfalso
                          rw [h0] at hZ1
                          exact absurd hZ1 (by decide)
                        · exfalso
                          rw [h0, isPrefixOf_self] at hZ2f
                          exact Bool.noConfusion hZ2f
                      · rw [Bool.not_eq_true] at hp
                        exact hp
                    rcases ihV _ _ _ heq1 e1 hB1 with hclV | hdV
                    · rcases ihP _ _ heq2 e2 hB2 with hclP | hdP
                      · refine Or.inl ?_
                        rw [read_var_type.eq_def]
                        dsimp only
                        rw [consume_ext_false _ _ _ hW hxW]
                        dsimp only
                        rw [if_neg (by simp)]
                        rw [consume_ext_true _ _ _ hP]
                        dsimp only
                        rw [if_pos rfl]
                        rw [hclV]
                        dsimp only
                        rw [hclP]
                        dsimp only
                        rw [if_neg (show ¬(['@', 'Z'].isPrefixOf
                            (extIn E st2).input) = true from by
                          rw [show (['@', 'Z'].isPrefixOf
                              (extIn E st2).input) = false from
                            isPrefixOf_ext_false _ _ E hZ2f hx2]
                          simp)]
                        rw [if_pos (show (['Z'].isPrefixOf
                            (extIn E st2).input) = true from
                          isPrefixOf_ext_true _ _ E hZ1)]
                        rw [show (extIn E st2).input.drop 1 =
                            st2.input.drop 1 ++ E from
                          List.drop_append_of_le_length hlen1]
                        rw [show ({ extIn E st2 with
                            input := st2.input.drop 1 ++ E } : PState) =
                            extIn E { st2 with input := st2.input.drop 1 }
                          from rfl]
                        rw [if_neg hZ2, if_pos hZ1]
                      · refine Or.inr ?_
                        dsimp only
                        rw [if_neg hZ2, if_pos hZ1]
                        exact dirty_prop
                          (se_of_parts (List.drop_suffix _ _) rfl) hdP
                    · refine Or.inr ?_
                      dsimp only
                      rw [if_neg hZ2, if_pos hZ1]
                      exact dirty_prop (se_trans (seP _ _ heq2)
                        (se_of_parts (List.drop_suffix _ _) rfl)) hdV
                  · next hZ1 =>
                    have e2 : st2.error = "" := herr
                    have e1 := (seP _ _ heq2).2 e2
                    by_cases hd2 : st2.input = [] ∨ st2.input = ['@']
                    · refine Or.inr ?_
                      dsimp only
                      rw [if_neg hZ2, if_neg hZ1]
                      exact hd2
                    · rw [not_or] at hd2
                      obtain ⟨hd2a, hd2b⟩ := hd2
                      have hZ2f : ['@', 'Z'].isPrefixOf st2.input = false := by
                        rw [Bool.not_eq_true] at hZ2
                        exact hZ2
                      have hZ1f : ['Z'].isPrefixOf st2.input = false := by
                        rw [Bool.not_eq_true] at hZ1
                        exact hZ1
                      have hx2 : st2.input.isPrefixOf ['@', 'Z'] = false := by
                        by_cases hp : st2.input.isPrefixOf ['@', 'Z'] = true
                        · rcases pfx2 _ _ _ hp with h0 | h0 | h0
                          · exact absurd h0 hd2a
                          · exact absurd h0 hd2b
                          · exfalso
                            rw [h0, isPrefixOf_self] at hZ2f
                            exact Bool.noConfusion hZ2f
                        · rw [Bool.not_eq_true] at hp
                          exact hp
                      have hx1 : st2.input.isPrefixOf ['Z'] = false := by
                        by_cases hp : st2.input.isPrefixOf ['Z'] = true
                        · rcases pfx1 _ _ hp with h0 | h0
                          · exact absurd h0 hd2a
                          · exfalso
                            rw [h0, isPrefixOf_self] at hZ1f
                            exact Bool.noConfusion hZ1f
                        · rw [Bool.not_eq_true] at hp
                          exact hp
                      rcases ihV _ _ _ heq1 e1 hB1 with hclV | hdV
                      · rcases ihP _ _ heq2 e2 hB2 with hclP | hdP
                        · refine Or.inl ?_
                          rw [read_var_type.eq_def]
                          dsimp only
                          rw [consume_ext_false _ _ _ hW hxW]
                          dsimp only
                          rw [if_neg (by simp)]
                          rw [consume_ext_true _ _ _ hP]
                          dsimp only
                          rw [if_pos rfl]
                          rw [hclV]
                          dsimp only
                          rw [hclP]
                          dsimp only
                          rw [if_neg (show ¬(['@', 'Z'].isPrefixOf
                              (extIn E st2).input) = true from by
                            rw [show (['@', 'Z'].isPrefixOf
                                (extIn E st2).input) = false from
                              isPrefixOf_ext_false _ _ E hZ2f hx2]
                            simp)]
                          rw [if_neg (show ¬(['Z'].isPrefixOf
                              (extIn E st2).input) = true from by
                            rw [show (['Z'].isPrefixOf
                                (extIn E st2).input) = false from
                              isPrefixOf_ext_false _ _ E hZ1f hx1]
                            simp)]
                          rw [if_neg hZ2, if_neg hZ1]
                        · refine Or.inr ?_
                          dsimp only
                          rw [if_neg hZ2, if_neg hZ1]
                          exact dirty_prop (se_refl st2) hdP
                      · refine Or.inr ?_
                        dsimp only
                        rw [if_neg hZ2, if_neg hZ1]
                        exact dirty_prop (seP _ _ heq2) hdV
          case false =>
            have hxP : (c :: t).isPrefixOf ['P', '6', 'A'] = false := by
              by_cases hp : (c :: t).isPrefixOf ['P', '6', 'A'] = true
              · rcases pfx3 _ _ _ _ hp with h0 | h0 | h0 | h0
                · exact absurd h0 (by simp)
                · exfalso
                  rw [h0] at h
                  rw [if_neg (by
                    rw [consume_false_of_input ['P', '6', 'A'] _ ['P'] rfl
                      (by decide)]
                    simp)] at h
                  refine absurd herr (rptee_err2 n _ _ _ _ ?_ h)
                  rfl
                · exfalso
                  rw [h0] at h
                  rw [if_neg (by
                    rw [consume_false_of_input ['P', '6', 'A'] _ ['P', '6']
                      rfl (by decide)]
                    simp)] at h
                  refine absurd herr (rptee_err2 n _ _ _ _ ?_ h)
                  rfl
                · exact absurd (consume_self_true ['P', '6', 'A'] _ h0)
                    (by rw [hP]; simp)
              · rw [Bool.not_eq_true] at hp
                exact hp
            rw [if_neg (by rw [hP]; simp)] at h
            have hB2 : t.length + E.length < 2 ^ 64 := by
              simp only [List.length_cons] at hB
              omega
            by_cases hT : c = 'T'
            · subst hT
              rcases ihC _ _ _ _ h herr hB2 with hcl | hd
              · refine Or.inl ?_
                rw [read_var_type.eq_def]
                dsimp only
                rw [consume_ext_false _ _ _ hW hxW]
                dsimp only
                rw [if_neg (by simp)]
                rw [consume_ext_false _ _ _ hP hxP]
                dsimp only
                rw [if_neg (by simp)]
                simp only [show (extIn E (⟨'T' :: t, err0, nms0, u0⟩ :
                    PState)).input = 'T' :: (t ++ E) from rfl]
                rw [show ({ extIn E (⟨'T' :: t, err0, nms0, u0⟩ : PState) with
                    input := t ++ E } : PState) =
                    extIn E (⟨t, err0, nms0, u0⟩ : PState) from rfl]
                exact hcl
              · exact Or.inr hd
            · by_cases hU : c = 'U'
              · subst hU
                rcases ihC _ _ _ _ h herr hB2 with hcl | hd
                · refine Or.inl ?_
                  rw [read_var_type.eq_def]
                  dsimp only
                  rw [consume_ext_false _ _ _ hW hxW]
                  dsimp only
                  rw [if_neg (by simp)]
                  rw [consume_ext_false _ _ _ hP hxP]
                  dsimp only
                  rw [if_neg (by simp)]
                  simp only [show (extIn E (⟨'U' :: t, err0, nms0, u0⟩ :
                      PState)).input = 'U' :: (t ++ E) from rfl]
                  rw [show ({ extIn E (⟨'U' :: t, err0, nms0, u0⟩ :
                      PState) with input := t ++ E } : PState) =
                      extIn E (⟨t, err0, nms0, u0⟩ : PState) from rfl]
                  exact hcl
                · exact Or.inr hd
              · by_cases hV : c = 'V'
                · subst hV
                  rcases ihC _ _ _ _ h herr hB2 with hcl | hd
                  · refine Or.inl ?_
                    rw [read_var_type.eq_def]
                    dsimp only
                    rw [consume_ext_false _ _ _ hW hxW]
                    dsimp only
                    rw [if_neg (by simp)]
                    rw [consume_ext_false _ _ _ hP hxP]
                    dsimp only
                    rw [if_neg (by simp)]
                    simp only [show (extIn E (⟨'V' :: t, err0, nms0, u0⟩ :
                        PState)).input = 'V' :: (t ++ E) from rfl]
                    rw [show ({ extIn E (⟨'V' :: t, err0, nms0, u0⟩ :
                        PState) with input := t ++ E } : PState) =
                        extIn E (⟨t, err0, nms0, u0⟩ : PState) from rfl]
                    exact hcl
                  · exact Or.inr hd
                · by_cases hA : c = 'A'
                  · subst hA
                    rcases ihPt _ _ _ _ h herr hB2 with hcl | hd
                    · refine Or.inl ?_
                      rw [read_var_type.eq_def]
                      dsimp only
                      rw [consume_ext_false _ _ _ hW hxW]
                      dsimp only
                      rw [if_neg (by simp)]
                      rw [consume_ext_false _ _ _ hP hxP]
                      dsimp only
                      rw [if_neg (by simp)]
                      simp only [show (extIn E (⟨'A' :: t, err0, nms0, u0⟩ :
                          PState)).input = 'A' :: (t ++ E) from rfl]
                      rw [show ({ extIn E (⟨'A' :: t, err0, nms0, u0⟩ :
                          PState) with input := t ++ E } : PState) =
                          extIn E (⟨t, err0, nms0, u0⟩ : PState) from rfl]
                      exact hcl
                    · exact Or.inr hd
                  · by_cases hPc : c = 'P'
                    · subst hPc
                      rcases ihPt _ _ _ _ h herr hB2 with hcl | hd
                      · refine Or.inl ?_
                        rw [read_var_type.eq_def]
                        dsimp only
                        rw [consume_ext_false _ _ _ hW hxW]
                        dsimp only
                        rw [if_neg (by simp)]
                        rw [consume_ext_false _ _ _ hP hxP]
                        dsimp only
                        rw [if_neg (by simp)]
                        simp only [show (extIn E (⟨'P' :: t, err0, nms0, u0⟩ :
                            PState)).input = 'P' :: (t ++ E) from rfl]
                        rw [show ({ extIn E (⟨'P' :: t, err0, nms0, u0⟩ :
                            PState) with input := t ++ E } : PState) =
                            extIn E (⟨t, err0, nms0, u0⟩ : PState) from rfl]
                        exact hcl
                      · exact Or.inr hd
                    · by_cases hQ : c = 'Q'
                      · subst hQ
                        have h2 : (match read_pointee n ty PrimTy.Ptr
                            (⟨t, err0, nms0, u0⟩ : PState) with
                          | Option.none => Option.none
                          | Option.some (ty1, st1) =>
                            Option.some (ty1.setSclass ConstSC, st1)) =
                            Option.some r := h
                        split at h2
                        · exact absurd h2 (by simp)
                        · next ty1 st1 heq =>
                          simp only [Option.some.injEq] at h2
                          subst h2
                          dsimp only at herr
                          rcases ihPt _ _ _ _ heq herr hB2 with hcl | hd
                          · refine Or.inl ?_
                            rw [read_var_type.eq_def]
                            dsimp only
                            rw [consume_ext_false _ _ _ hW hxW]
                            dsimp only
                            rw [if_neg (by simp)]
                            rw [consume_ext_false _ _ _ hP hxP]
                            dsimp only
                            rw [if_neg (by simp)]
                            simp only [show (extIn E (⟨'Q' :: t, err0, nms0, u0⟩ :
                                PState)).input = 'Q' :: (t ++ E) from rfl]
                            rw [show ({ extIn E (⟨'Q' :: t, err0, nms0,
                                u0⟩ : PState) with input := t ++ E } :
                                PState) =
                                extIn E (⟨t, err0, nms0, u0⟩ : PState)
                              from rfl]
                            rw [hcl]
                          · exact Or.inr hd
                      · by_cases hY : c = 'Y'
                        · subst hY
                          rcases ihA _ _ _ h herr hB2 with hcl | hd
                          · refine Or.inl ?_
                            rw [read_var_type.eq_def]
                            dsimp only
                            rw [consume_ext_false _ _ _ hW hxW]
                            dsimp only
                            rw [if_neg (by simp)]
                            rw [consume_ext_false _ _ _ hP hxP]
                            dsimp only
                            rw [if_neg (by simp)]
                            simp only [show (extIn E (⟨'Y' :: t, err0, nms0, u0⟩ :
                                PState)).input = 'Y' :: (t ++ E) from rfl]
                            rw [show ({ extIn E (⟨'Y' :: t, err0, nms0,
                                u0⟩ : PState) with input := t ++ E } :
                                PState) =
                                extIn E (⟨t, err0, nms0, u0⟩ : PState)
                              from rfl]
                            exact hcl
                          · exact Or.inr hd
                        · -- default: read_prim_type
                          split at h
                          · next r0 heq0 =>
                            exfalso
                            first
                              | (injection heq0 with h1 h2; exact absurd h1 hT)
                              | (injection heq0.symm with h1 h2
                                 exact absurd h1 hT)
                          · next r0 heq0 =>
                            exfalso
                            first
                              | (injection heq0 with h1 h2; exact absurd h1 hU)
                              | (injection heq0.symm with h1 h2
                                 exact absurd h1 hU)
                          · next r0 heq0 =>
                            exfalso
                            first
                              | (injection heq0 with h1 h2; exact absurd h1 hV)
                              | (injection heq0.symm with h1 h2
                                 exact absurd h1 hV)
                          · next r0 heq0 =>
                            exfalso
                            first
                              | (injection heq0 with h1 h2; exact absurd h1 hA)
                              | (injection heq0.symm with h1 h2
                                 exact absurd h1 hA)
                          · next r0 heq0 =>
                            exfalso
                            first
                              | (injection heq0 with h1 h2
                                 exact absurd h1 hPc)
                              | (injection heq0.symm with h1 h2
                                 exact absurd h1 hPc)
                          · next r0 heq0 =>
                            exfalso
                            first
                              | (injection heq0 with h1 h2; exact absurd h1 hQ)
                              | (injection heq0.symm with h1 h2
                                 exact absurd h1 hQ)
                          · next r0 heq0 =>
                            exfalso
                            first
                              | (injection heq0 with h1 h2; exact absurd h1 hY)
                              | (injection heq0.symm with h1 h2
                                 exact absurd h1 hY)
                          · simp only [Option.some.injEq] at h
                            subst h
                            dsimp only at herr
                            refine Or.inl ?_
                            rw [read_var_type.eq_def]
                            dsimp only
                            rw [consume_ext_false _ _ _ hW hxW]
                            dsimp only
                            rw [if_neg (by simp)]
                            rw [consume_ext_false _ _ _ hP hxP]
                            dsimp only
                            rw [if_neg (by simp)]
                            split
                            · next r1 heq1 =>
                              exfalso
                              rw [show (extIn E (⟨c :: t, err0, nms0, u0⟩ :
                                  PState)).input = c :: (t ++ E) from rfl]
                                at heq1
                              injection heq1 with h1 h2
                              exact absurd h1 hT
                            · next r1 heq1 =>
                              exfalso
                              rw [show (extIn E (⟨c :: t, err0, nms0, u0⟩ :
                                  PState)).input = c :: (t ++ E) from rfl]
                                at heq1
                              injection heq1 with h1 h2
                              exact absurd h1 hU
                            · next r1 heq1 =>
                              exfalso
                              rw [show (extIn E (⟨c :: t, err0, nms0, u0⟩ :
                                  PState)).input = c :: (t ++ E) from rfl]
                                at heq1
                              injection heq1 with h1 h2
                              exact absurd h1 hV
                            · next r1 heq1 =>
                              exfalso
                              rw [show (extIn E (⟨c :: t, err0, nms0, u0⟩ :
                                  PState)).input = c :: (t ++ E) from rfl]
                                at heq1
                              injection heq1 with h1 h2
                              exact absurd h1 hA
                            · next r1 heq1 =>
                              exfalso
                              rw [show (extIn E (⟨c :: t, err0, nms0, u0⟩ :
                                  PState)).input = c :: (t ++ E) from rfl]
                                at heq1
                              injection heq1 with h1 h2
                              exact absurd h1 hPc
                            · next r1 heq1 =>
                              exfalso
                              rw [show (extIn E (⟨c :: t, err0, nms0, u0⟩ :
                                  PState)).input = c :: (t ++ E) from rfl]
                                at heq1
                              injection heq1 with h1 h2
                              exact absurd h1 hQ
                            · next r1 heq1 =>
                              exfalso
                              rw [show (extIn E (⟨c :: t, err0, nms0, u0⟩ :
                                  PState)).input = c :: (t ++ E) from rfl]
                                at heq1
                              injection heq1 with h1 h2
                              exact absurd h1 hY
                            · rw [rpt_ext E _ herr]

/-! ## Spacing cleanliness toolkit -/

theorem pairsOK_cons_cons (a b : Char) (r : Chars) :
    pairsOK (a :: b :: r) = ((!(a = ' ') || b.isAlphanum) && pairsOK (b :: r)) := rfl

theorem endsSp_cons_cons (a b : Char) (r : Chars) :
    endsSp (a :: b :: r) = endsSp (b :: r) := by
  rw [endsSp, endsSp, List.getLast?_cons_cons]

theorem endsSp_append : ∀ (s f : Chars), f ≠ [] → endsSp (s ++ f) = endsSp f := by
  intro s
  induction s with
  | nil => intro f _; rfl
  | cons a rest ih =>
    intro f hf
    cases rest with
    | nil =>
      cases f with
      | nil => exact absurd rfl hf
      | cons c r => exact endsSp_cons_cons a c r
    | cons b r2 =>
      rw [show ((a :: b :: r2) ++ f) = a :: b :: (r2 ++ f) from rfl,
        endsSp_cons_cons]
      exact ih f hf

theorem pairsOK_append : ∀ (s f : Chars), pairsOK s = true → pairsOK f = true →
    (endsSp s = false ∨ headOK f = true) → pairsOK (s ++ f) = true := by
  intro s
  induction s with
  | nil => intro f _ hf _; simpa using hf
  | cons a rest ih =>
    intro f hs hf hb
    cases rest with
    | nil =>
      cases f with
      | nil => rfl
      | cons c r =>
        rw [show (([a] : Chars) ++ (c :: r)) = a :: c :: r from rfl,
          pairsOK_cons_cons]
        refine (Bool.and_eq_true _ _).mpr ⟨?_, hf⟩
        rcases hb with hb | hb
        · rw [endsSp] at hb
          simp only [List.getLast?_singleton] at hb
          simp only [hb]
          rfl
        · rw [headOK] at hb
          rw [hb]
          simp
    | cons b r2 =>
      rw [show ((a :: b :: r2) ++ f) = a :: b :: (r2 ++ f) from rfl,
        pairsOK_cons_cons]
      rw [pairsOK_cons_cons] at hs
      simp only [Bool.and_eq_true] at hs
      refine (Bool.and_eq_true _ _).mpr ⟨hs.1, ?_⟩
      refine ih f hs.2 hf ?_
      rcases hb with hb | hb
      · rw [endsSp_cons_cons] at hb
        exact Or.inl hb
      · exact Or.inr hb

theorem pairsOK_of_alnum : ∀ s : Chars, s.all Char.isAlphanum = true →
    pairsOK s = true := by
  intro s
  induction s with
  | nil => intro _; rfl
  | cons a rest ih =>
    intro h
    cases rest with
    | nil => rfl
    | cons b r2 =>
      simp only [List.all_cons, Bool.and_eq_true] at h
      rw [pairsOK_cons_cons]
      refine (Bool.and_eq_true _ _).mpr ⟨?_, ?_⟩
      · rw [h.2.1]
        simp
      · refine ih ?_
        simp only [List.all_cons, Bool.and_eq_true]
        exact h.2
    
theorem endsSp_of_alnum (s : Chars) (h : s.all Char.isAlphanum = true) :
    endsSp s = false := by
  rw [endsSp]
  cases hL : s.getLast? with
  | none => rfl
  | some c =>
    have hc : c ∈ s := List.mem_of_mem_getLast? hL
    have hca : c.isAlphanum = true := by
      rw [List.all_eq_true] at h
      exact h c hc
    have : c ≠ ' ' := by
      rintro rfl
      exact absurd hca (by decide)
    simp [this]

theorem headOK_of_alnum (s : Chars) (h : s.all Char.isAlphanum = true) :
    headOK s = true := by
  cases s with
  | nil => rfl
  | cons a r =>
    simp only [List.all_cons, Bool.and_eq_true] at h
    rw [headOK]
    exact h.1

theorem digitChar_alnum (d : Nat) : (digitChar d).isAlphanum = true := by
  rw [digitChar]
  split_ifs <;> decide

theorem natCharsAux_alnum : ∀ (fuel n : Nat),
    (natCharsAux fuel n).all Char.isAlphanum = true := by
  intro fuel
  induction fuel with
  | zero => intro n; rfl
  | succ k ih =>
    intro n
    rw [natCharsAux]
    split
    · rfl
    · rw [List.all_append]
      refine (Bool.and_eq_true _ _).mpr ⟨ih _, ?_⟩
      simp [digitChar_alnum]

theorem natChars_alnum (n : Nat) : (natChars n).all Char.isAlphanum = true := by
  rw [natChars]
  split
  · rfl
  · exact natCharsAux_alnum _ _

/-! ## Counting lemmas for the writer -/

theorem count_write_space_lpar (s : Chars) : (write_space s).count '(' = s.count '(' := by
  cases h : s.getLast? with
  | none => simp [write_space, h]
  | some d =>
    simp only [write_space, h]
    split_ifs <;> simp [List.count_append]

theorem count_write_space_rpar (s : Chars) : (write_space s).count ')' = s.count ')' := by
  cases h : s.getLast? with
  | none => simp [write_space, h]
  | some d =>
    simp only [write_space, h]
    split_ifs <;> simp [List.count_append]

theorem count_constTail_lpar (sc : Nat) (s : Chars) :
    (constTail sc s).count '(' = s.count '(' := by
  rw [constTail]
  split
  · simp [List.count_append, count_write_space_lpar]
  · rfl

theorem count_constTail_rpar (sc : Nat) (s : Chars) :
    (constTail sc s).count ')' = s.count ')' := by
  rw [constTail]
  split
  · simp [List.count_append, count_write_space_rpar]
  · rfl

theorem count_postConst_lpar (sc : Nat) (s : Chars) :
    (postConst sc s).count '(' = s.count '(' := by
  rw [postConst]
  split
  · simp [List.count_append]
  · rfl

theorem count_postConst_rpar (sc : Nat) (s : Chars) :
    (postConst sc s).count ')' = s.count ')' := by
  rw [postConst]
  split
  · simp [List.count_append]
  · rfl

theorem digitChar_ne_lpar (d : Nat) : ¬ digitChar d = '(' := by
  rw [digitChar]; split_ifs <;> decide

theorem digitChar_ne_rpar (d : Nat) : ¬ digitChar d = ')' := by
  rw [digitChar]; split_ifs <;> decide

theorem count_natCharsAux_lpar (fuel : Nat) :
    ∀ n, (natCharsAux fuel n).count '(' = 0 := by
  induction fuel with
  | zero => intro n; rfl
  | succ k ih =>
    intro n
    rw [natCharsAux]
    split
    · rfl
    · simp only [List.count_append, ih, List.count_eq_zero, Nat.add_eq, Nat.zero_add]
      intro hmem
      rcases List.mem_singleton.mp hmem with h2
      exact digitChar_ne_lpar _ h2.symm

theorem count_natCharsAux_rpar (fuel : Nat) :
    ∀ n, (natCharsAux fuel n).count ')' = 0 := by
  induction fuel with
  | zero => intro n; rfl
  | succ k ih =>
    intro n
    rw [natCharsAux]
    split
    · rfl
    · simp only [List.count_append, ih, List.count_eq_zero, Nat.add_eq, Nat.zero_add]
      intro hmem
      rcases List.mem_singleton.mp hmem with h2
      exact digitChar_ne_rpar _ h2.symm

theorem count_natChars_lpar (n : Nat) : (natChars n).count '(' = 0 := by
  rw [natChars]
  split
  · rfl
  · exact count_natCharsAux_lpar _ _

theorem count_natChars_rpar (n : Nat) : (natChars n).count ')' = 0 := by
  rw [natChars]
  split
  · rfl
  · exact count_natCharsAux_rpar _ _

/-! ## Unfolding equations for the writer, by kernel reduction -/

theorem wpre_unknown (ptr : COpt) (sc : Nat) (cc : CallingConv) (fc ln : Nat)
    (nm : NameSeq) (ps : TyList) (s : Chars) :
    writePre (.mk .Unknown ptr sc cc fc ln nm ps) s = Option.some (constTail sc s) := rfl

theorem wpre_noneTy (ptr : COpt) (sc : Nat) (cc : CallingConv) (fc ln : Nat)
    (nm : NameSeq) (ps : TyList) (s : Chars) :
    writePre (.mk .NoneTy ptr sc cc fc ln nm ps) s = Option.some (constTail sc s) := rfl

theorem wpre_function_none (sc : Nat) (cc : CallingConv) (fc ln : Nat)
    (nm : NameSeq) (ps : TyList) (s : Chars) :
    writePre (.mk .Function .none sc cc fc ln nm ps) s = Option.none := rfl

theorem wpre_function_some (c : CType) (sc : Nat) (cc : CallingConv) (fc ln : Nat)
    (nm : NameSeq) (ps : TyList) (s : Chars) :
    writePre (.mk .Function (.some c) sc cc fc ln nm ps) s = writePre c s := rfl

theorem wpre_ptr_none (sc : Nat) (cc : CallingConv) (fc ln : Nat)
    (nm : NameSeq) (ps : TyList) (s : Chars) :
    writePre (.mk .Ptr .none sc cc fc ln nm ps) s = Option.none := rfl

theorem wpre_ptr_some (c : CType) (sc : Nat) (cc : CallingConv) (fc ln : Nat)
    (nm : NameSeq) (ps : TyList) (s : Chars) :
    writePre (.mk .Ptr (.some c) sc cc fc ln nm ps) s =
      (match
        (match writePre c s with
         | Option.none => Option.none
         | Option.some s1 =>
           Option.some
             ((if c.prim = .Function ∨ c.prim = .Array then s1 ++ ['('] else s1) ++ ['*'])) with
       | Option.none => Option.none
       | Option.some s1 => Option.some (constTail sc s1)) := rfl

theorem wpre_ref_none (sc : Nat) (cc : CallingConv) (fc ln : Nat)
    (nm : NameSeq) (ps : TyList) (s : Chars) :
    writePre (.mk .Ref .none sc cc fc ln nm ps) s = Option.none := rfl

theorem wpre_ref_some (c : CType) (sc : Nat) (cc : CallingConv) (fc ln : Nat)
    (nm : NameSeq) (ps : TyList) (s : Chars) :
    writePre (.mk .Ref (.some c) sc cc fc ln nm ps) s =
      (match
        (match writePre c s with
         | Option.none => Option.none
         | Option.some s1 =>
           Option.some
             ((if c.prim = .Function ∨ c.prim = .Array then s1 ++ ['('] else s1) ++ ['&'])) with
       | Option.none => Option.none
       | Option.some s1 => Option.some (constTail sc s1)) := rfl

theorem wpre_array_none (sc : Nat) (cc : CallingConv) (fc ln : Nat)
    (nm : NameSeq) (ps : TyList) (s : Chars) :
    writePre (.mk .Array .none sc cc fc ln nm ps) s = Option.none := rfl

theorem wpre_array_some (c : CType) (sc : Nat) (cc : CallingConv) (fc ln : Nat)
    (nm : NameSeq) (ps : TyList) (s : Chars) :
    writePre (.mk .Array (.some c) sc cc fc ln nm ps) s =
      (match writePre c s with
       | Option.none => Option.none
       | Option.some s1 => Option.some (constTail sc s1)) := rfl


theorem wpre_struct_nil (ptr : COpt) (sc : Nat) (cc : CallingConv) (fc ln : Nat)
    (ps : TyList) (s : Chars) :
    writePre (.mk .Struct ptr sc cc fc ln .nil ps) s =
      Option.some (constTail sc (s ++ "struct ".data)) := rfl

theorem wpre_struct_cons (ptr : COpt) (sc : Nat) (cc : CallingConv) (fc ln : Nat)
    (a : Chars) (b : TyList) (c : NameSeq) (ps : TyList) (s : Chars) :
    writePre (.mk .Struct ptr sc cc fc ln (.cons a b c) ps) s =
      (match writeNameGo (.cons a b c) (write_space (s ++ "struct ".data)) with
       | Option.none => Option.none
       | Option.some s1 => Option.some (constTail sc s1)) := rfl


theorem wpre_union_nil (ptr : COpt) (sc : Nat) (cc : CallingConv) (fc ln : Nat)
    (ps : TyList) (s : Chars) :
    writePre (.mk .Union ptr sc cc fc ln .nil ps) s =
      Option.some (constTail sc (s ++ "union ".data)) := rfl

theorem wpre_union_cons (ptr : COpt) (sc : Nat) (cc : CallingConv) (fc ln : Nat)
    (a : Chars) (b : TyList) (c : NameSeq) (ps : TyList) (s : Chars) :
    writePre (.mk .Union ptr sc cc fc ln (.cons a b c) ps) s =
      (match writeNameGo (.cons a b c) (write_space (s ++ "union ".data)) with
       | Option.none => Option.none
       | Option.some s1 => Option.some (constTail sc s1)) := rfl


theorem wpre_class_nil (ptr : COpt) (sc : Nat) (cc : CallingConv) (fc ln : Nat)
    (ps : TyList) (s : Chars) :
    writePre (.mk .Class ptr sc cc fc ln .nil ps) s =
      Option.some (constTail sc (s ++ "class ".data)) := rfl

theorem wpre_class_cons (ptr : COpt) (sc : Nat) (cc : CallingConv) (fc ln : Nat)
    (a : Chars) (b : TyList) (c : NameSeq) (ps : TyList) (s : Chars) :
    writePre (.mk .Class ptr sc cc fc ln (.cons a b c) ps) s =
      (match writeNameGo (.cons a b c) (write_space (s ++ "class ".data)) with
       | Option.none => Option.none
       | Option.some s1 => Option.some (constTail sc s1)) := rfl


theorem wpre_enum_nil (ptr : COpt) (sc : Nat) (cc : CallingConv) (fc ln : Nat)
    (ps : TyList) (s : Chars) :
    writePre (.mk .Enum ptr sc cc fc ln .nil ps) s =
      Option.some (constTail sc (s ++ "enum ".data)) := rfl

theorem wpre_enum_cons (ptr : COpt) (sc : Nat) (cc : CallingConv) (fc ln : Nat)
    (a : Chars) (b : TyList) (c : NameSeq) (ps : TyList) (s : Chars) :
    writePre (.mk .Enum ptr sc cc fc ln (.cons a b c) ps) s =
      (match writeNameGo (.cons a b c) (write_space (s ++ "enum ".data)) with
       | Option.none => Option.none
       | Option.some s1 => Option.some (constTail sc s1)) := rfl


theorem wpre_void (ptr : COpt) (sc : Nat) (cc : CallingConv) (fc ln : Nat)
    (nm : NameSeq) (ps : TyList) (s : Chars) :
    writePre (.mk .Void ptr sc cc fc ln nm ps) s =
      Option.some (constTail sc (s ++ "void".data)) := rfl


theorem wpre_bool (ptr : COpt) (sc : Nat) (cc : CallingConv) (fc ln : Nat)
    (nm : NameSeq) (ps : TyList) (s : Chars) :
    writePre (.mk .Bool ptr sc cc fc ln nm ps) s =
      Option.some (constTail sc (s ++ "bool".data)) := rfl


theorem wpre_char (ptr : COpt) (sc : Nat) (cc : CallingConv) (fc ln : Nat)
    (nm : NameSeq) (ps : TyList) (s : Chars) :
    writePre (.mk .Char ptr sc cc fc ln nm ps) s =
      Option.some (constTail sc (s ++ "char".data)) := rfl


theorem wpre_schar (ptr : COpt) (sc : Nat) (cc : CallingConv) (fc ln : Nat)
    (nm : NameSeq) (ps : TyList) (s : Chars) :
    writePre (.mk .Schar ptr sc cc fc ln nm ps) s =
      Option.some (constTail sc (s ++ "signed char".data)) := rfl


theorem wpre_uchar (ptr : COpt) (sc : Nat) (cc : CallingConv) (fc ln : Nat)
    (nm : NameSeq) (ps : TyList) (s : Chars) :
    writePre (.mk .Uchar ptr sc cc fc ln nm ps) s =
      Option.some (constTail sc (s ++ "unsigned char".data)) := rfl


theorem wpre_short (ptr : COpt) (sc : Nat) (cc : CallingConv) (fc ln : Nat)
    (nm : NameSeq) (ps : TyList) (s : Chars) :
    writePre (.mk .Short ptr sc cc fc ln nm ps) s =
      Option.some (constTail sc (s ++ "short".data)) := rfl


theorem wpre_ushort (ptr : COpt) (sc : Nat) (cc : CallingConv) (fc ln : Nat)
    (nm : NameSeq) (ps : TyList) (s : Chars) :
    writePre (.mk .Ushort ptr sc cc fc ln nm ps) s =
      Option.some (constTail sc (s ++ "unsigned short".data)) := rfl


theorem wpre_int (ptr : COpt) (sc : Nat) (cc : CallingConv) (fc ln : Nat)
    (nm : NameSeq) (ps : TyList) (s : Chars) :
    writePre (.mk .Int ptr sc cc fc ln nm ps) s =
      Option.some (constTail sc (s ++ "int".data)) := rfl


theorem wpre_uint (ptr : COpt) (sc : Nat) (cc : CallingConv) (fc ln : Nat)
    (nm : NameSeq) (ps : TyList) (s : Chars) :
    writePre (.mk .Uint ptr sc cc fc ln nm ps) s =
      Option.some (constTail sc (s ++ "unsigned int".data)) := rfl


theorem wpre_long (ptr : COpt) (sc : Nat) (cc : CallingConv) (fc ln : Nat)
    (nm : NameSeq) (ps : TyList) (s : Chars) :
    writePre (.mk .Long ptr sc cc fc ln nm ps) s =
      Option.some (constTail sc (s ++ "long".data)) := rfl


theorem wpre_ulong (ptr : COpt) (sc : Nat) (cc : CallingConv) (fc ln : Nat)
    (nm : NameSeq) (ps : TyList) (s : Chars) :
    writePre (.mk .Ulong ptr sc cc fc ln nm ps) s =
      Option.some (constTail sc (s ++ "unsigned long".data)) := rfl


theorem wpre_llong (ptr : COpt) (sc : Nat) (cc : CallingConv) (fc ln : Nat)
    (nm : NameSeq) (ps : TyList) (s : Chars) :
    writePre (.mk .Llong ptr sc cc fc ln nm ps) s =
      Option.some (constTail sc (s ++ "long long".data)) := rfl


theorem wpre_ullong (ptr : COpt) (sc : Nat) (cc : CallingConv) (fc ln : Nat)
    (nm : NameSeq) (ps : TyList) (s : Chars) :
    writePre (.mk .Ullong ptr sc cc fc ln nm ps) s =
      Option.some (constTail sc (s ++ "unsigned long long".data)) := rfl


theorem wpre_wchar (ptr : COpt) (sc : Nat) (cc : CallingConv) (fc ln : Nat)
    (nm : NameSeq) (ps : TyList) (s : Chars) :
    writePre (.mk .Wchar ptr sc cc fc ln nm ps) s =
      Option.some (constTail sc (s ++ "wchar_t".data)) := rfl


theorem wpre_float (ptr : COpt) (sc : Nat) (cc : CallingConv) (fc ln : Nat)
    (nm : NameSeq) (ps : TyList) (s : Chars) :
    writePre (.mk .Float ptr sc cc fc ln nm ps) s =
      Option.some (constTail sc (s ++ "float".data)) := rfl


theorem wpre_double (ptr : COpt) (sc : Nat) (cc : CallingConv) (fc ln : Nat)
    (nm : NameSeq) (ps : TyList) (s : Chars) :
    writePre (.mk .Double ptr sc cc fc ln nm ps) s =
      Option.some (constTail sc (s ++ "double".data)) := rfl


theorem wpre_ldouble (ptr : COpt) (sc : Nat) (cc : CallingConv) (fc ln : Nat)
    (nm : NameSeq) (ps : TyList) (s : Chars) :
    writePre (.mk .Ldouble ptr sc cc fc ln nm ps) s =
      Option.some (constTail sc (s ++ "long double".data)) := rfl


theorem wpost_function (ptr : COpt) (sc : Nat) (cc : CallingConv) (fc ln : Nat)
    (nm : NameSeq) (ps : TyList) (s : Chars) :
    writePost (.mk .Function ptr sc cc fc ln nm ps) s =
      (match writeParams ps (s ++ ['(']) with
       | Option.none => Option.none
       | Option.some s1 => Option.some (postConst sc (s1 ++ [')']))) := rfl

theorem wpost_ptr_none (sc : Nat) (cc : CallingConv) (fc ln : Nat)
    (nm : NameSeq) (ps : TyList) (s : Chars) :
    writePost (.mk .Ptr .none sc cc fc ln nm ps) s = Option.none := rfl

theorem wpost_ptr_some (c : CType) (sc : Nat) (cc : CallingConv) (fc ln : Nat)
    (nm : NameSeq) (ps : TyList) (s : Chars) :
    writePost (.mk .Ptr (.some c) sc cc fc ln nm ps) s =
      writePost c (if c.prim = .Function ∨ c.prim = .Array then s ++ [')'] else s) := rfl

theorem wpost_ref_none (sc : Nat) (cc : CallingConv) (fc ln : Nat)
    (nm : NameSeq) (ps : TyList) (s : Chars) :
    writePost (.mk .Ref .none sc cc fc ln nm ps) s = Option.none := rfl

theorem wpost_ref_some (c : CType) (sc : Nat) (cc : CallingConv) (fc ln : Nat)
    (nm : NameSeq) (ps : TyList) (s : Chars) :
    writePost (.mk .Ref (.some c) sc cc fc ln nm ps) s =
      writePost c (if c.prim = .Function ∨ c.prim = .Array then s ++ [')'] else s) := rfl

theorem wpost_array_none (sc : Nat) (cc : CallingConv) (fc ln : Nat)
    (nm : NameSeq) (ps : TyList) (s : Chars) :
    writePost (.mk .Array .none sc cc fc ln nm ps) s = Option.none := rfl

theorem wpost_array_some (c : CType) (sc : Nat) (cc : CallingConv) (fc ln : Nat)
    (nm : NameSeq) (ps : TyList) (s : Chars) :
    writePost (.mk .Array (.some c) sc cc fc ln nm ps) s =
      writePost c (s ++ ['['] ++ natChars ln ++ [']']) := rfl


theorem wpost_unknown (ptr : COpt) (sc : Nat) (cc : CallingConv) (fc ln : Nat)
    (nm : NameSeq) (ps : TyList) (s : Chars) :
    writePost (.mk .Unknown ptr sc cc fc ln nm ps) s = Option.some s := rfl


theorem wpost_nonety (ptr : COpt) (sc : Nat) (cc : CallingConv) (fc ln : Nat)
    (nm : NameSeq) (ps : TyList) (s : Chars) :
    writePost (.mk .NoneTy ptr sc cc fc ln nm ps) s = Option.some s := rfl


theorem wpost_struct (ptr : COpt) (sc : Nat) (cc : CallingConv) (fc ln : Nat)
    (nm : NameSeq) (ps : TyList) (s : Chars) :
    writePost (.mk .Struct ptr sc cc fc ln nm ps) s = Option.some s := rfl


theorem wpost_union (ptr : COpt) (sc : Nat) (cc : CallingConv) (fc ln : Nat)
    (nm : NameSeq) (ps : TyList) (s : Chars) :
    writePost (.mk .Union ptr sc cc fc ln nm ps) s = Option.some s := rfl


theorem wpost_class (ptr : COpt) (sc : Nat) (cc : CallingConv) (fc ln : Nat)
    (nm : NameSeq) (ps : TyList) (s : Chars) :
    writePost (.mk .Class ptr sc cc fc ln nm ps) s = Option.some s := rfl


theorem wpost_enum (ptr : COpt) (sc : Nat) (cc : CallingConv) (fc ln : Nat)
    (nm : NameSeq) (ps : TyList) (s : Chars) :
    writePost (.mk .Enum ptr sc cc fc ln nm ps) s = Option.some s := rfl


theorem wpost_void (ptr : COpt) (sc : Nat) (cc : CallingConv) (fc ln : Nat)
    (nm : NameSeq) (ps : TyList) (s : Chars) :
    writePost (.mk .Void ptr sc cc fc ln nm ps) s = Option.some s := rfl


theorem wpost_bool (ptr : COpt) (sc : Nat) (cc : CallingConv) (fc ln : Nat)
    (nm : NameSeq) (ps : TyList) (s : Chars) :
    writePost (.mk .Bool ptr sc cc fc ln nm ps) s = Option.some s := rfl


theorem wpost_char (ptr : COpt) (sc : Nat) (cc : CallingConv) (fc ln : Nat)
    (nm : NameSeq) (ps : TyList) (s : Chars) :
    writePost (.mk .Char ptr sc cc fc ln nm ps) s = Option.some s := rfl


theorem wpost_schar (ptr : COpt) (sc : Nat) (cc : CallingConv) (fc ln : Nat)
    (nm : NameSeq) (ps : TyList) (s : Chars) :
    writePost (.mk .Schar ptr sc cc fc ln nm ps) s = Option.some s := rfl


theorem wpost_uchar (ptr : COpt) (sc : Nat) (cc : CallingConv) (fc ln : Nat)
    (nm : NameSeq) (ps : TyList) (s : Chars) :
    writePost (.mk .Uchar ptr sc cc fc ln nm ps) s = Option.some s := rfl


theorem wpost_short (ptr : COpt) (sc : Nat) (cc : CallingConv) (fc ln : Nat)
    (nm : NameSeq) (ps : TyList) (s : Chars) :
    writePost (.mk .Short ptr sc cc fc ln nm ps) s = Option.some s := rfl


theorem wpost_ushort (ptr : COpt) (sc : Nat) (cc : CallingConv) (fc ln : Nat)
    (nm : NameSeq) (ps : TyList) (s : Chars) :
    writePost (.mk .Ushort ptr sc cc fc ln nm ps) s = Option.some s := rfl


theorem wpost_int (ptr : COpt) (sc : Nat) (cc : CallingConv) (fc ln : Nat)
    (nm : NameSeq) (ps : TyList) (s : Chars) :
    writePost (.mk .Int ptr sc cc fc ln nm ps) s = Option.some s := rfl


theorem wpost_uint (ptr : COpt) (sc : Nat) (cc : CallingConv) (fc ln : Nat)
    (nm : NameSeq) (ps : TyList) (s : Chars) :
    writePost (.mk .Uint ptr sc cc fc ln nm ps) s = Option.some s := rfl


theorem wpost_long (ptr : COpt) (sc : Nat) (cc : CallingConv) (fc ln : Nat)
    (nm : NameSeq) (ps : TyList) (s : Chars) :
    writePost (.mk .Long ptr sc cc fc ln nm ps) s = Option.some s := rfl


theorem wpost_ulong (ptr : COpt) (sc : Nat) (cc : CallingConv) (fc ln : Nat)
    (nm : NameSeq) (ps : TyList) (s : Chars) :
    writePost (.mk .Ulong ptr sc cc fc ln nm ps) s = Option.some s := rfl


theorem wpost_llong (ptr : COpt) (sc : Nat) (cc : CallingConv) (fc ln : Nat)
    (nm : NameSeq) (ps : TyList) (s : Chars) :
    writePost (.mk .Llong ptr sc cc fc ln nm ps) s = Option.some s := rfl


theorem wpost_ullong (ptr : COpt) (sc : Nat) (cc : CallingConv) (fc ln : Nat)
    (nm : NameSeq) (ps : TyList) (s : Chars) :
    writePost (.mk .Ullong ptr sc cc fc ln nm ps) s = Option.some s := rfl


theorem wpost_wchar (ptr : COpt) (sc : Nat) (cc : CallingConv) (fc ln : Nat)
    (nm : NameSeq) (ps : TyList) (s : Chars) :
    writePost (.mk .Wchar ptr sc cc fc ln nm ps) s = Option.some s := rfl


theorem wpost_float (ptr : COpt) (sc : Nat) (cc : CallingConv) (fc ln : Nat)
    (nm : NameSeq) (ps : TyList) (s : Chars) :
    writePost (.mk .Float ptr sc cc fc ln nm ps) s = Option.some s := rfl


theorem wpost_double (ptr : COpt) (sc : Nat) (cc : CallingConv) (fc ln : Nat)
    (nm : NameSeq) (ps : TyList) (s : Chars) :
    writePost (.mk .Double ptr sc cc fc ln nm ps) s = Option.some s := rfl


theorem wpost_ldouble (ptr : COpt) (sc : Nat) (cc : CallingConv) (fc ln : Nat)
    (nm : NameSeq) (ps : TyList) (s : Chars) :
    writePost (.mk .Ldouble ptr sc cc fc ln nm ps) s = Option.some s := rfl


theorem wparams_nil (s : Chars) : writeParams .nil s = Option.some s := rfl

theorem wparams_cons (t : CType) (ts : TyList) (s : Chars) :
    writeParams (.cons t ts) s =
      (match writePre t s with
       | Option.none => Option.none
       | Option.some s1 =>
         match writePost t s1 with
         | Option.none => Option.none
         | Option.some s2 => writeParamsRest ts s2) := rfl

theorem wparamsRest_nil (s : Chars) : writeParamsRest .nil s = Option.some s := rfl

theorem wparamsRest_cons (t : CType) (ts : TyList) (s : Chars) :
    writeParamsRest (.cons t ts) s =
      (match writePre t (s ++ [',']) with
       | Option.none => Option.none
       | Option.some s1 =>
         match writePost t s1 with
         | Option.none => Option.none
         | Option.some s2 => writeParamsRest ts s2) := rfl

theorem wtmpl_nil (s : Chars) : writeTmpl .nil s = Option.some s := rfl

theorem wtmpl_cons (t : CType) (ts : TyList) (s : Chars) :
    writeTmpl (.cons t ts) s =
      (match writePre t (s ++ ['<']) with
       | Option.none => Option.none
       | Option.some s1 =>
         match writePost t s1 with
         | Option.none => Option.none
         | Option.some s2 =>
           match writeParamsRest ts s2 with
           | Option.none => Option.none
           | Option.some s3 => Option.some (s3 ++ ['>'])) := rfl

theorem wnamego_nil (s : Chars) : writeNameGo .nil s = Option.some s := rfl

theorem wnamego_last (str : Chars) (ps : TyList) (s : Chars) :
    writeNameGo (.cons str ps .nil) s =
      (if startsWith2 str '?' '0' then
        match writeParams ps (s ++ str.drop 2) with
        | Option.none => Option.none
        | Option.some s1 => Option.some (s1 ++ "::".data ++ str.drop 2)
      else if startsWith2 str '?' '1' then
        match writeParams ps (s ++ str.drop 2) with
        | Option.none => Option.none
        | Option.some s1 => Option.some (s1 ++ "::~".data ++ str.drop 2)
      else writeTmpl ps (s ++ str)) := rfl

theorem wnamego_cons (str : Chars) (ps : TyList) (a : Chars) (b : TyList)
    (c : NameSeq) (s : Chars) :
    writeNameGo (.cons str ps (.cons a b c)) s =
      (match writeTmpl ps (s ++ str) with
       | Option.none => Option.none
       | Option.some s1 => writeNameGo (.cons a b c) (s1 ++ "::".data)) := rfl


theorem cl_write_space (s : Chars) (hs : pairsOK s = true) :
    pairsOK (write_space s) = true := by
  rw [write_space]
  cases hL : s.getLast? with
  | none => exact hs
  | some c =>
    dsimp only
    split
    · next hA =>
      refine pairsOK_append s [' '] hs rfl (Or.inl ?_)
      rw [endsSp, hL]
      have hcs : c ≠ ' ' := by
        rintro rfl
        exact absurd hA (by decide)
      simp [hcs]
    · exact hs

theorem cl_constTail (sc : Nat) (s : Chars) (hs : pairsOK s = true)
    (he : endsSp s = false) :
    pairsOK (constTail sc s) = true ∧ endsSp (constTail sc s) = false := by
  rw [constTail]
  split
  · constructor
    · exact pairsOK_append _ _ (cl_write_space s hs) (by decide) (Or.inr (by decide))
    · rw [endsSp_append _ _ (by decide)]
      decide
  · exact ⟨hs, he⟩

theorem cl_postConst (sc : Nat) (s : Chars) (hs : pairsOK s = true)
    (he : endsSp s = false) :
    pairsOK (postConst sc s) = true ∧ endsSp (postConst sc s) = false := by
  rw [postConst]
  split
  · constructor
    · exact pairsOK_append _ _ hs (by decide) (Or.inr (by decide))
    · rw [endsSp_append _ _ (by decide)]
      decide
  · exact ⟨hs, he⟩

theorem cl_app1 (s : Chars) (c : Char) (hs : pairsOK s = true)
    (he : endsSp s = false) (hc : c ≠ ' ') :
    pairsOK (s ++ [c]) = true ∧ endsSp (s ++ [c]) = false := by
  constructor
  · exact pairsOK_append s [c] hs rfl (Or.inl he)
  · rw [endsSp_append _ _ (by simp), endsSp]
    simp [hc]

theorem cl_appId (s str : Chars) (hs : pairsOK s = true)
    (hal : str.all Char.isAlphanum = true) (hne : str ≠ []) :
    pairsOK (s ++ str) = true ∧ endsSp (s ++ str) = false := by
  constructor
  · exact pairsOK_append s str hs (pairsOK_of_alnum str hal)
      (Or.inr (headOK_of_alnum str hal))
  · rw [endsSp_append _ _ hne]
    exact endsSp_of_alnum str hal

theorem compPlain_spec (str : Chars) (h : compPlain str = true) :
    str ≠ [] ∧ str.all Char.isAlphanum = true := by
  rw [compPlain] at h
  simp only [Bool.and_eq_true] at h
  constructor
  · intro hn
    rw [hn] at h
    simp at h
  · exact h.2

theorem natChars_ne (n : Nat) : natChars n ≠ [] := by
  rw [natChars]
  split
  · simp
  · next hn =>
    rw [natCharsAux, if_neg hn]
    simp

theorem cl_kw (sc : Nat) (s k : Chars) (hs : pairsOK s = true)
    (he : endsSp s = false) (hk0 : k ≠ []) (hk1 : pairsOK k = true)
    (hk2 : headOK k = true) (hk3 : endsSp k = false) :
    pairsOK (constTail sc (s ++ k)) = true ∧
      endsSp (constTail sc (s ++ k)) = false := by
  have h1 : pairsOK (s ++ k) = true := pairsOK_append s k hs hk1 (Or.inr hk2)
  have h2 : endsSp (s ++ k) = false := by
    rw [endsSp_append _ _ hk0]
    exact hk3
  exact cl_constTail sc _ h1 h2

mutual

/-- `write_pre` keeps the buffer free of a space followed by a
non-alphanumeric character and never leaves a trailing space, on
well-named trees. -/
theorem cl_pre (t : CType) (hw : wnT t = true) :
    ∀ (s s1 : Chars), pairsOK s = true → endsSp s = false →
    writePre t s = Option.some s1 → pairsOK s1 = true ∧ endsSp s1 = false := by
  cases t with
  | mk prim ptr sclass cc fc len name params =>
    rw [wnT] at hw
    simp only [Bool.and_eq_true] at hw
    obtain ⟨⟨⟨hpp, hptr⟩, hname⟩, hparams⟩ := hw
    intro s s1 hs he h
    cases prim
    case Function =>
      cases ptr with
      | none => rw [wpre_function_none] at h; simp at h
      | some c =>
        rw [wpre_function_some] at h
        simp only [wnOpt] at hptr
        exact cl_pre c hptr s s1 hs he h
    case Ptr =>
      cases ptr with
      | none => rw [wpre_ptr_none] at h; simp at h
      | some c =>
        simp only [wnOpt] at hptr
        rw [wpre_ptr_some] at h
        cases hcs : writePre c s with
        | none => simp only [hcs] at h; simp at h
        | some s2 =>
          simp only [hcs] at h
          simp only [Option.some.injEq] at h
          rw [← h]
          have ihc := cl_pre c hptr s s2 hs he hcs
          have hbase : pairsOK (if c.prim = PrimTy.Function ∨ c.prim = PrimTy.Array
                then s2 ++ ['('] else s2) = true ∧
              endsSp (if c.prim = PrimTy.Function ∨ c.prim = PrimTy.Array
                then s2 ++ ['('] else s2) = false := by
            split
            · exact cl_app1 s2 '(' ihc.1 ihc.2 (by decide)
            · exact ihc
          have hstar := cl_app1 _ '*' hbase.1 hbase.2 (by decide)
          exact cl_constTail _ _ hstar.1 hstar.2
    case Ref =>
      cases ptr with
      | none => rw [wpre_ref_none] at h; simp at h
      | some c =>
        simp only [wnOpt] at hptr
        rw [wpre_ref_some] at h
        cases hcs : writePre c s with
        | none => simp only [hcs] at h; simp at h
        | some s2 =>
          simp only [hcs] at h
          simp only [Option.some.injEq] at h
          rw [← h]
          have ihc := cl_pre c hptr s s2 hs he hcs
          have hbase : pairsOK (if c.prim = PrimTy.Function ∨ c.prim = PrimTy.Array
                then s2 ++ ['('] else s2) = true ∧
              endsSp (if c.prim = PrimTy.Function ∨ c.prim = PrimTy.Array
                then s2 ++ ['('] else s2) = false := by
            split
            · exact cl_app1 s2 '(' ihc.1 ihc.2 (by decide)
            · exact ihc
          have hamp := cl_app1 _ '&' hbase.1 hbase.2 (by decide)
          exact cl_constTail _ _ hamp.1 hamp.2
    case Array =>
      cases ptr with
      | none => rw [wpre_array_none] at h; simp at h
      | some c =>
        simp only [wnOpt] at hptr
        rw [wpre_array_some] at h
        cases hcs : writePre c s with
        | none => simp only [hcs] at h; simp at h
        | some s2 =>
          simp only [hcs] at h
          simp only [Option.some.injEq] at h
          rw [← h]
          have ihc := cl_pre c hptr s s2 hs he hcs
          exact cl_constTail _ _ ihc.1 ihc.2
    case Struct =>
      cases name with
      | nil => exact absurd hpp (by decide)
      | cons a b c =>
        rw [wpre_struct_cons] at h
        cases hng : writeNameGo (.cons a b c) (write_space (s ++ "struct ".data)) with
        | none => simp only [hng] at h; simp at h
        | some s2 =>
          simp only [hng] at h
          simp only [Option.some.injEq] at h
          rw [← h]
          have h1 : pairsOK (s ++ "struct ".data) = true :=
            pairsOK_append _ _ hs (by decide) (Or.inl he)
          have hgo := cl_namego (.cons a b c) hname rfl _ s2
            (cl_write_space _ h1) hng
          exact cl_constTail _ _ hgo.1 hgo.2
    case Union =>
      cases name with
      | nil => exact absurd hpp (by decide)
      | cons a b c =>
        rw [wpre_union_cons] at h
        cases hng : writeNameGo (.cons a b c) (write_space (s ++ "union ".data)) with
        | none => simp only [hng] at h; simp at h
        | some s2 =>
          simp only [hng] at h
          simp only [Option.some.injEq] at h
          rw [← h]
          have h1 : pairsOK (s ++ "union ".data) = true :=
            pairsOK_append _ _ hs (by decide) (Or.inl he)
          have hgo := cl_namego (.cons a b c) hname rfl _ s2
            (cl_write_space _ h1) hng
          exact cl_constTail _ _ hgo.1 hgo.2
    case Class =>
      cases name with
      | nil => exact absurd hpp (by decide)
      | cons a b c =>
        rw [wpre_class_cons] at h
        cases hng : writeNameGo (.cons a b c) (write_space (s ++ "class ".data)) with
        | none => simp only [hng] at h; simp at h
        | some s2 =>
          simp only [hng] at h
          simp only [Option.some.injEq] at h
          rw [← h]
          have h1 : pairsOK (s ++ "class ".data) = true :=
            pairsOK_append _ _ hs (by decide) (Or.inl he)
          have hgo := cl_namego (.cons a b c) hname rfl _ s2
            (cl_write_space _ h1) hng
          exact cl_constTail _ _ hgo.1 hgo.2
    case Enum =>
      cases name with
      | nil => exact absurd hpp (by decide)
      | cons a b c =>
        rw [wpre_enum_cons] at h
        cases hng : writeNameGo (.cons a b c) (write_space (s ++ "enum ".data)) with
        | none => simp only [hng] at h; simp at h
        | some s2 =>
          simp only [hng] at h
          simp only [Option.some.injEq] at h
          rw [← h]
          have h1 : pairsOK (s ++ "enum ".data) = true :=
            pairsOK_append _ _ hs (by decide) (Or.inl he)
          have hgo := cl_namego (.cons a b c) hname rfl _ s2
            (cl_write_space _ h1) hng
          exact cl_constTail _ _ hgo.1 hgo.2
    case Unknown =>
      have h2 := Option.some.inj h
      rw [← h2]
      exact cl_constTail _ _ hs he
    case NoneTy =>
      have h2 := Option.some.inj h
      rw [← h2]
      exact cl_constTail _ _ hs he
    all_goals
      have h2 := Option.some.inj h
      rw [← h2]
      exact cl_kw _ _ _ hs he (by decide) (by decide) (by decide) (by decide)

/-- `write_post` cleanliness on well-named trees. -/
theorem cl_post (t : CType) (hw : wnT t = true) :
    ∀ (s s1 : Chars), pairsOK s = true → endsSp s = false →
    writePost t s = Option.some s1 → pairsOK s1 = true ∧ endsSp s1 = false := by
  cases t with
  | mk prim ptr sclass cc fc len name params =>
    rw [wnT] at hw
    simp only [Bool.and_eq_true] at hw
    obtain ⟨⟨⟨hpp, hptr⟩, hname⟩, hparams⟩ := hw
    intro s s1 hs he h
    cases prim
    case Function =>
      rw [wpost_function] at h
      cases hps : writeParams params (s ++ ['(']) with
      | none => simp only [hps] at h; simp at h
      | some s2 =>
        simp only [hps] at h
        simp only [Option.some.injEq] at h
        rw [← h]
        have h1 := cl_app1 s '(' hs he (by decide)
        have ihp := cl_params params hparams _ s2 h1.1 h1.2 hps
        have h2 := cl_app1 s2 ')' ihp.1 ihp.2 (by decide)
        exact cl_postConst _ _ h2.1 h2.2
    case Ptr =>
      cases ptr with
      | none => rw [wpost_ptr_none] at h; simp at h
      | some c =>
        simp only [wnOpt] at hptr
        rw [wpost_ptr_some] at h
        have hin : pairsOK (if c.prim = PrimTy.Function ∨ c.prim = PrimTy.Array
              then s ++ [')'] else s) = true ∧
            endsSp (if c.prim = PrimTy.Function ∨ c.prim = PrimTy.Array
              then s ++ [')'] else s) = false := by
          split
          · exact cl_app1 s ')' hs he (by decide)
          · exact ⟨hs, he⟩
        exact cl_post c hptr _ s1 hin.1 hin.2 h
    case Ref =>
      cases ptr with
      | none => rw [wpost_ref_none] at h; simp at h
      | some c =>
        simp only [wnOpt] at hptr
        rw [wpost_ref_some] at h
        have hin : pairsOK (if c.prim = PrimTy.Function ∨ c.prim = PrimTy.Array
              then s ++ [')'] else s) = true ∧
            endsSp (if c.prim = PrimTy.Function ∨ c.prim = PrimTy.Array
              then s ++ [')'] else s) = false := by
          split
          · exact cl_app1 s ')' hs he (by decide)
          · exact ⟨hs, he⟩
        exact cl_post c hptr _ s1 hin.1 hin.2 h
    case Array =>
      cases ptr with
      | none => rw [wpost_array_none] at h; simp at h
      | some c =>
        simp only [wnOpt] at hptr
        rw [wpost_array_some] at h
        have h1 := cl_app1 s '[' hs he (by decide)
        have h2 := cl_appId _ (natChars len) h1.1 (natChars_alnum len) (natChars_ne len)
        have h3 := cl_app1 _ ']' h2.1 h2.2 (by decide)
        exact cl_post c hptr _ s1 h3.1 h3.2 h
    all_goals
      have h2 := Option.some.inj h
      rw [← h2]
      exact ⟨hs, he⟩

/-- `write_params` cleanliness. -/
theorem cl_params (l : TyList) (hw : wnList l = true) :
    ∀ (s s1 : Chars), pairsOK s = true → endsSp s = false →
    writeParams l s = Option.some s1 → pairsOK s1 = true ∧ endsSp s1 = false := by
  cases l with
  | nil =>
    intro s s1 hs he h
    have h2 := Option.some.inj h
    rw [← h2]
    exact ⟨hs, he⟩
  | cons t ts =>
    rw [wnList] at hw
    simp only [Bool.and_eq_true] at hw
    intro s s1 hs he h
    rw [wparams_cons] at h
    cases h1 : writePre t s with
    | none => simp only [h1] at h; simp at h
    | some s2 =>
      simp only [h1] at h
      cases h2 : writePost t s2 with
      | none => simp only [h2] at h; simp at h
      | some s3 =>
        simp only [h2] at h
        have c1 := cl_pre t hw.1 s s2 hs he h1
        have c2 := cl_post t hw.1 s2 s3 c1.1 c1.2 h2
        exact cl_paramsRest ts hw.2 s3 s1 c2.1 c2.2 h

theorem cl_paramsRest (l : TyList) (hw : wnList l = true) :
    ∀ (s s1 : Chars), pairsOK s = true → endsSp s = false →
    writeParamsRest l s = Option.some s1 → pairsOK s1 = true ∧ endsSp s1 = false := by
  cases l with
  | nil =>
    intro s s1 hs he h
    have h2 := Option.some.inj h
    rw [← h2]
    exact ⟨hs, he⟩
  | cons t ts =>
    rw [wnList] at hw
    simp only [Bool.and_eq_true] at hw
    intro s s1 hs he h
    rw [wparamsRest_cons] at h
    cases h1 : writePre t (s ++ [',']) with
    | none => simp only [h1] at h; simp at h
    | some s2 =>
      simp only [h1] at h
      cases h2 : writePost t s2 with
      | none => simp only [h2] at h; simp at h
      | some s3 =>
        simp only [h2] at h
        have h0 := cl_app1 s ',' hs he (by decide)
        have c1 := cl_pre t hw.1 _ s2 h0.1 h0.2 h1
        have c2 := cl_post t hw.1 s2 s3 c1.1 c1.2 h2
        exact cl_paramsRest ts hw.2 s3 s1 c2.1 c2.2 h

theorem cl_tmpl (l : TyList) (hw : wnList l = true) :
    ∀ (s s1 : Chars), pairsOK s = true → endsSp s = false →
    writeTmpl l s = Option.some s1 → pairsOK s1 = true ∧ endsSp s1 = false := by
  cases l with
  | nil =>
    intro s s1 hs he h
    have h2 := Option.some.inj h
    rw [← h2]
    exact ⟨hs, he⟩
  | cons t ts =>
    rw [wnList] at hw
    simp only [Bool.and_eq_true] at hw
    intro s s1 hs he h
    rw [wtmpl_cons] at h
    cases h1 : writePre t (s ++ ['<']) with
    | none => simp only [h1] at h; simp at h
    | some s2 =>
      simp only [h1] at h
      cases h2 : writePost t s2 with
      | none => simp only [h2] at h; simp at h
      | some s3 =>
        simp only [h2] at h
        cases h3 : writeParamsRest ts s3 with
        | none => simp only [h3] at h; simp at h
        | some s4 =>
          simp only [h3] at h
          simp only [Option.some.injEq] at h
          rw [← h]
          have h0 := cl_app1 s '<' hs he (by decide)
          have c1 := cl_pre t hw.1 _ s2 h0.1 h0.2 h1
          have c2 := cl_post t hw.1 s2 s3 c1.1 c1.2 h2
          have c3 := cl_paramsRest ts hw.2 s3 s4 c2.1 c2.2 h3
          exact cl_app1 s4 '>' c3.1 c3.2 (by decide)

/-- `write_name`'s component loop: given a clean buffer (possibly ending
in a space that the next identifier absorbs), the rendered qualified name
is clean and ends in a non-space. -/
theorem cl_namego (n : NameSeq) (hw : wnName n = true) (hnn : nonNil n = true) :
    ∀ (s s1 : Chars), pairsOK s = true →
    writeNameGo n s = Option.some s1 → pairsOK s1 = true ∧ endsSp s1 = false := by
  cases n with
  | nil => exact absurd hnn (by decide)
  | cons str ps rest =>
    cases rest with
    | nil =>
      rw [wnName] at hw
      simp only [Bool.and_eq_true] at hw
      obtain ⟨⟨hcomp0, hps⟩, _⟩ := hw
      have hcomp : compLast str = true := hcomp0
      intro s s1 hs h
      rw [wnamego_last] at h
      split at h
      · next htag =>
        rw [compLast, if_pos (by rw [htag]; rfl)] at hcomp
        obtain ⟨hne, hal⟩ := compPlain_spec _ hcomp
        have hid := cl_appId s (str.drop 2) hs hal hne
        cases hps2 : writeParams ps (s ++ str.drop 2) with
        | none => simp only [hps2] at h; simp at h
        | some s2 =>
          simp only [hps2] at h
          simp only [Option.some.injEq] at h
          rw [← h]
          have ihp := cl_params ps hps _ s2 hid.1 hid.2 hps2
          have h3 : pairsOK (s2 ++ "::".data) = true ∧
              endsSp (s2 ++ "::".data) = false := by
            constructor
            · exact pairsOK_append _ _ ihp.1 (by decide) (Or.inl ihp.2)
            · rw [endsSp_append _ _ (by decide)]
              decide
          exact cl_appId _ _ h3.1 hal hne
      · split at h
        · next hneg0 htag1 =>
          rw [compLast, if_pos (by rw [htag1, Bool.or_true])] at hcomp
          obtain ⟨hne, hal⟩ := compPlain_spec _ hcomp
          have hid := cl_appId s (str.drop 2) hs hal hne
          cases hps2 : writeParams ps (s ++ str.drop 2) with
          | none => simp only [hps2] at h; simp at h
          | some s2 =>
            simp only [hps2] at h
            simp only [Option.some.injEq] at h
            rw [← h]
            have ihp := cl_params ps hps _ s2 hid.1 hid.2 hps2
            have h3 : pairsOK (s2 ++ "::~".data) = true ∧
                endsSp (s2 ++ "::~".data) = false := by
              constructor
              · exact pairsOK_append _ _ ihp.1 (by decide) (Or.inl ihp.2)
              · rw [endsSp_append _ _ (by decide)]
                decide
            exact cl_appId _ _ h3.1 hal hne
        · next hneg0 hneg1 =>
          rw [compLast, if_neg (by simp [Bool.or_eq_true, hneg0, hneg1])] at hcomp
          obtain ⟨hne, hal⟩ := compPlain_spec _ hcomp
          have hid := cl_appId s str hs hal hne
          exact cl_tmpl ps hps _ s1 hid.1 hid.2 h
    | cons a b c =>
      rw [wnName] at hw
      simp only [Bool.and_eq_true] at hw
      obtain ⟨⟨hcomp0, hps⟩, hrest⟩ := hw
      have hcomp : compPlain str = true := hcomp0
      obtain ⟨hne, hal⟩ := compPlain_spec _ hcomp
      intro s s1 hs h
      rw [wnamego_cons] at h
      cases ht : writeTmpl ps (s ++ str) with
      | none => simp only [ht] at h; simp at h
      | some s2 =>
        simp only [ht] at h
        have hid := cl_appId s str hs hal hne
        have iht := cl_tmpl ps hps _ s2 hid.1 hid.2 ht
        have h3 : pairsOK (s2 ++ "::".data) = true := by
          exact pairsOK_append _ _ iht.1 (by decide) (Or.inl iht.2)
        exact cl_namego (.cons a b c) hrest rfl _ s1 h3 h

end

theorem cl_writeName (n : NameSeq) (hw : wnName n = true) (s s1 : Chars)
    (hs : pairsOK s = true) (he : endsSp s = false)
    (h : writeName n s = Option.some s1) :
    pairsOK s1 = true ∧ endsSp s1 = false := by
  cases n with
  | nil =>
    have h2 := Option.some.inj h
    rw [← h2]
    exact ⟨hs, he⟩
  | cons a b c =>
    exact cl_namego (.cons a b c) hw rfl _ s1 (cl_write_space s hs) h

/-- End-to-end cleanliness of `str()` on well-named trees and symbols. -/
theorem cl_strOut (ty : CType) (sym : NameSeq) (out : Chars)
    (h1 : wnT ty = true) (h2 : wnName sym = true)
    (h : strOut ty sym = Option.some out) : pairsOK out = true := by
  rw [strOut] at h
  cases hp : writePre ty [] with
  | none => simp only [hp] at h; simp at h
  | some s1 =>
    simp only [hp] at h
    cases hn : writeName sym s1 with
    | none => simp only [hn] at h; simp at h
    | some s2 =>
      simp only [hn] at h
      have c1 := cl_pre ty h1 [] s1 rfl rfl hp
      have c2 := cl_writeName sym h2 s1 s2 c1.1 c1.2 hn
      exact (cl_post ty h1 s2 out c2.1 c2.2 h).1

theorem count_keyword_lpar (s k : Chars) (sc : Nat) (hk : k.count '(' = 0) :
    (constTail sc (s ++ k)).count '(' = s.count '(' := by
  simp [count_constTail_lpar, List.count_append, hk]

theorem count_keyword_rpar (s k : Chars) (sc : Nat) (hk : k.count ')' = 0) :
    (constTail sc (s ++ k)).count ')' = s.count ')' := by
  simp [count_constTail_rpar, List.count_append, hk]

theorem count_drop_zero (c : Char) (k : Chars) (n : Nat) (h : k.count c = 0) :
    (k.drop n).count c = 0 := by
  rw [List.count_eq_zero] at h ⊢
  exact fun hm => h (List.drop_subset n k hm)

mutual

/-- Parenthesis accounting for `write_pre`: the output's counts exceed
the buffer's by exactly `parPre t`, provided no stored identifier
contains a parenthesis. -/
theorem parPre_count (t : CType) (s s1 : Chars) (hp : pfT t = true)
    (hw : writePre t s = Option.some s1) :
    s1.count '(' = s.count '(' + (parPre t).1 ∧
    s1.count ')' = s.count ')' + (parPre t).2 := by
  cases t with
  | mk prim ptr sclass cc fc len name params =>
    rw [pfT] at hp
    simp only [Bool.and_eq_true] at hp
    obtain ⟨⟨hptr, hname⟩, hparams⟩ := hp
    cases prim
    case Function =>
      cases ptr with
      | none => rw [wpre_function_none] at hw; simp at hw
      | some c =>
        rw [wpre_function_some] at hw
        simp only [pfOpt] at hptr
        exact parPre_count c s s1 hptr hw
    case Ptr =>
      cases ptr with
      | none => rw [wpre_ptr_none] at hw; simp at hw
      | some c =>
        simp only [pfOpt] at hptr
        rw [wpre_ptr_some] at hw
        cases hcs : writePre c s with
        | none => simp only [hcs] at hw; simp at hw
        | some s2 =>
          simp only [hcs] at hw
          simp only [Option.some.injEq] at hw
          subst hw
          have ih := parPre_count c s s2 hptr hcs
          show _ = s.count '(' +
              ((parPre c).1 + if c.prim = PrimTy.Function ∨ c.prim = PrimTy.Array then 1 else 0) ∧
            _ = s.count ')' + (parPre c).2
          by_cases hg : c.prim = PrimTy.Function ∨ c.prim = PrimTy.Array
          · rw [if_pos hg, if_pos hg]
            constructor
            · rw [count_constTail_lpar, List.count_append, List.count_append, ih.1]
              simp
              omega
            · rw [count_constTail_rpar, List.count_append, List.count_append, ih.2]
              simp
          · rw [if_neg hg, if_neg hg]
            constructor
            · rw [count_constTail_lpar, List.count_append, ih.1]
              simp
            · rw [count_constTail_rpar, List.count_append, ih.2]
              simp
    case Ref =>
      cases ptr with
      | none => rw [wpre_ref_none] at hw; simp at hw
      | some c =>
        simp only [pfOpt] at hptr
        rw [wpre_ref_some] at hw
        cases hcs : writePre c s with
        | none => simp only [hcs] at hw; simp at hw
        | some s2 =>
          simp only [hcs] at hw
          simp only [Option.some.injEq] at hw
          subst hw
          have ih := parPre_count c s s2 hptr hcs
          show _ = s.count '(' +
              ((parPre c).1 + if c.prim = PrimTy.Function ∨ c.prim = PrimTy.Array then 1 else 0) ∧
            _ = s.count ')' + (parPre c).2
          by_cases hg : c.prim = PrimTy.Function ∨ c.prim = PrimTy.Array
          · rw [if_pos hg, if_pos hg]
            constructor
            · rw [count_constTail_lpar, List.count_append, List.count_append, ih.1]
              simp
              omega
            · rw [count_constTail_rpar, List.count_append, List.count_append, ih.2]
              simp
          · rw [if_neg hg, if_neg hg]
            constructor
            · rw [count_constTail_lpar, List.count_append, ih.1]
              simp
            · rw [count_constTail_rpar, List.count_append, ih.2]
              simp
    case Array =>
      cases ptr with
      | none => rw [wpre_array_none] at hw; simp at hw
      | some c =>
        simp only [pfOpt] at hptr
        rw [wpre_array_some] at hw
        cases hcs : writePre c s with
        | none => simp only [hcs] at hw; simp at hw
        | some s2 =>
          simp only [hcs] at hw
          simp only [Option.some.injEq] at hw
          subst hw
          have ih := parPre_count c s s2 hptr hcs
          exact ⟨by rw [count_constTail_lpar]; exact ih.1,
                 by rw [count_constTail_rpar]; exact ih.2⟩
    case Struct =>
      cases name with
      | nil =>
        rw [wpre_struct_nil] at hw
        simp only [Option.some.injEq] at hw
        subst hw
        exact ⟨by rw [count_keyword_lpar _ _ _ (by decide)]; exact (Nat.add_zero _).symm,
               by rw [count_keyword_rpar _ _ _ (by decide)]; exact (Nat.add_zero _).symm⟩
      | cons a b c =>
        rw [wpre_struct_cons] at hw
        cases hng : writeNameGo (NameSeq.cons a b c) (write_space (s ++ "struct ".data)) with
        | none => simp only [hng] at hw; simp at hw
        | some s3 =>
          simp only [hng] at hw
          simp only [Option.some.injEq] at hw
          subst hw
          have ih := parNameGo_count (NameSeq.cons a b c) _ s3 hname hng
          show _ = s.count '(' + (parName (NameSeq.cons a b c)).1 ∧
            _ = s.count ')' + (parName (NameSeq.cons a b c)).2
          constructor
          · rw [count_constTail_lpar, ih.1, count_write_space_lpar, List.count_append,
              (by decide : List.count '(' "struct ".data = 0)]
            omega
          · rw [count_constTail_rpar, ih.2, count_write_space_rpar, List.count_append,
              (by decide : List.count ')' "struct ".data = 0)]
            omega
    case Union =>
      cases name with
      | nil =>
        rw [wpre_union_nil] at hw
        simp only [Option.some.injEq] at hw
        subst hw
        exact ⟨by rw [count_keyword_lpar _ _ _ (by decide)]; exact (Nat.add_zero _).symm,
               by rw [count_keyword_rpar _ _ _ (by decide)]; exact (Nat.add_zero _).symm⟩
      | cons a b c =>
        rw [wpre_union_cons] at hw
        cases hng : writeNameGo (NameSeq.cons a b c) (write_space (s ++ "union ".data)) with
        | none => simp only [hng] at hw; simp at hw
        | some s3 =>
          simp only [hng] at hw
          simp only [Option.some.injEq] at hw
          subst hw
          have ih := parNameGo_count (NameSeq.cons a b c) _ s3 hname hng
          show _ = s.count '(' + (parName (NameSeq.cons a b c)).1 ∧
            _ = s.count ')' + (parName (NameSeq.cons a b c)).2
          constructor
          · rw [count_constTail_lpar, ih.1, count_write_space_lpar, List.count_append,
              (by decide : List.count '(' "union ".data = 0)]
            omega
          · rw [count_constTail_rpar, ih.2, count_write_space_rpar, List.count_append,
              (by decide : List.count ')' "union ".data = 0)]
            omega
    case Class =>
      cases name with
      | nil =>
        rw [wpre_class_nil] at hw
        simp only [Option.some.injEq] at hw
        subst hw
        exact ⟨by rw [count_keyword_lpar _ _ _ (by decide)]; exact (Nat.add_zero _).symm,
               by rw [count_keyword_rpar _ _ _ (by decide)]; exact (Nat.add_zero _).symm⟩
      | cons a b c =>
        rw [wpre_class_cons] at hw
        cases hng : writeNameGo (NameSeq.cons a b c) (write_space (s ++ "class ".data)) with
        | none => simp only [hng] at hw; simp at hw
        | some s3 =>
          simp only [hng] at hw
          simp only [Option.some.injEq] at hw
          subst hw
          have ih := parNameGo_count (NameSeq.cons a b c) _ s3 hname hng
          show _ = s.count '(' + (parName (NameSeq.cons a b c)).1 ∧
            _ = s.count ')' + (parName (NameSeq.cons a b c)).2
          constructor
          · rw [count_constTail_lpar, ih.1, count_write_space_lpar, List.count_append,
              (by decide : List.count '(' "class ".data = 0)]
            omega
          · rw [count_constTail_rpar, ih.2, count_write_space_rpar, List.count_append,
              (by decide : List.count ')' "class ".data = 0)]
            omega
    case Enum =>
      cases name with
      | nil =>
        rw [wpre_enum_nil] at hw
        simp only [Option.some.injEq] at hw
        subst hw
        exact ⟨by rw [count_keyword_lpar _ _ _ (by decide)]; exact (Nat.add_zero _).symm,
               by rw [count_keyword_rpar _ _ _ (by decide)]; exact (Nat.add_zero _).symm⟩
      | cons a b c =>
        rw [wpre_enum_cons] at hw
        cases hng : writeNameGo (NameSeq.cons a b c) (write_space (s ++ "enum ".data)) with
        | none => simp only [hng] at hw; simp at hw
        | some s3 =>
          simp only [hng] at hw
          simp only [Option.some.injEq] at hw
          subst hw
          have ih := parNameGo_count (NameSeq.cons a b c) _ s3 hname hng
          show _ = s.count '(' + (parName (NameSeq.cons a b c)).1 ∧
            _ = s.count ')' + (parName (NameSeq.cons a b c)).2
          constructor
          · rw [count_constTail_lpar, ih.1, count_write_space_lpar, List.count_append,
              (by decide : List.count '(' "enum ".data = 0)]
            omega
          · rw [count_constTail_rpar, ih.2, count_write_space_rpar, List.count_append,
              (by decide : List.count ')' "enum ".data = 0)]
            omega
    case Unknown =>
      rw [wpre_unknown] at hw
      simp only [Option.some.injEq] at hw
      subst hw
      exact ⟨by rw [count_constTail_lpar]; exact (Nat.add_zero _).symm,
             by rw [count_constTail_rpar]; exact (Nat.add_zero _).symm⟩
    case NoneTy =>
      rw [wpre_noneTy] at hw
      simp only [Option.some.injEq] at hw
      subst hw
      exact ⟨by rw [count_constTail_lpar]; exact (Nat.add_zero _).symm,
             by rw [count_constTail_rpar]; exact (Nat.add_zero _).symm⟩
    all_goals
      simp only [wpre_void, wpre_bool, wpre_char, wpre_schar, wpre_uchar, wpre_short,
        wpre_ushort, wpre_int, wpre_uint, wpre_long, wpre_ulong, wpre_llong, wpre_ullong,
        wpre_wchar, wpre_float, wpre_double, wpre_ldouble, Option.some.injEq] at hw
    all_goals subst hw
    all_goals
      exact ⟨by rw [count_keyword_lpar _ _ _ (by decide)]; exact (Nat.add_zero _).symm,
             by rw [count_keyword_rpar _ _ _ (by decide)]; exact (Nat.add_zero _).symm⟩

/-- Parenthesis accounting for `write_post`. -/
theorem parPost_count (t : CType) (s s1 : Chars) (hp : pfT t = true)
    (hw : writePost t s = Option.some s1) :
    s1.count '(' = s.count '(' + (parPost t).1 ∧
    s1.count ')' = s.count ')' + (parPost t).2 := by
  cases t with
  | mk prim ptr sclass cc fc len name params =>
    rw [pfT] at hp
    simp only [Bool.and_eq_true] at hp
    obtain ⟨⟨hptr, hname⟩, hparams⟩ := hp
    cases prim
    case Function =>
      rw [wpost_function] at hw
      cases hps : writeParams params (s ++ ['(']) with
      | none => simp only [hps] at hw; simp at hw
      | some s2 =>
        simp only [hps] at hw
        simp only [Option.some.injEq] at hw
        subst hw
        have ih := parList_count params _ s2 hparams hps
        show _ = s.count '(' + (1 + (parList params).1) ∧
          _ = s.count ')' + (1 + (parList params).2)
        constructor
        · rw [count_postConst_lpar, List.count_append, ih.1, List.count_append]
          simp
          omega
        · rw [count_postConst_rpar, List.count_append, ih.2, List.count_append]
          simp
          omega
    case Ptr =>
      cases ptr with
      | none => rw [wpost_ptr_none] at hw; simp at hw
      | some c =>
        simp only [pfOpt] at hptr
        rw [wpost_ptr_some] at hw
        show _ = s.count '(' + (parPost c).1 ∧
          _ = s.count ')' +
            ((parPost c).2 + if c.prim = PrimTy.Function ∨ c.prim = PrimTy.Array then 1 else 0)
        by_cases hg : c.prim = PrimTy.Function ∨ c.prim = PrimTy.Array
        · rw [if_pos hg] at hw
          rw [if_pos hg]
          have ih := parPost_count c _ s1 hptr hw
          constructor
          · rw [ih.1, List.count_append]
            simp
          · rw [ih.2, List.count_append]
            simp
            omega
        · rw [if_neg hg] at hw
          rw [if_neg hg]
          have ih := parPost_count c _ s1 hptr hw
          exact ⟨by rw [ih.1], by rw [ih.2]; omega⟩
    case Ref =>
      cases ptr with
      | none => rw [wpost_ref_none] at hw; simp at hw
      | some c =>
        simp only [pfOpt] at hptr
        rw [wpost_ref_some] at hw
        show _ = s.count '(' + (parPost c).1 ∧
          _ = s.count ')' +
            ((parPost c).2 + if c.prim = PrimTy.Function ∨ c.prim = PrimTy.Array then 1 else 0)
        by_cases hg : c.prim = PrimTy.Function ∨ c.prim = PrimTy.Array
        · rw [if_pos hg] at hw
          rw [if_pos hg]
          have ih := parPost_count c _ s1 hptr hw
          constructor
          · rw [ih.1, List.count_append]
            simp
          · rw [ih.2, List.count_append]
            simp
            omega
        · rw [if_neg hg] at hw
          rw [if_neg hg]
          have ih := parPost_count c _ s1 hptr hw
          exact ⟨by rw [ih.1], by rw [ih.2]; omega⟩
    case Array =>
      cases ptr with
      | none => rw [wpost_array_none] at hw; simp at hw
      | some c =>
        simp only [pfOpt] at hptr
        rw [wpost_array_some] at hw
        have ih := parPost_count c _ s1 hptr hw
        show _ = s.count '(' + (parPost c).1 ∧ _ = s.count ')' + (parPost c).2
        constructor
        · rw [ih.1, List.count_append, List.count_append, List.count_append]
          simp [count_natChars_lpar]
        · rw [ih.2, List.count_append, List.count_append, List.count_append]
          simp [count_natChars_rpar]
    all_goals
      simp only [wpost_unknown, wpost_nonety, wpost_struct, wpost_union, wpost_class,
        wpost_enum, wpost_void, wpost_bool, wpost_char, wpost_schar, wpost_uchar,
        wpost_short, wpost_ushort, wpost_int, wpost_uint, wpost_long, wpost_ulong,
        wpost_llong, wpost_ullong, wpost_wchar, wpost_float, wpost_double, wpost_ldouble,
        Option.some.injEq] at hw
    all_goals subst hw
    all_goals exact ⟨(Nat.add_zero _).symm, (Nat.add_zero _).symm⟩

/-- Parenthesis accounting for `write_params`. -/
theorem parList_count (l : TyList) (s s1 : Chars) (hp : pfList l = true)
    (hw : writeParams l s = Option.some s1) :
    s1.count '(' = s.count '(' + (parList l).1 ∧
    s1.count ')' = s.count ')' + (parList l).2 := by
  cases l with
  | nil =>
    rw [wparams_nil] at hw
    simp only [Option.some.injEq] at hw
    subst hw
    exact ⟨(Nat.add_zero _).symm, (Nat.add_zero _).symm⟩
  | cons t ts =>
    rw [pfList] at hp
    simp only [Bool.and_eq_true] at hp
    obtain ⟨hpt, hpts⟩ := hp
    rw [wparams_cons] at hw
    cases h1 : writePre t s with
    | none => simp only [h1] at hw; simp at hw
    | some s2 =>
      simp only [h1] at hw
      cases h2 : writePost t s2 with
      | none => simp only [h2] at hw; simp at hw
      | some s3 =>
        simp only [h2] at hw
        have iha := parPre_count t s s2 hpt h1
        have ihb := parPost_count t s2 s3 hpt h2
        have ihc := parListRest_count ts s3 s1 hpts hw
        show _ = s.count '(' + ((parPre t).1 + (parPost t).1 + (parList ts).1) ∧
          _ = s.count ')' + ((parPre t).2 + (parPost t).2 + (parList ts).2)
        constructor
        · rw [ihc.1, ihb.1, iha.1]; omega
        · rw [ihc.2, ihb.2, iha.2]; omega

/-- Parenthesis accounting for the comma-separated tail of
`write_params`. -/
theorem parListRest_count (l : TyList) (s s1 : Chars) (hp : pfList l = true)
    (hw : writeParamsRest l s = Option.some s1) :
    s1.count '(' = s.count '(' + (parList l).1 ∧
    s1.count ')' = s.count ')' + (parList l).2 := by
  cases l with
  | nil =>
    rw [wparamsRest_nil] at hw
    simp only [Option.some.injEq] at hw
    subst hw
    exact ⟨(Nat.add_zero _).symm, (Nat.add_zero _).symm⟩
  | cons t ts =>
    rw [pfList] at hp
    simp only [Bool.and_eq_true] at hp
    obtain ⟨hpt, hpts⟩ := hp
    rw [wparamsRest_cons] at hw
    cases h1 : writePre t (s ++ [',']) with
    | none => simp only [h1] at hw; simp at hw
    | some s2 =>
      simp only [h1] at hw
      cases h2 : writePost t s2 with
      | none => simp only [h2] at hw; simp at hw
      | some s3 =>
        simp only [h2] at hw
        have iha := parPre_count t _ s2 hpt h1
        have ihb := parPost_count t s2 s3 hpt h2
        have ihc := parListRest_count ts s3 s1 hpts hw
        show _ = s.count '(' + ((parPre t).1 + (parPost t).1 + (parList ts).1) ∧
          _ = s.count ')' + ((parPre t).2 + (parPost t).2 + (parList ts).2)
        have ca : List.count '(' (s ++ [',']) = List.count '(' s := by
          rw [List.count_append]; simp
        have cb : List.count ')' (s ++ [',']) = List.count ')' s := by
          rw [List.count_append]; simp
        constructor
        · rw [ihc.1, ihb.1, iha.1, ca]; omega
        · rw [ihc.2, ihb.2, iha.2, cb]; omega

/-- Parenthesis accounting for `write_tmpl_params` (the `<`/`>` add no
parentheses). -/
theorem parTmpl_count (l : TyList) (s s1 : Chars) (hp : pfList l = true)
    (hw : writeTmpl l s = Option.some s1) :
    s1.count '(' = s.count '(' + (parList l).1 ∧
    s1.count ')' = s.count ')' + (parList l).2 := by
  cases l with
  | nil =>
    rw [wtmpl_nil] at hw
    simp only [Option.some.injEq] at hw
    subst hw
    exact ⟨(Nat.add_zero _).symm, (Nat.add_zero _).symm⟩
  | cons t ts =>
    rw [pfList] at hp
    simp only [Bool.and_eq_true] at hp
    obtain ⟨hpt, hpts⟩ := hp
    rw [wtmpl_cons] at hw
    cases h1 : writePre t (s ++ ['<']) with
    | none => simp only [h1] at hw; simp at hw
    | some s2 =>
      simp only [h1] at hw
      cases h2 : writePost t s2 with
      | none => simp only [h2] at hw; simp at hw
      | some s3 =>
        simp only [h2] at hw
        cases h3 : writeParamsRest ts s3 with
        | none => simp only [h3] at hw; simp at hw
        | some s4 =>
          simp only [h3] at hw
          simp only [Option.some.injEq] at hw
          subst hw
          have iha := parPre_count t _ s2 hpt h1
          have ihb := parPost_count t s2 s3 hpt h2
          have ihc := parListRest_count ts s3 s4 hpts h3
          show _ = s.count '(' + ((parPre t).1 + (parPost t).1 + (parList ts).1) ∧
            _ = s.count ')' + ((parPre t).2 + (parPost t).2 + (parList ts).2)
          have ca : List.count '(' (s ++ ['<']) = List.count '(' s := by
            rw [List.count_append]; simp
          have cb : List.count ')' (s ++ ['<']) = List.count ')' s := by
            rw [List.count_append]; simp
          constructor
          · rw [List.count_append, ihc.1, ihb.1, iha.1, ca]
            simp
            omega
          · rw [List.count_append, ihc.2, ihb.2, iha.2, cb]
            simp
            omega

/-- Parenthesis accounting for the `write_name` component loop: only the
template parameter lists contribute, also in the `?0`/`?1` branches. -/
theorem parNameGo_count (n : NameSeq) (s s1 : Chars) (hp : pfName n = true)
    (hw : writeNameGo n s = Option.some s1) :
    s1.count '(' = s.count '(' + (parName n).1 ∧
    s1.count ')' = s.count ')' + (parName n).2 := by
  cases n with
  | nil =>
    rw [wnamego_nil] at hw
    simp only [Option.some.injEq] at hw
    subst hw
    exact ⟨(Nat.add_zero _).symm, (Nat.add_zero _).symm⟩
  | cons str ps rest =>
    rw [pfName] at hp
    simp only [Bool.and_eq_true, decide_eq_true_eq] at hp
    obtain ⟨⟨⟨hstrL, hstrR⟩, hps⟩, hrest⟩ := hp
    cases rest with
    | nil =>
      rw [wnamego_last] at hw
      show _ = s.count '(' + ((parList ps).1 + 0) ∧ _ = s.count ')' + ((parList ps).2 + 0)
      by_cases h0 : startsWith2 str '?' '0' = true
      · rw [if_pos h0] at hw
        cases h1 : writeParams ps (s ++ str.drop 2) with
        | none => simp only [h1] at hw; simp at hw
        | some s2 =>
          simp only [h1] at hw
          simp only [Option.some.injEq] at hw
          subst hw
          have ih := parList_count ps _ s2 hps h1
          constructor
          · rw [List.count_append, List.count_append, ih.1, List.count_append,
              count_drop_zero _ _ _ hstrL,
              (by decide : List.count '(' "::".data = 0)]
            omega
          · rw [List.count_append, List.count_append, ih.2, List.count_append,
              count_drop_zero _ _ _ hstrR,
              (by decide : List.count ')' "::".data = 0)]
            omega
      · rw [if_neg (by simpa using h0)] at hw
        by_cases h1 : startsWith2 str '?' '1' = true
        · rw [if_pos h1] at hw
          cases h2 : writeParams ps (s ++ str.drop 2) with
          | none => simp only [h2] at hw; simp at hw
          | some s2 =>
            simp only [h2] at hw
            simp only [Option.some.injEq] at hw
            subst hw
            have ih := parList_count ps _ s2 hps h2
            constructor
            · rw [List.count_append, List.count_append, ih.1, List.count_append,
                count_drop_zero _ _ _ hstrL,
                (by decide : List.count '(' "::~".data = 0)]
              omega
            · rw [List.count_append, List.count_append, ih.2, List.count_append,
                count_drop_zero _ _ _ hstrR,
                (by decide : List.count ')' "::~".data = 0)]
              omega
        · rw [if_neg (by simpa using h1)] at hw
          have ih := parTmpl_count ps _ s1 hps hw
          constructor
          · rw [ih.1, List.count_append, hstrL]
            omega
          · rw [ih.2, List.count_append, hstrR]
            omega
    | cons a b c =>
      rw [wnamego_cons] at hw
      cases h1 : writeTmpl ps (s ++ str) with
      | none => simp only [h1] at hw; simp at hw
      | some s2 =>
        simp only [h1] at hw
        have iht := parTmpl_count ps _ s2 hps h1
        have ihn := parNameGo_count (NameSeq.cons a b c) _ s1 hrest hw
        show _ = s.count '(' + ((parList ps).1 + (parName (NameSeq.cons a b c)).1) ∧
          _ = s.count ')' + ((parList ps).2 + (parName (NameSeq.cons a b c)).2)
        constructor
        · rw [ihn.1, List.count_append, iht.1, List.count_append, hstrL,
            (by decide : List.count '(' "::".data = 0)]
          omega
        · rw [ihn.2, List.count_append, iht.2, List.count_append, hstrR,
            (by decide : List.count ')' "::".data = 0)]
          omega

end

/-! ## Claim theorems -/

/-- C1 (counterexample): scenario 3 of the end-to-end list fails on the
source: `?x@@3PEAHEA` renders as `int*x` — the writer emits `*` directly
after the pointee's pre-fragment with no space — not `int *x` as claimed. -/
theorem C1_counterexample :
    demangle 100 "?x@@3PEAHEA" = Option.some "int*x" ∧ "int*x" ≠ "int *x" := by
  constructor
  · decide
  · decide

/-- C1 (amended): the six end-to-end inputs parse successfully and render
exactly as the source's writer produces them: scenarios 3 and 4 yield
`int*x` and `int const*x` (no space before `*`); the other four are as
claimed. -/
theorem C1_amended :
    demangle 100 "?x@@3HA" = Option.some "int x" ∧
    demangle 100 "?x@ns@@3HA" = Option.some "int ns::x" ∧
    demangle 100 "?x@@3PEAHEA" = Option.some "int*x" ∧
    demangle 100 "?x@@3PEBHEB" = Option.some "int const*x" ∧
    demangle 100 "?f@@YAHXZ" = Option.some "int f(void)" ∧
    demangle 100 "?g@@YAXH@Z" = Option.some "void g(int)" := by
  refine ⟨by decide, by decide, by decide, by decide, by decide, by decide⟩

/-- Auxiliary for C2: once the remaining input is empty, the `read_name`
loop never terminates — each iteration fails `consume("@")`, fails the
digit and `?$` tests, and `read_string` latches an error without
consuming, so the loop repeats on an unchanged (empty) input forever. -/
theorem read_name_loop_empty (fuel : Nat) :
    ∀ (head : NameSeq) (st : PState), st.input = [] →
      read_name_loop fuel head st = Option.none := by
  induction fuel with
  | zero => intro head st h; rfl
  | succ n ih =>
    intro head st h
    rw [read_name_loop]
    simp only [consume, h, startswithD, read_string]
    norm_num [List.isPrefixOf, List.findIdx?]
    exact ih _ _ (by simp [setErr, h])

/-- C2 (code bug): the leading-`'?'` check in `parse()` is missing its
`return`, so input that does not begin with `'?'` is *not* echoed: the
function falls through into `read_name()`.  `x@@3HA` therefore demangles
as a mangled symbol (`int x` instead of the claimed echo `x@@3HA`), and
on empty input `read_name`'s loop never terminates (the parse diverges:
no amount of fuel makes the model return). -/
theorem C2_theorem :
    (demangle 100 "x@@3HA" = Option.some "int x" ∧ "int x" ≠ "x@@3HA") ∧
    ∀ fuel : Nat, parseD fuel [] = Option.none := by
  refine ⟨⟨by decide, by decide⟩, ?_⟩
  intro fuel
  match fuel with
  | 0 => rfl
  | n + 1 =>
    have h : read_name_loop n .nil ⟨[], "", [], false⟩ = Option.none :=
      read_name_loop_empty n .nil _ rfl
    simp [parseD, read_name, consume, h]

/-- C3 (code bug): in the digit branch of `read_params` the source copies
the back-referenced node and then runs `tp = &(*tp)->next;
(*tp)->next = nullptr;` — it advances `tp` *before* clearing, so it
dereferences the copied `next` pointer.  For `?x@@3P6AXPEAH0@Z` the
back-referenced parameter (`PEAH`, the most recently linked node) has a
null `next`, and the run dereferences null instead of appending a
duplicate as the claim states. -/
theorem C3_theorem :
    parseUB 100 "?x@@3P6AXPEAH0@Z" = Option.some true := by decide

/-- C4 (code bug): the memoization guard is `input.len - len > 1` with
`size_t` operands in the wrong order; after consuming n ≥ 1 bytes the
difference wraps to `2^64 - n > 1`, so every parameter that consumes at
least one byte is memoized — including single-byte primitives, contrary
to the claim.  In `?f@@YAXHH0@Z` the single-byte `H` parameters are
memoized, so the back-reference `0` resolves (instead of failing with
"invalid backreference") and the parse succeeds with output
`void f(int,int)` and an empty error. -/
theorem C4_theorem :
    parseErr 100 "?f@@YAXHH0@Z" = Option.some "" ∧
    demangle 100 "?f@@YAXHH0@Z" = Option.some "void f(int,int)" := by
  exact ⟨by decide, by decide⟩

/-- C6 (counterexample): a constructor component with template
parameters renders them with *no* parentheses: the writer emits
`S`, then the raw comma-separated parameter list, then `::S`.  For
`??$?0Foo@H@@3HA` the output is `int Fooint::Foo`, not the claimed
argument-list form `int Foo(int)::Foo`. -/
theorem C6_counterexample :
    demangle 100 "??$?0Foo@H@@3HA" = Option.some "int Fooint::Foo" ∧
    "int Fooint::Foo" ≠ "int Foo(int)::Foo" := by
  exact ⟨by decide, by decide⟩

end MD

namespace MD

/-- C6 (amended): rendering a qualified name emits every component except
the last as identifier + template list + `::`; the last component with a
`?0` identifier renders as `S`, then its template parameters as a bare
comma-separated list with no enclosing delimiters, then `::S`; a `?1`
identifier renders `S`, parameters, `::~S`.  The concrete inputs
exercise the ctor and dtor branches end to end. -/
theorem C6_amended :
    (∀ (str : Chars) (ps : TyList) (a : Chars) (b : TyList) (c : NameSeq) (s : Chars),
      writeNameGo (.cons str ps (.cons a b c)) s =
        (writeTmpl ps (s ++ str)).bind
          (fun s1 => writeNameGo (.cons a b c) (s1 ++ "::".data))) ∧
    (∀ (str : Chars) (ps : TyList) (s : Chars), startsWith2 str '?' '0' = true →
      writeName (.cons str ps .nil) s =
        (writeParams ps (write_space s ++ str.drop 2)).map
          (fun s1 => s1 ++ "::".data ++ str.drop 2)) ∧
    (∀ (str : Chars) (ps : TyList) (s : Chars), startsWith2 str '?' '1' = true →
      writeName (.cons str ps .nil) s =
        (writeParams ps (write_space s ++ str.drop 2)).map
          (fun s1 => s1 ++ "::~".data ++ str.drop 2)) ∧
    demangle 100 "??$?1Bar@H@@3HA" = Option.some "int Barint::~Bar" := by
  refine ⟨?_, ?_, ?_, by decide⟩
  · intro str ps a b c s
    rw [writeNameGo]
    cases writeTmpl ps (s ++ str) <;> rfl
  · intro str ps s h
    rw [writeName, writeNameGo]
    have h1 : startsWith2 str '?' '0' = true := h
    rw [h1]
    simp only [if_true]
    cases writeParams ps (write_space s ++ str.drop 2) <;> rfl
  · intro str ps s h
    rw [writeName, writeNameGo]
    rw [h]
    have h0 : startsWith2 str '?' '0' = false := by
      cases str with
      | nil => rfl
      | cons x rest =>
        cases rest with
        | nil => rfl
        | cons y rest2 =>
          simp only [startsWith2] at h ⊢
          simp only [decide_eq_true_eq] at h
          simp only [decide_eq_false_iff_not]
          rintro ⟨rfl, rfl⟩
          exact absurd h.2 (by decide)
    rw [h0]
    simp only [if_true, if_false, Bool.false_eq_true]
    cases writeParams ps (write_space s ++ str.drop 2) <;> rfl

/-- Witness for C6 (amended), applying it at concrete components. -/
theorem C6_amended_witness :
    writeName (.cons ['?', '1', 'B'] .nil .nil) [] =
      (writeParams .nil (write_space [] ++ (['?', '1', 'B'] : Chars).drop 2)).map
        (fun s1 => s1 ++ "::~".data ++ (['?', '1', 'B'] : Chars).drop 2) :=
  C6_amended.2.2.1 ['?', '1', 'B'] .nil [] (by decide)


/-- C5: the writer inserts grouping parentheses exactly around a
`Ptr`/`Ref` whose immediate pointee is a `Function` or `Array`, and
nowhere else.  Conjuncts: (1) for such a pointer/reference `write_pre`
emits the pointee's pre-fragment, `(`, then `*` or `&` (and for a
Function/Array pointee that pre-fragment is the inner return/element
type's pre-fragment), and `write_post` first emits the matching `)` and
then recurses into the pointee, whose post-fragment is the `(params)`
list or the `[n]` bound; (2) globally, when no identifier contains a
parenthesis character, the number of `(` and `)` emitted by
`write_pre`/`write_post` is exactly `parPre`/`parPost`, whose only
positive contributions are the Function parameter list and the grouped
pointer/reference — every other variant contributes none. -/
theorem C5_theorem :
    (∀ (c : CType) (sc : Nat) (cc : CallingConv) (fc ln : Nat) (nm : NameSeq)
        (ps : TyList) (s : Chars), c.prim = PrimTy.Function ∨ c.prim = PrimTy.Array →
      writePre (.mk .Ptr (.some c) sc cc fc ln nm ps) s =
        (writePre c s).map (fun s1 => constTail sc (s1 ++ ['(', '*'])) ∧
      writePre (.mk .Ref (.some c) sc cc fc ln nm ps) s =
        (writePre c s).map (fun s1 => constTail sc (s1 ++ ['(', '&'])) ∧
      writePost (.mk .Ptr (.some c) sc cc fc ln nm ps) s = writePost c (s ++ [')']) ∧
      writePost (.mk .Ref (.some c) sc cc fc ln nm ps) s = writePost c (s ++ [')'])) ∧
    (∀ (r : CType) (sc : Nat) (cc : CallingConv) (fc ln : Nat) (nm : NameSeq)
        (ps : TyList) (s : Chars),
      writePre (.mk .Function (.some r) sc cc fc ln nm ps) s = writePre r s ∧
      writePre (.mk .Array (.some r) sc cc fc ln nm ps) s =
        (match writePre r s with
         | Option.none => Option.none
         | Option.some s1 => Option.some (constTail sc s1)) ∧
      writePost (.mk .Function (.some r) sc cc fc ln nm ps) s =
        (match writeParams ps (s ++ ['(']) with
         | Option.none => Option.none
         | Option.some s1 => Option.some (postConst sc (s1 ++ [')']))) ∧
      writePost (.mk .Array (.some r) sc cc fc ln nm ps) s =
        writePost r (s ++ ['['] ++ natChars ln ++ [']'])) ∧
    (∀ (t : CType) (s s1 : Chars), pfT t = true → writePre t s = Option.some s1 →
      s1.count '(' = s.count '(' + (parPre t).1 ∧
      s1.count ')' = s.count ')' + (parPre t).2) ∧
    (∀ (t : CType) (s s1 : Chars), pfT t = true → writePost t s = Option.some s1 →
      s1.count '(' = s.count '(' + (parPost t).1 ∧
      s1.count ')' = s.count ')' + (parPost t).2) := by
  refine ⟨?_, ?_, parPre_count, parPost_count⟩
  · intro c sc cc fc ln nm ps s hg
    refine ⟨?_, ?_, ?_, ?_⟩
    · rw [wpre_ptr_some]
      cases writePre c s with
      | none => rfl
      | some s2 => simp [if_pos hg]
    · rw [wpre_ref_some]
      cases writePre c s with
      | none => rfl
      | some s2 => simp [if_pos hg]
    · rw [wpost_ptr_some, if_pos hg]
    · rw [wpost_ref_some, if_pos hg]
  · intro r sc cc fc ln nm ps s
    exact ⟨wpre_function_some r sc cc fc ln nm ps s, wpre_array_some r sc cc fc ln nm ps s,
           wpost_function (.some r) sc cc fc ln nm ps s, wpost_array_some r sc cc fc ln nm ps s⟩

/-- Witness for C5 at a concrete pointer-to-function node and a concrete
count instance. -/
theorem C5_witness :
    (writePre (.mk .Ptr (.some (defTy.setPrim .Function)) 0 .Cdecl 0 0 .nil .nil) [] =
      (writePre (defTy.setPrim .Function) []).map (fun s1 => constTail 0 (s1 ++ ['(', '*'])) ∧
     writePre (.mk .Ref (.some (defTy.setPrim .Function)) 0 .Cdecl 0 0 .nil .nil) [] =
      (writePre (defTy.setPrim .Function) []).map (fun s1 => constTail 0 (s1 ++ ['(', '&'])) ∧
     writePost (.mk .Ptr (.some (defTy.setPrim .Function)) 0 .Cdecl 0 0 .nil .nil) [] =
      writePost (defTy.setPrim .Function) ([] ++ [')']) ∧
     writePost (.mk .Ref (.some (defTy.setPrim .Function)) 0 .Cdecl 0 0 .nil .nil) [] =
      writePost (defTy.setPrim .Function) ([] ++ [')'])) ∧
    (([] : Chars).count '(' = ([] : Chars).count '(' + (parPre defTy).1 ∧
     ([] : Chars).count ')' = ([] : Chars).count ')' + (parPre defTy).2) :=
  ⟨C5_theorem.1 (defTy.setPrim .Function) 0 .Cdecl 0 0 .nil .nil []
     (Or.inl (by decide)),
   C5_theorem.2.2.1 defTy [] [] (by decide) rfl⟩


mutual

/-- Totality of `write_pre` on invariant trees: the unguarded child
dereferences never hit a null pointer. -/
theorem wtotal_pre (t : CType) (h : invT t = true) (s : Chars) :
    ∃ o, writePre t s = Option.some o := by
  cases t with
  | mk prim ptr sclass cc fc len name params =>
    rw [invT] at h
    simp only [Bool.and_eq_true] at h
    obtain ⟨⟨⟨hpp, hptr⟩, hname⟩, hparams⟩ := h
    cases prim
    case Function =>
      cases ptr with
      | none => exact absurd hpp (by decide)
      | some c =>
        rw [wpre_function_some]
        simp only [invOpt] at hptr
        exact wtotal_pre c hptr s
    case Ptr =>
      cases ptr with
      | none => exact absurd hpp (by decide)
      | some c =>
        simp only [invOpt] at hptr
        obtain ⟨s2, hcs⟩ := wtotal_pre c hptr s
        rw [wpre_ptr_some]
        simp only [hcs]
        exact ⟨_, rfl⟩
    case Ref =>
      cases ptr with
      | none => exact absurd hpp (by decide)
      | some c =>
        simp only [invOpt] at hptr
        obtain ⟨s2, hcs⟩ := wtotal_pre c hptr s
        rw [wpre_ref_some]
        simp only [hcs]
        exact ⟨_, rfl⟩
    case Array =>
      cases ptr with
      | none => exact absurd hpp (by decide)
      | some c =>
        simp only [invOpt] at hptr
        obtain ⟨s2, hcs⟩ := wtotal_pre c hptr s
        rw [wpre_array_some]
        simp only [hcs]
        exact ⟨_, rfl⟩
    case Struct =>
      cases name with
      | nil => exact ⟨_, rfl⟩
      | cons a b c =>
        simp only [invName, Bool.and_eq_true] at hname
        obtain ⟨s2, hng⟩ := wtotal_namego (.cons a b c)
          (by simp only [invName, Bool.and_eq_true]; exact hname)
          (write_space (s ++ "struct ".data))
        rw [wpre_struct_cons]
        simp only [hng]
        exact ⟨_, rfl⟩
    case Union =>
      cases name with
      | nil => exact ⟨_, rfl⟩
      | cons a b c =>
        simp only [invName, Bool.and_eq_true] at hname
        obtain ⟨s2, hng⟩ := wtotal_namego (.cons a b c)
          (by simp only [invName, Bool.and_eq_true]; exact hname)
          (write_space (s ++ "union ".data))
        rw [wpre_union_cons]
        simp only [hng]
        exact ⟨_, rfl⟩
    case Class =>
      cases name with
      | nil => exact ⟨_, rfl⟩
      | cons a b c =>
        simp only [invName, Bool.and_eq_true] at hname
        obtain ⟨s2, hng⟩ := wtotal_namego (.cons a b c)
          (by simp only [invName, Bool.and_eq_true]; exact hname)
          (write_space (s ++ "class ".data))
        rw [wpre_class_cons]
        simp only [hng]
        exact ⟨_, rfl⟩
    case Enum =>
      cases name with
      | nil => exact ⟨_, rfl⟩
      | cons a b c =>
        simp only [invName, Bool.and_eq_true] at hname
        obtain ⟨s2, hng⟩ := wtotal_namego (.cons a b c)
          (by simp only [invName, Bool.and_eq_true]; exact hname)
          (write_space (s ++ "enum ".data))
        rw [wpre_enum_cons]
        simp only [hng]
        exact ⟨_, rfl⟩
    all_goals exact ⟨_, rfl⟩

/-- Totality of `write_post` on invariant trees. -/
theorem wtotal_post (t : CType) (h : invT t = true) (s : Chars) :
    ∃ o, writePost t s = Option.some o := by
  cases t with
  | mk prim ptr sclass cc fc len name params =>
    rw [invT] at h
    simp only [Bool.and_eq_true] at h
    obtain ⟨⟨⟨hpp, hptr⟩, hname⟩, hparams⟩ := h
    cases prim
    case Function =>
      obtain ⟨s2, hps⟩ := wtotal_params params hparams (s ++ ['('])
      rw [wpost_function]
      simp only [hps]
      exact ⟨_, rfl⟩
    case Ptr =>
      cases ptr with
      | none => exact absurd hpp (by decide)
      | some c =>
        simp only [invOpt] at hptr
        rw [wpost_ptr_some]
        exact wtotal_post c hptr _
    case Ref =>
      cases ptr with
      | none => exact absurd hpp (by decide)
      | some c =>
        simp only [invOpt] at hptr
        rw [wpost_ref_some]
        exact wtotal_post c hptr _
    case Array =>
      cases ptr with
      | none => exact absurd hpp (by decide)
      | some c =>
        simp only [invOpt] at hptr
        rw [wpost_array_some]
        exact wtotal_post c hptr _
    all_goals exact ⟨_, rfl⟩

/-- Totality of `write_params` on invariant parameter lists. -/
theorem wtotal_params (l : TyList) (h : invList l = true) (s : Chars) :
    ∃ o, writeParams l s = Option.some o := by
  cases l with
  | nil => exact ⟨_, rfl⟩
  | cons t ts =>
    rw [invList] at h
    simp only [Bool.and_eq_true] at h
    obtain ⟨ht, hts⟩ := h
    obtain ⟨s1, h1⟩ := wtotal_pre t ht s
    obtain ⟨s2, h2⟩ := wtotal_post t ht s1
    obtain ⟨s3, h3⟩ := wtotal_paramsRest ts hts s2
    rw [wparams_cons]
    simp only [h1, h2]
    exact ⟨_, h3⟩

theorem wtotal_paramsRest (l : TyList) (h : invList l = true) (s : Chars) :
    ∃ o, writeParamsRest l s = Option.some o := by
  cases l with
  | nil => exact ⟨_, rfl⟩
  | cons t ts =>
    rw [invList] at h
    simp only [Bool.and_eq_true] at h
    obtain ⟨ht, hts⟩ := h
    obtain ⟨s1, h1⟩ := wtotal_pre t ht (s ++ [','])
    obtain ⟨s2, h2⟩ := wtotal_post t ht s1
    obtain ⟨s3, h3⟩ := wtotal_paramsRest ts hts s2
    rw [wparamsRest_cons]
    simp only [h1, h2]
    exact ⟨_, h3⟩

theorem wtotal_tmpl (l : TyList) (h : invList l = true) (s : Chars) :
    ∃ o, writeTmpl l s = Option.some o := by
  cases l with
  | nil => exact ⟨_, rfl⟩
  | cons t ts =>
    rw [invList] at h
    simp only [Bool.and_eq_true] at h
    obtain ⟨ht, hts⟩ := h
    obtain ⟨s1, h1⟩ := wtotal_pre t ht (s ++ ['<'])
    obtain ⟨s2, h2⟩ := wtotal_post t ht s1
    obtain ⟨s3, h3⟩ := wtotal_paramsRest ts hts s2
    rw [wtmpl_cons]
    simp only [h1, h2, h3]
    exact ⟨_, rfl⟩

theorem wtotal_namego (n : NameSeq) (h : invName n = true) (s : Chars) :
    ∃ o, writeNameGo n s = Option.some o := by
  cases n with
  | nil => exact ⟨_, rfl⟩
  | cons str ps rest =>
    rw [invName] at h
    simp only [Bool.and_eq_true] at h
    obtain ⟨hps, hrest⟩ := h
    cases rest with
    | nil =>
      rw [wnamego_last]
      split
      · obtain ⟨s1, h1⟩ := wtotal_params ps hps (s ++ str.drop 2)
        simp only [h1]
        exact ⟨_, rfl⟩
      · split
        · obtain ⟨s1, h1⟩ := wtotal_params ps hps (s ++ str.drop 2)
          simp only [h1]
          exact ⟨_, rfl⟩
        · exact wtotal_tmpl ps hps _
    | cons a b c =>
      obtain ⟨s1, h1⟩ := wtotal_tmpl ps hps (s ++ str)
      obtain ⟨s2, h2⟩ := wtotal_namego (.cons a b c) hrest (s1 ++ "::".data)
      rw [wnamego_cons]
      simp only [h1]
      exact ⟨_, h2⟩

end

/-- Totality of `str()` on invariant trees and symbols. -/
theorem wtotal_strOut (ty : CType) (sym : NameSeq) (ht : invT ty = true)
    (hs : invName sym = true) : ∃ o, strOut ty sym = Option.some o := by
  obtain ⟨s1, h1⟩ := wtotal_pre ty ht []
  rw [strOut]
  simp only [h1]
  have h2 : ∃ o2, writeName sym s1 = Option.some o2 := by
    cases sym with
    | nil => exact ⟨_, rfl⟩
    | cons a b c => exact wtotal_namego (.cons a b c) hs (write_space s1)
  obtain ⟨s2, h2⟩ := h2
  simp only [h2]
  exact wtotal_post ty ht s2

/-- C7: the `repeated_names` back-reference table is append-only with at
most ten distinct entries throughout a parse (every successful component
run only appends, preserves the ten-entry bound, and preserves freedom
from duplicates; a whole successful `parse()` therefore ends within
bounds); `memorize_string` appends exactly when the table has at most
nine entries and does not already contain the string; and a digit
component in a name sequence succeeds exactly when the digit is below the
table size, yielding the stored identifier at that index, and otherwise
fails with the "name reference too large" error. -/
theorem C7_theorem :
    (∀ (fuel : Nat) (st : PState) (r : NameSeq × PState),
        read_name fuel st = Option.some r → NStep st r.2) ∧
    (∀ (fuel : Nat) (st : PState) (r : TyList × PState),
        read_params fuel st = Option.some r → NStep st r.2) ∧
    (∀ (s : Chars) (st : PState),
        (memorize_string s st).names =
          if st.names.length ≤ 9 ∧ st.names.contains s = false
          then st.names ++ [s] else st.names) ∧
    (∀ (fuel : Nat) (s : Chars) (r : PResult),
        parseD fuel s = Option.some r → r.names.length ≤ 10 ∧ r.names.Nodup) ∧
    (∀ (fuel : Nat) (head : NameSeq) (st : PState), startswithD st.input = true →
      (st.names.length ≤ digitVal st.input →
        read_name_loop (fuel + 1) head st =
          Option.some (.nil,
            setErr ("name reference too large: " ++ String.mk st.input) st)) ∧
      (digitVal st.input < st.names.length →
        read_name_loop (fuel + 1) head st =
          read_name_loop fuel
            (.cons (st.names.getD (digitVal st.input) []) .nil head)
            { st with input := st.input.drop 1 })) :=
  ⟨fun fuel => (nstep_components fuel).2.1,
   fun fuel => (nstep_components fuel).2.2.1,
   memorize_characterization,
   nstep_parse,
   read_name_digit_iff⟩

/-- Witness for C7: a concrete successful `read_name` run that memoizes
one identifier, and the two digit-branch equations at a concrete state. -/
theorem C7_witness :
    NStep ⟨['a', '@', '@'], "", [], false⟩ ⟨[], "", [['a']], false⟩ ∧
    (read_name_loop 6 .nil ⟨['0', '@'], "", [['a']], false⟩ =
       read_name_loop 5 (.cons ['a'] .nil .nil)
         ⟨['@'], "", [['a']], false⟩) ∧
    (read_name_loop 6 .nil ⟨['1', '@'], "", [['a']], false⟩ =
       Option.some (.nil,
         setErr ("name reference too large: " ++ String.mk ['1', '@'])
           ⟨['1', '@'], "", [['a']], false⟩)) :=
  ⟨C7_theorem.1 5 ⟨['a', '@', '@'], "", [], false⟩
      (.cons ['a'] .nil .nil, ⟨[], "", [['a']], false⟩) (by rfl),
   (C7_theorem.2.2.2.2 5 .nil ⟨['0', '@'], "", [['a']], false⟩ (by decide)).2
      (by decide),
   (C7_theorem.2.2.2.2 5 .nil ⟨['1', '@'], "", [['a']], false⟩ (by decide)).1
      (by decide)⟩


/-- C8: every `Type` tree a completed `parse()` produces with an empty
error has a non-null child under every `Pointer`, `Reference`, `Array`
and `Function` node (recursively, including template parameters and
parameter lists), and on such trees the writer's unguarded child
dereferences in `write_pre`/`write_post` always succeed, so `str()`
renders without hitting a null pointer. -/
theorem C8_theorem :
    (∀ (fuel : Nat) (s : Chars) (r : PResult), parseD fuel s = Option.some r →
        r.err = "" → invT r.ty = true ∧ invName r.symbol = true) ∧
    (∀ (t : CType) (s : Chars), invT t = true →
        ∃ o, writePre t s = Option.some o) ∧
    (∀ (t : CType) (s : Chars), invT t = true →
        ∃ o, writePost t s = Option.some o) ∧
    (∀ (fuel : Nat) (s : Chars) (r : PResult), parseD fuel s = Option.some r →
        r.err = "" → ∃ o, strOut r.ty r.symbol = Option.some o) :=
  ⟨fun fuel s r h _ => inv_parse fuel s r h,
   fun t s h => wtotal_pre t h s,
   fun t s h => wtotal_post t h s,
   fun fuel s r h _ =>
     wtotal_strOut _ _ (inv_parse fuel s r h).1 (inv_parse fuel s r h).2⟩

/-- Witness for C8 at the parse of `"?x@@3HA"` and its rendered tree. -/
theorem C8_witness :
    (invT (defTy.setPrim PrimTy.Int) = true ∧
      invName (.cons ['x'] .nil .nil) = true) ∧
    (∃ o, writePre (defTy.setPrim PrimTy.Int) [] = Option.some o) ∧
    (∃ o, strOut (defTy.setPrim PrimTy.Int)
      (.cons ['x'] .nil .nil) = Option.some o) :=
  ⟨C8_theorem.1 60 ('?' :: 'x' :: '@' :: '@' :: '3' :: 'H' :: 'A' :: [])
      ⟨"", [['x']], false, ['A'], defTy.setPrim PrimTy.Int, .cons ['x'] .nil .nil⟩
      (by rfl) rfl,
   C8_theorem.2.1 (defTy.setPrim PrimTy.Int) [] (by decide),
   C8_theorem.2.2.2 60 ('?' :: 'x' :: '@' :: '@' :: '3' :: 'H' :: 'A' :: [])
      ⟨"", [['x']], false, ['A'], defTy.setPrim PrimTy.Int, .cons ['x'] .nil .nil⟩
      (by rfl) rfl⟩


/-- C9 counterexample: parse() succeeds on `"? x@@3HA"` (the memoized
identifier is `" x"`, beginning with a space) and `str()` returns
`"int  x"` with two consecutive spaces; parse() also succeeds on
`"?x@@3PEAU@@EA"` (a pointer to an anonymous struct) and `str()` returns
`"struct *x"`, a space immediately followed by the punctuation character
`'*'`. -/
theorem C9_counterexample :
    demangle 60 "? x@@3HA" = Option.some "int  x" ∧
    "int  x".data = ['i', 'n', 't', ' ', ' ', 'x'] ∧
    demangle 60 "?x@@3PEAU@@EA" = Option.some "struct *x" ∧
    "struct *x".data = ['s', 't', 'r', 'u', 'c', 't', ' ', '*', 'x'] ∧
    pairsOK ("int  x").data = false ∧
    pairsOK ("struct *x").data = false :=
  ⟨by rfl, by rfl, by rfl, by rfl, by decide, by decide⟩

/-- C9 (amended): the spacing helper appends one space exactly when the
buffer's last character is alphabetic, and `str()` contains no space
followed by a non-alphanumeric character (no doubled space, no space
before punctuation) whenever every identifier interpolated into the
output is a nonempty alphanumeric component (the final component may
carry a `?0`/`?1` tag with a nonempty alphanumeric remainder) and every
tagged struct/union/class/enum node carries a name. -/
theorem C9_amended :
    (∀ (s : Chars) (c : Char), s.getLast? = Option.some c → c.isAlpha = true →
        write_space s = s ++ [' ']) ∧
    (∀ (s : Chars) (c : Char), s.getLast? = Option.some c → c.isAlpha = false →
        write_space s = s) ∧
    (write_space [] = []) ∧
    (∀ (ty : CType) (sym : NameSeq) (out : Chars), wnT ty = true →
        wnName sym = true → strOut ty sym = Option.some out →
        pairsOK out = true) := by
  refine ⟨?_, ?_, rfl, fun ty sym out h1 h2 h => cl_strOut ty sym out h1 h2 h⟩
  · intro s c hL hA
    rw [write_space, hL]
    simp [hA]
  · intro s c hL hA
    rw [write_space, hL]
    simp [hA]

/-- Witness for C9 (amended) at concrete buffers and the parse tree of
`"?x@@3HA"`. -/
theorem C9_amended_witness :
    write_space ("int".data) = "int".data ++ [' '] ∧
    write_space ("int ".data) = "int ".data ∧
    pairsOK ("int x".data) = true :=
  ⟨C9_amended.1 "int".data 't' (by decide) (by decide),
   C9_amended.2.1 "int ".data ' ' (by decide) (by decide),
   C9_amended.2.2.2 (defTy.setPrim PrimTy.Int) (.cons ['x'] .nil .nil)
     ("int x".data) (by decide) (by decide) (by rfl)⟩

end MD
